import Mathlib

/-!
# Cell-list particle simulation (serial_optimized, serial_optimized_v2, openmp_critical, openmp_v3)

A shallow embedding of the four C++ variants of the 2-D short-range particle
simulation, and theorems about the grid, the neighbour enumeration, the force
kernels and the integrator.

Conventions of the embedding.

* `double` is modelled by an arbitrary linearly ordered field `α` with a floor
  function (`ℚ` for evaluation, `ℝ` for the intended exact real arithmetic).
  `sqrt` of `<cmath>` is a field of the constants record, `fmax` is `max`.
* `int` is modelled by the unbounded `ℤ` (cell coordinates and cell indices) or
  by `ℕ` (particle indices and live counts, which the code only ever resets to
  zero and increments). Where the 32-bit range matters (the grid dimensions,
  the cell count and the cell index) the operations are evaluated again with
  `wrap_int`, the reduction modulo `2^32`.
* Where rounding matters, the operations on `double` are evaluated over `ℚ`
  with `round_double` after each operation (`move_double`,
  `apply_force_double`).
* A C array reached through a pointer (`parts`, `grid.cells`,
  `neighbors_for_cell`, the fixed `particles[MAX_PER_CELL]`) is modelled by a
  function from indices to contents, updated with `Function.update`;
  references (`particle_t&`) are indices into that function, so aliasing of two
  references is represented.
* The global `grid` is passed explicitly.
* A `for` loop over `0 .. n-1` is a left fold over `List.range n`.
* The force loops thread a ghost log of the `apply_force` calls they make.
* A `while` loop (the reflections of `move`) is a recursion on a fuel counter
  that returns `none` when the fuel runs out; termination is proved as the
  existence of a fuel from which the result no longer changes.
* The OpenMP loops are run by one thread in index order; a lock is a Boolean.
-/

set_option linter.unusedSectionVars false

/-- Modelled from the spec: the external type `particle_t` of common.h, with
position `(x, y)`, velocity `(vx, vy)` and acceleration `(ax, ay)`. -/
structure particle_t (α : Type) where
  x : α
  y : α
  vx : α
  vy : α
  ax : α
  ay : α

/-- Modelled from the spec: the external constants `cutoff`, `min_r`, `mass`
and `dt` of common.h; the library function `sqrt` is carried in the same
record. -/
structure Consts (α : Type) where
  cutoff : α
  min_r : α
  mass : α
  dt : α
  sqrt : α → α

/-- The C++ conversion `(int)v` of a `double`: truncation towards zero. -/
def to_int {α : Type} [LinearOrderedField α] [FloorRing α] (v : α) : ℤ :=
  if 0 ≤ v then ⌊v⌋ else ⌈v⌉

/-- The particle array together with the ghost log of `apply_force` calls
`(subject, neighbour)` made so far, oldest first. -/
structure traced (α : Type) where
  parts : ℕ → particle_t α
  calls : List (ℕ × ℕ)

/-- The neighbour-list precomputation loop of `init_simulation`
(serial_optimized_v2.cpp lines 96-119, identical in openmp_v3.cpp lines
112-132), for a grid of `nx` by `ny` cells; `neighbors_for_cell` starts as an
array of empty vectors. -/
def precompute_neighbors (nx ny : ℤ) : ℤ → List ℤ :=
  (List.range ny.toNat).foldl (fun nb (cy : ℕ) =>
    (List.range nx.toNat).foldl (fun nb (cx : ℕ) =>
      let i : ℤ := (cy : ℤ) * nx + (cx : ℤ)
      ([-1, 0, 1] : List ℤ).foldl (fun nb dy =>
        let ny' : ℤ := (cy : ℤ) + dy
        if ny' < 0 ∨ ny' ≥ ny then nb
        else
          ([-1, 0, 1] : List ℤ).foldl (fun nb dx =>
            let nx' : ℤ := (cx : ℤ) + dx
            if nx' < 0 ∨ nx' ≥ nx then nb
            else
              let j : ℤ := ny' * nx + nx'
              if j ≥ i then Function.update nb i (nb i ++ [j]) else nb) nb) nb) nb)
    (fun _ => [])

/-- Auxiliary closed form of the kernels: the force `(fx, fy)` computed by
`apply_force` for the subject `p` and the neighbour `q`, and `(0, 0)` when the
cutoff test returns early. -/
def pair_force {α : Type} [LinearOrderedField α] (c : Consts α) (p q : particle_t α) : α × α :=
  let dx := q.x - p.x
  let dy := q.y - p.y
  let r2 := dx * dx + dy * dy
  if r2 > c.cutoff * c.cutoff then (0, 0)
  else
    let r2 := max r2 (c.min_r * c.min_r)
    let coef := (1 - c.cutoff / c.sqrt r2) / r2 / c.mass
    (coef * dx, coef * dy)

/-- The coefficient of the force law in the words of the specification:
`r2c = max(dx^2 + dy^2, min_r^2)`, `r = sqrt(r2c)` and
`coef = (1 - cutoff / r) / r2c / mass`. -/
def spec_coef {α : Type} [LinearOrderedField α] (c : Consts α) (dx dy : α) : α :=
  let r2c := max (dx ^ 2 + dy ^ 2) (c.min_r ^ 2)
  let r := c.sqrt r2c
  (1 - c.cutoff / r) / r2c / c.mass

namespace serial_optimized

/-- The dynamic cell: a `std::vector<int>` and the live count. -/
structure cell_t where
  particles : List ℕ
  size : ℕ

/-- The grid of serial_optimized.cpp. -/
structure grid_t (α : Type) where
  cells : ℤ → cell_t
  nx : ℤ
  ny : ℤ
  cell_size : α

variable {α : Type} [LinearOrderedField α] [FloorRing α]

/-- The function `add_to_cell` of serial_optimized.cpp (lines 19-33). -/
def add_to_cell (grid : grid_t α) (particle_idx : ℕ) (particle : particle_t α) : grid_t α :=
  let cell_x := to_int (particle.x / grid.cell_size)
  let cell_y := to_int (particle.y / grid.cell_size)
  let cell_idx := cell_y * grid.nx + cell_x
  let cell := grid.cells cell_idx
  let particles :=
    if cell.size < cell.particles.length then cell.particles.set cell.size particle_idx
    else cell.particles ++ [particle_idx]
  { grid with cells := Function.update grid.cells cell_idx ⟨particles, cell.size + 1⟩ }

/-- The function `apply_force` of serial_optimized.cpp (lines 36-53); the two
references are the indices `particle` and `neighbor` into `parts`. -/
def apply_force (c : Consts α) (parts : ℕ → particle_t α) (particle neighbor : ℕ) :
    ℕ → particle_t α :=
  let dx := (parts neighbor).x - (parts particle).x
  let dy := (parts neighbor).y - (parts particle).y
  let r2 := dx * dx + dy * dy
  if r2 > c.cutoff * c.cutoff then parts
  else
    let r2 := max r2 (c.min_r * c.min_r)
    let r := c.sqrt r2
    let coef := (1 - c.cutoff / r) / r2 / c.mass
    let parts1 := Function.update parts particle
      { parts particle with ax := (parts particle).ax + coef * dx }
    Function.update parts1 particle
      { parts1 particle with ay := (parts1 particle).ay + coef * dy }

/-- The function `init_simulation` of serial_optimized.cpp (lines 76-90). -/
def init_simulation (c : Consts α) (size : α) : grid_t α :=
  let cell_size := c.cutoff
  let nx := to_int (size / cell_size) + 1
  let ny := to_int (size / cell_size) + 1
  let cells : ℤ → cell_t := fun _ => ⟨[], 0⟩
  { cells := (List.range (nx * ny).toNat).foldl
      (fun cells (i : ℕ) => Function.update cells (i : ℤ) { cells (i : ℤ) with size := 0 }) cells
    nx := nx
    ny := ny
    cell_size := cell_size }

/-- The loop "Clear the grid" of `simulate_one_step` (lines 94-97). -/
def reset_cells (grid : grid_t α) : grid_t α :=
  (List.range (grid.nx * grid.ny).toNat).foldl
    (fun g (i : ℕ) =>
      { g with cells := Function.update g.cells (i : ℤ) { g.cells (i : ℤ) with size := 0 } })
    grid

/-- The loop "Add particles to the grid" of `simulate_one_step` (lines 100-102). -/
def populate (grid : grid_t α) (parts : ℕ → particle_t α) (num_parts : ℕ) : grid_t α :=
  (List.range num_parts).foldl (fun g i => add_to_cell g i (parts i)) grid

/-- One call `apply_force(parts[i], parts[k])`, recorded in the ghost log. -/
def call_apply_force (c : Consts α) (s : traced α) (i k : ℕ) : traced α :=
  { parts := apply_force c s.parts i k, calls := s.calls ++ [(i, k)] }

/-- The body of the loop "Compute forces" of `simulate_one_step` for the
particle `i` (lines 106-130). -/
def force_on_particle (c : Consts α) (grid : grid_t α) (s : traced α) (i : ℕ) : traced α :=
  let s0 : traced α :=
    { s with parts := Function.update s.parts i { s.parts i with ax := 0, ay := 0 } }
  let cell_x := to_int ((s0.parts i).x / grid.cell_size)
  let cell_y := to_int ((s0.parts i).y / grid.cell_size)
  ([-1, 0, 1] : List ℤ).foldl (fun s dx =>
    ([-1, 0, 1] : List ℤ).foldl (fun s dy =>
      let nx := cell_x + dx
      let ny := cell_y + dy
      if nx < 0 ∨ nx ≥ grid.nx ∨ ny < 0 ∨ ny ≥ grid.ny then s
      else
        let cell := grid.cells (ny * grid.nx + nx)
        (List.range cell.size).foldl
          (fun s j => call_apply_force c s i (cell.particles.getD j 0)) s) s) s0

/-- The loop "Compute forces" of `simulate_one_step` (lines 105-131). -/
def compute_forces (c : Consts α) (grid : grid_t α) (s : traced α) (num_parts : ℕ) : traced α :=
  (List.range num_parts).foldl (fun s i => force_on_particle c grid s i) s

/-- The first three phases of `simulate_one_step` of serial_optimized.cpp
(lines 93-131): reset, population and force evaluation, before `move`. -/
def force_pass (c : Consts α) (grid : grid_t α) (parts : ℕ → particle_t α) (num_parts : ℕ) :
    grid_t α × traced α :=
  let grid := populate (reset_cells grid) parts num_parts
  (grid, compute_forces c grid ⟨parts, []⟩ num_parts)

end serial_optimized

namespace openmp_critical

/-- The dynamic cell of openmp_critical.cpp: a `std::vector<int>` and the live
count. -/
structure cell_t where
  particles : List ℕ
  size : ℕ

/-- The grid of openmp_critical.cpp. -/
structure grid_t (α : Type) where
  cells : ℤ → cell_t
  nx : ℤ
  ny : ℤ
  cell_size : α

variable {α : Type} [LinearOrderedField α] [FloorRing α]

/-- The function `add_to_cell` of openmp_critical.cpp (lines 24-40), executed
by one thread: the body of the critical section runs without interruption. -/
def add_to_cell (grid : grid_t α) (particle_idx : ℕ) (particle : particle_t α) : grid_t α :=
  let cell_x := to_int (particle.x / grid.cell_size)
  let cell_y := to_int (particle.y / grid.cell_size)
  let cell_idx := cell_y * grid.nx + cell_x
  let cell := grid.cells cell_idx
  let particles :=
    if cell.size < cell.particles.length then cell.particles.set cell.size particle_idx
    else cell.particles ++ [particle_idx]
  { grid with cells := Function.update grid.cells cell_idx ⟨particles, cell.size + 1⟩ }

/-- The function `apply_force` of openmp_critical.cpp (lines 42-56). -/
def apply_force (c : Consts α) (parts : ℕ → particle_t α) (particle neighbor : ℕ) :
    ℕ → particle_t α :=
  let dx := (parts neighbor).x - (parts particle).x
  let dy := (parts neighbor).y - (parts particle).y
  let r2 := dx * dx + dy * dy
  if r2 > c.cutoff * c.cutoff then parts
  else
    let r2 := max r2 (c.min_r * c.min_r)
    let r := c.sqrt r2
    let coef := (1 - c.cutoff / r) / r2 / c.mass
    let parts1 := Function.update parts particle
      { parts particle with ax := (parts particle).ax + coef * dx }
    Function.update parts1 particle
      { parts1 particle with ay := (parts1 particle).ay + coef * dy }

/-- The function `init_simulation` of openmp_critical.cpp (lines 74-94). -/
def init_simulation (c : Consts α) (size : α) : grid_t α :=
  let cell_size := c.cutoff
  let nx := to_int (size / cell_size) + 1
  let ny := to_int (size / cell_size) + 1
  let cells : ℤ → cell_t := fun _ => ⟨[], 0⟩
  { cells := (List.range (nx * ny).toNat).foldl
      (fun cells (i : ℕ) => Function.update cells (i : ℤ) { cells (i : ℤ) with size := 0 }) cells
    nx := nx
    ny := ny
    cell_size := cell_size }

end openmp_critical

namespace serial_optimized_v2

/-- The constant `MAX_PER_CELL` of serial_optimized_v2.cpp. -/
def MAX_PER_CELL : ℕ := 8

/-- The fixed-capacity cell: `int particles[MAX_PER_CELL]` and the live count. -/
structure cell_t where
  particles : ℕ → ℕ
  size : ℕ

/-- The grid of serial_optimized_v2.cpp. -/
structure grid_t (α : Type) where
  cells : ℤ → cell_t
  nx : ℤ
  ny : ℤ
  cell_size : α

variable {α : Type} [LinearOrderedField α] [FloorRing α]

/-- The function `cell_index` of serial_optimized_v2.cpp (line 23). -/
def cell_index (grid : grid_t α) (cx cy : ℤ) : ℤ := cy * grid.nx + cx

/-- The function `add_to_cell` of serial_optimized_v2.cpp (lines 25-38). -/
def add_to_cell (grid : grid_t α) (pid : ℕ) (p : particle_t α) : grid_t α :=
  let cx := to_int (p.x / grid.cell_size)
  let cy := to_int (p.y / grid.cell_size)
  let cidx := cell_index grid cx cy
  let c := grid.cells cidx
  if c.size < MAX_PER_CELL then
    let c' : cell_t := ⟨Function.update c.particles c.size pid, c.size + 1⟩
    { grid with cells := Function.update grid.cells cidx c' }
  else grid

/-- The function `apply_force` of serial_optimized_v2.cpp (lines 41-61); the
two references are the indices `p1` and `p2` into `parts`, and the four
accumulations are carried out in the order of the source. -/
def apply_force (c : Consts α) (parts : ℕ → particle_t α) (p1 p2 : ℕ) : ℕ → particle_t α :=
  let dx := (parts p2).x - (parts p1).x
  let dy := (parts p2).y - (parts p1).y
  let r2 := dx * dx + dy * dy
  if r2 > c.cutoff * c.cutoff then parts
  else
    let r2 := max r2 (c.min_r * c.min_r)
    let r := c.sqrt r2
    let coef := (1 - c.cutoff / r) / r2 / c.mass
    let fx := coef * dx
    let fy := coef * dy
    let s1 := Function.update parts p1 { parts p1 with ax := (parts p1).ax + fx }
    let s2 := Function.update s1 p1 { s1 p1 with ay := (s1 p1).ay + fy }
    let s3 := Function.update s2 p2 { s2 p2 with ax := (s2 p2).ax - fx }
    Function.update s3 p2 { s3 p2 with ay := (s3 p2).ay - fy }

/-- The function `init_simulation` of serial_optimized_v2.cpp (lines 83-119):
the grid and `neighbors_for_cell`. The freshly allocated cell array is
`alloc`. -/
def init_simulation (c : Consts α) (size : α) (alloc : ℤ → cell_t) :
    grid_t α × (ℤ → List ℤ) :=
  let cell_size := c.cutoff * (5 / 2)
  let nx := to_int (size / cell_size) + 1
  let ny := to_int (size / cell_size) + 1
  let nCells := nx * ny
  let cells := (List.range nCells.toNat).foldl
    (fun cells (i : ℕ) => Function.update cells (i : ℤ) { cells (i : ℤ) with size := 0 }) alloc
  ({ cells := cells, nx := nx, ny := ny, cell_size := cell_size }, precompute_neighbors nx ny)

/-- The loop "Reset cells" of `simulate_one_step` (lines 131-133). -/
def reset_cells (grid : grid_t α) : grid_t α :=
  (List.range (grid.nx * grid.ny).toNat).foldl
    (fun g (i : ℕ) =>
      { g with cells := Function.update g.cells (i : ℤ) { g.cells (i : ℤ) with size := 0 } })
    grid

/-- The loop "Add particles to cells" of `simulate_one_step` (lines 136-138). -/
def populate (grid : grid_t α) (parts : ℕ → particle_t α) (num_parts : ℕ) : grid_t α :=
  (List.range num_parts).foldl (fun g i => add_to_cell g i (parts i)) grid

/-- The loop "Reset accelerations" of `simulate_one_step` (lines 141-144). -/
def reset_accelerations (parts : ℕ → particle_t α) (num_parts : ℕ) : ℕ → particle_t α :=
  (List.range num_parts).foldl
    (fun ps i => Function.update ps i { ps i with ax := 0, ay := 0 }) parts

/-- One call `apply_force(parts[p], parts[q])`, recorded in the ghost log. -/
def call_apply_force (c : Consts α) (s : traced α) (p q : ℕ) : traced α :=
  { parts := apply_force c s.parts p q, calls := s.calls ++ [(p, q)] }

/-- The loop "Apply forces" of `simulate_one_step` (lines 147-169). -/
def apply_forces (c : Consts α) (grid : grid_t α) (neighbors_for_cell : ℤ → List ℤ)
    (s : traced α) : traced α :=
  (List.range (grid.nx * grid.ny).toNat).foldl (fun s (i : ℕ) =>
    let c1 := grid.cells (i : ℤ)
    (neighbors_for_cell (i : ℤ)).foldl (fun s j =>
      let c2 := grid.cells j
      if j = (i : ℤ) then
        (List.range c1.size).foldl (fun s idx1 =>
          (List.Ico (idx1 + 1) c1.size).foldl (fun s idx2 =>
            call_apply_force c s (c1.particles idx1) (c1.particles idx2)) s) s
      else
        (List.range c1.size).foldl (fun s idx1 =>
          (List.range c2.size).foldl (fun s idx2 =>
            call_apply_force c s (c1.particles idx1) (c2.particles idx2)) s) s) s) s

/-- The first four phases of `simulate_one_step` of serial_optimized_v2.cpp
(lines 128-169): reset, population, acceleration reset and force evaluation,
before `move`. -/
def force_pass (c : Consts α) (grid : grid_t α) (neighbors_for_cell : ℤ → List ℤ)
    (parts : ℕ → particle_t α) (num_parts : ℕ) : grid_t α × traced α :=
  let grid := populate (reset_cells grid) parts num_parts
  (grid, apply_forces c grid neighbors_for_cell ⟨reset_accelerations parts num_parts, []⟩)

end serial_optimized_v2

namespace openmp_v3

/-- The constant `MAX_PER_CELL` of openmp_v3.cpp. -/
def MAX_PER_CELL : ℕ := 24

/-- The fixed-capacity cell of openmp_v3.cpp. -/
structure cell_t where
  particles : ℕ → ℕ
  size : ℕ

/-- The grid of openmp_v3.cpp; a lock is `true` while it is held. -/
structure grid_t (α : Type) where
  cells : ℤ → cell_t
  nx : ℤ
  ny : ℤ
  cell_size : α
  locks : ℤ → Bool

variable {α : Type} [LinearOrderedField α] [FloorRing α]

/-- The function `cell_index` of openmp_v3.cpp (line 25). -/
def cell_index (grid : grid_t α) (cx cy : ℤ) : ℤ := cy * grid.nx + cx

/-- The function `add_to_cell` of openmp_v3.cpp (lines 28-43), executed by one
thread that finds the lock of the cell free: the lock is taken, the insertion
is made if the cell is not full, and the lock is released. -/
def add_to_cell (grid : grid_t α) (pid : ℕ) (p : particle_t α) : grid_t α :=
  let cx := to_int (p.x / grid.cell_size)
  let cy := to_int (p.y / grid.cell_size)
  let cidx := cell_index grid cx cy
  let c := grid.cells cidx
  let locked : grid_t α := { grid with locks := Function.update grid.locks cidx true }
  let stored : grid_t α :=
    if c.size < MAX_PER_CELL then
      let c' : cell_t := ⟨Function.update c.particles c.size pid, c.size + 1⟩
      { locked with cells := Function.update locked.cells cidx c' }
    else locked
  { stored with locks := Function.update stored.locks cidx false }

/-- The function `apply_force` of openmp_v3.cpp (lines 46-70); each
`#pragma omp atomic` accumulation is one step of the sequence. -/
def apply_force (c : Consts α) (parts : ℕ → particle_t α) (p1 p2 : ℕ) : ℕ → particle_t α :=
  let dx := (parts p2).x - (parts p1).x
  let dy := (parts p2).y - (parts p1).y
  let r2 := dx * dx + dy * dy
  if r2 > c.cutoff * c.cutoff then parts
  else
    let r2 := max r2 (c.min_r * c.min_r)
    let r := c.sqrt r2
    let coef := (1 - c.cutoff / r) / r2 / c.mass
    let fx := coef * dx
    let fy := coef * dy
    let s1 := Function.update parts p1 { parts p1 with ax := (parts p1).ax + fx }
    let s2 := Function.update s1 p1 { s1 p1 with ay := (s1 p1).ay + fy }
    let s3 := Function.update s2 p2 { s2 p2 with ax := (s2 p2).ax - fx }
    Function.update s3 p2 { s3 p2 with ay := (s3 p2).ay - fy }

/-- The function `init_simulation` of openmp_v3.cpp (lines 92-133): the grid
and `neighbors_for_cell`. The freshly allocated arrays of cells and of locks
are `alloc` and `lock_alloc`; the parallel initialisation loop is run in index
order. -/
def init_simulation (c : Consts α) (num_parts : ℕ) (size : α) (alloc : ℤ → cell_t)
    (lock_alloc : ℤ → Bool) : grid_t α × (ℤ → List ℤ) :=
  let cell_size := if num_parts > 300000 then c.cutoff * 5 else c.cutoff * (5 / 2)
  let nx := to_int (size / cell_size) + 1
  let ny := to_int (size / cell_size) + 1
  let nCells := nx * ny
  let arrays := (List.range nCells.toNat).foldl
    (fun (s : (ℤ → cell_t) × (ℤ → Bool)) (i : ℕ) =>
      (Function.update s.1 (i : ℤ) { s.1 (i : ℤ) with size := 0 },
        Function.update s.2 (i : ℤ) false))
    (alloc, lock_alloc)
  ({ cells := arrays.1, nx := nx, ny := ny, cell_size := cell_size, locks := arrays.2 },
    precompute_neighbors nx ny)

end openmp_v3

/-- The geometry `(cell_size, nx, ny)` of a grid of serial_optimized.cpp. -/
def serial_optimized.geometry {α : Type} (g : serial_optimized.grid_t α) : α × ℤ × ℤ :=
  (g.cell_size, g.nx, g.ny)

/-- The geometry `(cell_size, nx, ny)` of a grid of openmp_critical.cpp. -/
def openmp_critical.geometry {α : Type} (g : openmp_critical.grid_t α) : α × ℤ × ℤ :=
  (g.cell_size, g.nx, g.ny)

/-- The geometry `(cell_size, nx, ny)` of a grid of serial_optimized_v2.cpp. -/
def serial_optimized_v2.geometry {α : Type} (g : serial_optimized_v2.grid_t α) : α × ℤ × ℤ :=
  (g.cell_size, g.nx, g.ny)

/-- The geometry `(cell_size, nx, ny)` of a grid of openmp_v3.cpp. -/
def openmp_v3.geometry {α : Type} (g : openmp_v3.grid_t α) : α × ℤ × ℤ :=
  (g.cell_size, g.nx, g.ny)

/-- Auxiliary: the indices pushed for the cell `(cx, cy)` of index `i` while
the precomputation scans the row `ny'`. -/
def neighbor_row (nx cx i ny' : ℤ) : List ℤ :=
  ([-1, 0, 1] : List ℤ).flatMap fun dx =>
    if cx + dx < 0 ∨ cx + dx ≥ nx then []
    else if ny' * nx + (cx + dx) ≥ i then [ny' * nx + (cx + dx)] else []

/-- Auxiliary: the indices pushed for the cell `(cx, cy)` by the three row
scans of the precomputation, in order. -/
def neighbor_block (nx ny cx cy : ℤ) : List ℤ :=
  ([-1, 0, 1] : List ℤ).flatMap fun dy =>
    if cy + dy < 0 ∨ cy + dy ≥ ny then [] else neighbor_row nx cx (cy * nx + cx) (cy + dy)

/-- Auxiliary: the linear index `cell_idx` that `add_to_cell` of
serial_optimized.cpp computes for a particle. -/
def serial_optimized.cell_of {α : Type} [LinearOrderedField α] [FloorRing α]
    (grid : serial_optimized.grid_t α) (p : particle_t α) : ℤ :=
  to_int (p.y / grid.cell_size) * grid.nx + to_int (p.x / grid.cell_size)

/-- The live prefix `particles[0 .. size)` of a dynamic cell. -/
def serial_optimized.live (cell : serial_optimized.cell_t) : List ℕ :=
  cell.particles.take cell.size

/-- Auxiliary: the particle indices that the 3x3 scan of "Compute forces" in
serial_optimized.cpp visits for a subject at the position of `p`, in loop
order. -/
def serial_optimized.visited {α : Type} [LinearOrderedField α] [FloorRing α]
    (grid : serial_optimized.grid_t α) (p : particle_t α) : List ℕ :=
  ([-1, 0, 1] : List ℤ).flatMap fun dx =>
    ([-1, 0, 1] : List ℤ).flatMap fun dy =>
      if to_int (p.x / grid.cell_size) + dx < 0 ∨ to_int (p.x / grid.cell_size) + dx ≥ grid.nx
          ∨ to_int (p.y / grid.cell_size) + dy < 0
          ∨ to_int (p.y / grid.cell_size) + dy ≥ grid.ny then []
      else
        (List.range (grid.cells ((to_int (p.y / grid.cell_size) + dy) * grid.nx
            + (to_int (p.x / grid.cell_size) + dx))).size).map fun j =>
          (grid.cells ((to_int (p.y / grid.cell_size) + dy) * grid.nx
            + (to_int (p.x / grid.cell_size) + dx))).particles.getD j 0

/-- Auxiliary: for a subject at the position of `p`, the indices below `n` of
the particles whose cell lies in the 3x3 block around the cell of `p`, cell by
cell in the order of the scan of serial_optimized.cpp. -/
def serial_optimized.block_members {α : Type} [LinearOrderedField α] [FloorRing α]
    (grid : serial_optimized.grid_t α) (parts : ℕ → particle_t α) (n : ℕ) (p : particle_t α) :
    List ℕ :=
  ([-1, 0, 1] : List ℤ).flatMap fun dx =>
    ([-1, 0, 1] : List ℤ).flatMap fun dy =>
      if to_int (p.x / grid.cell_size) + dx < 0 ∨ to_int (p.x / grid.cell_size) + dx ≥ grid.nx
          ∨ to_int (p.y / grid.cell_size) + dy < 0
          ∨ to_int (p.y / grid.cell_size) + dy ≥ grid.ny then []
      else
        (List.range n).filter fun k =>
          serial_optimized.cell_of grid (parts k)
            = (to_int (p.y / grid.cell_size) + dy) * grid.nx + (to_int (p.x / grid.cell_size) + dx)

/-- Spec side of the refinement (C1): the contribution that `apply_force(p, q)`
of serial_optimized.cpp adds to a zeroed acceleration of `p`, obtained by
running the kernel on a two-element array holding `p` with zeroed acceleration
and `q`. -/
def contribution {α : Type} [LinearOrderedField α] (c : Consts α) (p q : particle_t α) : α × α :=
  ((serial_optimized.apply_force c
      (fun k => if k = 0 then { p with ax := 0, ay := 0 } else q) 0 1 0).ax,
   (serial_optimized.apply_force c
      (fun k => if k = 0 then { p with ax := 0, ay := 0 } else q) 0 1 0).ay)

/-- Spec side of the refinement (C1): the all-pairs reference, the sum over
all particles `j` of the list of the contribution of `j` to `i`. -/
def all_pairs_reference {α : Type} [LinearOrderedField α] (c : Consts α)
    (parts : ℕ → particle_t α) (n i : ℕ) : α × α :=
  (∑ j in Finset.range n, (contribution c (parts i) (parts j)).1,
   ∑ j in Finset.range n, (contribution c (parts i) (parts j)).2)

/-- Auxiliary: the linear index `cidx` that `add_to_cell` of
serial_optimized_v2.cpp computes for a particle. -/
def serial_optimized_v2.cell_of {α : Type} [LinearOrderedField α] [FloorRing α]
    (grid : serial_optimized_v2.grid_t α) (p : particle_t α) : ℤ :=
  serial_optimized_v2.cell_index grid (to_int (p.x / grid.cell_size))
    (to_int (p.y / grid.cell_size))

/-- The live prefix `particles[0 .. size)` of a fixed-capacity cell. -/
def serial_optimized_v2.live (cell : serial_optimized_v2.cell_t) : List ℕ :=
  (List.range cell.size).map cell.particles

/-- Auxiliary: the pairs `(p1, p2)` on which the loop "Apply forces" of
serial_optimized_v2.cpp calls `apply_force`, in loop order. -/
def serial_optimized_v2.call_pairs {α : Type} (grid : serial_optimized_v2.grid_t α)
    (neighbors_for_cell : ℤ → List ℤ) : List (ℕ × ℕ) :=
  (List.range (grid.nx * grid.ny).toNat).flatMap fun (i : ℕ) =>
    (neighbors_for_cell (i : ℤ)).flatMap fun j =>
      if j = (i : ℤ) then
        (List.range (grid.cells (i : ℤ)).size).flatMap fun idx1 =>
          (List.Ico (idx1 + 1) (grid.cells (i : ℤ)).size).map fun idx2 =>
            ((grid.cells (i : ℤ)).particles idx1, (grid.cells (i : ℤ)).particles idx2)
      else
        (List.range (grid.cells (i : ℤ)).size).flatMap fun idx1 =>
          (List.range (grid.cells j).size).map fun idx2 =>
            ((grid.cells (i : ℤ)).particles idx1, (grid.cells j).particles idx2)

/-! ## The integrator -/

/-- The first `while` loop of `move` (the bounce of the x coordinate), run for
at most `fuel` iterations after which the loop condition is tested once more:
`none` when the condition still holds then. -/
def bounce_x {α : Type} [LinearOrderedField α] (size : α) :
    ℕ → particle_t α → Option (particle_t α)
  | 0, p => if p.x < 0 ∨ p.x > size then none else some p
  | fuel + 1, p =>
    if p.x < 0 ∨ p.x > size then
      bounce_x size fuel { p with x := if p.x < 0 then -p.x else 2 * size - p.x, vx := -p.vx }
    else some p

/-- The second `while` loop of `move` (the bounce of the y coordinate), with
fuel as for `bounce_x`. -/
def bounce_y {α : Type} [LinearOrderedField α] (size : α) :
    ℕ → particle_t α → Option (particle_t α)
  | 0, p => if p.y < 0 ∨ p.y > size then none else some p
  | fuel + 1, p =>
    if p.y < 0 ∨ p.y > size then
      bounce_y size fuel { p with y := if p.y < 0 then -p.y else 2 * size - p.y, vy := -p.vy }
    else some p

/-- The function `move` of serial_optimized.cpp (lines 56-74); each of the two
loops may use up to `fuel` iterations. -/
def serial_optimized.move {α : Type} [LinearOrderedField α] (c : Consts α) (fuel : ℕ)
    (p : particle_t α) (size : α) : Option (particle_t α) :=
  let p1 : particle_t α := { p with vx := p.vx + p.ax * c.dt }
  let p2 : particle_t α := { p1 with vy := p1.vy + p1.ay * c.dt }
  let p3 : particle_t α := { p2 with x := p2.x + p2.vx * c.dt }
  let p4 : particle_t α := { p3 with y := p3.y + p3.vy * c.dt }
  (bounce_x size fuel p4).bind (bounce_y size fuel)

/-- The function `move` of openmp_critical.cpp (lines 58-72). -/
def openmp_critical.move {α : Type} [LinearOrderedField α] (c : Consts α) (fuel : ℕ)
    (p : particle_t α) (size : α) : Option (particle_t α) :=
  let p1 : particle_t α := { p with vx := p.vx + p.ax * c.dt }
  let p2 : particle_t α := { p1 with vy := p1.vy + p1.ay * c.dt }
  let p3 : particle_t α := { p2 with x := p2.x + p2.vx * c.dt }
  let p4 : particle_t α := { p3 with y := p3.y + p3.vy * c.dt }
  (bounce_x size fuel p4).bind (bounce_y size fuel)

/-- The function `move` of serial_optimized_v2.cpp (lines 63-81). -/
def serial_optimized_v2.move {α : Type} [LinearOrderedField α] (c : Consts α) (fuel : ℕ)
    (p : particle_t α) (size : α) : Option (particle_t α) :=
  let p1 : particle_t α := { p with vx := p.vx + p.ax * c.dt }
  let p2 : particle_t α := { p1 with vy := p1.vy + p1.ay * c.dt }
  let p3 : particle_t α := { p2 with x := p2.x + p2.vx * c.dt }
  let p4 : particle_t α := { p3 with y := p3.y + p3.vy * c.dt }
  (bounce_x size fuel p4).bind (bounce_y size fuel)

/-- The function `move` of openmp_v3.cpp (lines 72-90). -/
def openmp_v3.move {α : Type} [LinearOrderedField α] (c : Consts α) (fuel : ℕ)
    (p : particle_t α) (size : α) : Option (particle_t α) :=
  let p1 : particle_t α := { p with vx := p.vx + p.ax * c.dt }
  let p2 : particle_t α := { p1 with vy := p1.vy + p1.ay * c.dt }
  let p3 : particle_t α := { p2 with x := p2.x + p2.vx * c.dt }
  let p4 : particle_t α := { p3 with y := p3.y + p3.vy * c.dt }
  (bounce_x size fuel p4).bind (bounce_y size fuel)

/-- The loop "Move particles" of `simulate_one_step` of serial_optimized.cpp
(lines 134-136). -/
def serial_optimized.move_particles {α : Type} [LinearOrderedField α] (c : Consts α)
    (fuel : ℕ) (parts : ℕ → particle_t α) (num_parts : ℕ) (size : α) :
    Option (ℕ → particle_t α) :=
  (List.range num_parts).foldl
    (fun acc (i : ℕ) => acc.bind fun ps =>
      (serial_optimized.move c fuel (ps i) size).map fun q => Function.update ps i q)
    (some parts)

/-- The function `simulate_one_step` of serial_optimized.cpp (lines 92-137):
the force pass followed by the loop "Move particles". -/
def serial_optimized.simulate_one_step {α : Type} [LinearOrderedField α] [FloorRing α]
    (c : Consts α) (fuel : ℕ) (grid : serial_optimized.grid_t α) (parts : ℕ → particle_t α)
    (num_parts : ℕ) (size : α) : Option (serial_optimized.grid_t α × traced α) :=
  (serial_optimized.move_particles c fuel
      (serial_optimized.force_pass c grid parts num_parts).2.parts num_parts size).map
    fun ps => ((serial_optimized.force_pass c grid parts num_parts).1,
      { (serial_optimized.force_pass c grid parts num_parts).2 with parts := ps })

/-- The loop "Move particles" of `simulate_one_step` of serial_optimized_v2.cpp
(lines 172-174). -/
def serial_optimized_v2.move_particles {α : Type} [LinearOrderedField α] (c : Consts α)
    (fuel : ℕ) (parts : ℕ → particle_t α) (num_parts : ℕ) (size : α) :
    Option (ℕ → particle_t α) :=
  (List.range num_parts).foldl
    (fun acc (i : ℕ) => acc.bind fun ps =>
      (serial_optimized_v2.move c fuel (ps i) size).map fun q => Function.update ps i q)
    (some parts)

/-- The function `simulate_one_step` of serial_optimized_v2.cpp (lines
127-175): the force pass followed by the loop "Move particles". -/
def serial_optimized_v2.simulate_one_step {α : Type} [LinearOrderedField α] [FloorRing α]
    (c : Consts α) (fuel : ℕ) (grid : serial_optimized_v2.grid_t α)
    (neighbors_for_cell : ℤ → List ℤ) (parts : ℕ → particle_t α) (num_parts : ℕ) (size : α) :
    Option (serial_optimized_v2.grid_t α × traced α) :=
  (serial_optimized_v2.move_particles c fuel
      (serial_optimized_v2.force_pass c grid neighbors_for_cell parts num_parts).2.parts
      num_parts size).map
    fun ps => ((serial_optimized_v2.force_pass c grid neighbors_for_cell parts num_parts).1,
      { (serial_optimized_v2.force_pass c grid neighbors_for_cell parts num_parts).2 with
        parts := ps })

/-- Auxiliary: the particle with the roles of the two axes exchanged. -/
def swap_axes {α : Type} (p : particle_t α) : particle_t α :=
  ⟨p.y, p.x, p.vy, p.vx, p.ay, p.ax⟩

/-! ## The loops of openmp_critical.cpp, run by one thread in index order -/

/-- The first loop of `simulate_one_step` of openmp_critical.cpp (lines 97-100). -/
def openmp_critical.reset_cells {α : Type} (grid : openmp_critical.grid_t α) :
    openmp_critical.grid_t α :=
  (List.range (grid.nx * grid.ny).toNat).foldl
    (fun g (i : ℕ) =>
      { g with cells := Function.update g.cells (i : ℤ) { g.cells (i : ℤ) with size := 0 } })
    grid

/-- The second loop of `simulate_one_step` of openmp_critical.cpp (lines 102-105). -/
def openmp_critical.populate {α : Type} [LinearOrderedField α] [FloorRing α]
    (grid : openmp_critical.grid_t α) (parts : ℕ → particle_t α) (num_parts : ℕ) :
    openmp_critical.grid_t α :=
  (List.range num_parts).foldl (fun g i => openmp_critical.add_to_cell g i (parts i)) grid

/-- One call `apply_force(parts[i], parts[k])` of openmp_critical.cpp, recorded
in the ghost log. -/
def openmp_critical.call_apply_force {α : Type} [LinearOrderedField α] (c : Consts α)
    (s : traced α) (i k : ℕ) : traced α :=
  { parts := openmp_critical.apply_force c s.parts i k, calls := s.calls ++ [(i, k)] }

/-- The body of the third loop of `simulate_one_step` of openmp_critical.cpp
for the particle `i` (lines 109-126). -/
def openmp_critical.force_on_particle {α : Type} [LinearOrderedField α] [FloorRing α]
    (c : Consts α) (grid : openmp_critical.grid_t α) (s : traced α) (i : ℕ) : traced α :=
  let s0 : traced α :=
    { s with parts := Function.update s.parts i { s.parts i with ax := 0, ay := 0 } }
  let cell_x := to_int ((s0.parts i).x / grid.cell_size)
  let cell_y := to_int ((s0.parts i).y / grid.cell_size)
  ([-1, 0, 1] : List ℤ).foldl (fun s dx =>
    ([-1, 0, 1] : List ℤ).foldl (fun s dy =>
      let nx := cell_x + dx
      let ny := cell_y + dy
      if nx < 0 ∨ nx ≥ grid.nx ∨ ny < 0 ∨ ny ≥ grid.ny then s
      else
        let cell := grid.cells (ny * grid.nx + nx)
        (List.range cell.size).foldl
          (fun s j => openmp_critical.call_apply_force c s i (cell.particles.getD j 0)) s) s) s0

/-- The third loop of `simulate_one_step` of openmp_critical.cpp (lines 107-127). -/
def openmp_critical.compute_forces {α : Type} [LinearOrderedField α] [FloorRing α]
    (c : Consts α) (grid : openmp_critical.grid_t α) (s : traced α) (num_parts : ℕ) : traced α :=
  (List.range num_parts).foldl (fun s i => openmp_critical.force_on_particle c grid s i) s

/-- The first three loops of `simulate_one_step` of openmp_critical.cpp
(lines 97-127), before `move`. -/
def openmp_critical.force_pass {α : Type} [LinearOrderedField α] [FloorRing α]
    (c : Consts α) (grid : openmp_critical.grid_t α) (parts : ℕ → particle_t α)
    (num_parts : ℕ) : openmp_critical.grid_t α × traced α :=
  (openmp_critical.populate (openmp_critical.reset_cells grid) parts num_parts,
    openmp_critical.compute_forces c
      (openmp_critical.populate (openmp_critical.reset_cells grid) parts num_parts)
      ⟨parts, []⟩ num_parts)

/-- Auxiliary: a grid of openmp_critical.cpp read as a grid of
serial_optimized.cpp (the two structures have the same fields). -/
def openmp_critical.to_serial {α : Type} (g : openmp_critical.grid_t α) :
    serial_optimized.grid_t α :=
  { cells := fun k => ⟨(g.cells k).particles, (g.cells k).size⟩
    nx := g.nx
    ny := g.ny
    cell_size := g.cell_size }

/-- Auxiliary: the linear index `cidx` that `add_to_cell` of openmp_v3.cpp
computes for a particle. -/
def openmp_v3.cell_of {α : Type} [LinearOrderedField α] [FloorRing α]
    (grid : openmp_v3.grid_t α) (p : particle_t α) : ℤ :=
  openmp_v3.cell_index grid (to_int (p.x / grid.cell_size)) (to_int (p.y / grid.cell_size))

/-- The live prefix `particles[0 .. size)` of a fixed-capacity cell of
openmp_v3.cpp. -/
def openmp_v3.live (cell : openmp_v3.cell_t) : List ℕ :=
  (List.range cell.size).map cell.particles

/-! ## The population loops of openmp_v3.cpp, run by one thread in index order -/

/-- The loop "Reset cells" of `simulate_one_step` of openmp_v3.cpp (lines 138-142). -/
def openmp_v3.reset_cells {α : Type} (grid : openmp_v3.grid_t α) : openmp_v3.grid_t α :=
  (List.range (grid.nx * grid.ny).toNat).foldl
    (fun g (i : ℕ) =>
      { g with cells := Function.update g.cells (i : ℤ) { g.cells (i : ℤ) with size := 0 } })
    grid

/-- The loop "Add particles to cells" of `simulate_one_step` of openmp_v3.cpp
(lines 144-148). -/
def openmp_v3.populate {α : Type} [LinearOrderedField α] [FloorRing α]
    (grid : openmp_v3.grid_t α) (parts : ℕ → particle_t α) (num_parts : ℕ) :
    openmp_v3.grid_t α :=
  (List.range num_parts).foldl (fun g i => openmp_v3.add_to_cell g i (parts i)) grid

/-- A grid of serial_optimized_v2.cpp for a domain of size `10` with
`cutoff = 1` (5 x 5 cells of side `5/2`) after eight insertions into cell 0,
which is then full. -/
def sample_full_grid : serial_optimized_v2.grid_t ℚ :=
  { cells := fun k => if k = 0 then ⟨fun j => if j < 8 then j else 0, 8⟩ else ⟨fun _ => 0, 0⟩
    nx := 5
    ny := 5
    cell_size := 5 / 2 }

/-- A grid of openmp_v3.cpp for a domain of size `10` with `cutoff = 1` (5 x 5
cells of side `5/2`) after twenty-four insertions into cell 0, which is then
full; no lock is held. -/
def sample_full_grid_v3 : openmp_v3.grid_t ℚ :=
  { cells := fun k => if k = 0 then ⟨fun j => if j < 24 then j else 0, 24⟩ else ⟨fun _ => 0, 0⟩
    nx := 5
    ny := 5
    cell_size := 5 / 2
    locks := fun _ => false }

/-! ## 32-bit `int` arithmetic -/

/-- The largest value of the 32-bit `int`: `2^31 - 1`. -/
def INT_MAX : ℤ := 2147483647

/-- The value stored by an `int` operation whose exact result is `v`: the
representative of `v` modulo `2^32` in `[-2^31, 2^31)` (two's complement
wrap-around). -/
def wrap_int (v : ℤ) : ℤ := (v + 2147483648) % 4294967296 - 2147483648

/-- The conversion `(int) v` of a `double`, as a 32-bit `int`. -/
def cast_int {α : Type} [LinearOrderedField α] [FloorRing α] (v : α) : ℤ := wrap_int (to_int v)

/-- The grid dimension `(int)(size / grid.cell_size) + 1` that every
`init_simulation` stores in `grid.nx` and `grid.ny`, in `int` arithmetic. -/
def int_grid_dim {α : Type} [LinearOrderedField α] [FloorRing α] (size cell_size : α) : ℤ :=
  wrap_int (cast_int (size / cell_size) + 1)

/-- The cell count `grid.nx * grid.ny` of `init_simulation` and
`simulate_one_step`, in `int` arithmetic. -/
def int_cell_count (nx ny : ℤ) : ℤ := wrap_int (nx * ny)

/-- The linear index `cell_y * grid.nx + cell_x` of `add_to_cell`
(serial_optimized.cpp line 22, openmp_critical.cpp; the function `cell_index`
of serial_optimized_v2.cpp line 23 and of openmp_v3.cpp), in `int` arithmetic:
the product and the sum each wrap. -/
def int_cell_index (nx cx cy : ℤ) : ℤ := wrap_int (wrap_int (cy * nx) + cx)

/-! ## Arithmetic on doubles -/

/-- Rounding of an exact value to the nearest integer, ties to the even
integer. -/
def round_even (q : ℚ) : ℤ :=
  if 2 * Int.fract q < 1 then ⌊q⌋
  else if 1 < 2 * Int.fract q then ⌊q⌋ + 1
  else if ⌊q⌋ % 2 = 0 then ⌊q⌋ else ⌊q⌋ + 1

/-- The `double` nearest to the exact value `q`: IEEE 754 binary64 rounding to
nearest, ties to even, with 53 significant bits. The exponent is unbounded: no
overflow to infinity and no subnormal numbers, which the values used below do
not reach. -/
def round_double (q : ℚ) : ℚ :=
  if q = 0 then 0
  else (round_even (q / 2 ^ (Int.log 2 |q| - 52)) : ℚ) * 2 ^ (Int.log 2 |q| - 52)

/-- The function `apply_force` of serial_optimized_v2.cpp (lines 41-61) on
doubles: every arithmetic operation and the square root are rounded; `fmax`
is exact. -/
def serial_optimized_v2.apply_force_double (c : Consts ℚ) (parts : ℕ → particle_t ℚ)
    (p1 p2 : ℕ) : ℕ → particle_t ℚ :=
  let dx := round_double ((parts p2).x - (parts p1).x)
  let dy := round_double ((parts p2).y - (parts p1).y)
  let r2 := round_double (round_double (dx * dx) + round_double (dy * dy))
  if r2 > round_double (c.cutoff * c.cutoff) then parts
  else
    let r2 := max r2 (round_double (c.min_r * c.min_r))
    let r := round_double (c.sqrt r2)
    let coef :=
      round_double (round_double (round_double (1 - round_double (c.cutoff / r)) / r2) / c.mass)
    let fx := round_double (coef * dx)
    let fy := round_double (coef * dy)
    let s1 := Function.update parts p1
      { parts p1 with ax := round_double ((parts p1).ax + fx) }
    let s2 := Function.update s1 p1 { s1 p1 with ay := round_double ((s1 p1).ay + fy) }
    let s3 := Function.update s2 p2 { s2 p2 with ax := round_double ((s2 p2).ax - fx) }
    Function.update s3 p2 { s3 p2 with ay := round_double ((s3 p2).ay - fy) }

/-! ## Concrete data for the instances -/

/-- The constants of the scenario of the specification: `cutoff = 1`,
`min_r = 0.01`, `mass = 1`, `dt = 0.001`, over `ℚ` with the rational square
root. -/
def sample_consts : Consts ℚ := ⟨1, 1 / 100, 1, 1 / 1000, Rat.sqrt⟩

/-- A freshly allocated array of fixed-capacity cells of serial_optimized_v2.cpp. -/
def sample_alloc : ℤ → serial_optimized_v2.cell_t := fun _ => ⟨fun _ => 0, 0⟩

/-- A freshly allocated array of fixed-capacity cells of openmp_v3.cpp. -/
def sample_alloc_v3 : ℤ → openmp_v3.cell_t := fun _ => ⟨fun _ => 0, 0⟩

/-- A freshly allocated array of locks. -/
def sample_locks : ℤ → Bool := fun _ => false

/-- Two particles at rest three cutoffs apart: `(0, 0)` and `(3, 0)`. -/
def sample_far : ℕ → particle_t ℚ :=
  fun k => if k = 0 then ⟨0, 0, 0, 0, 0, 0⟩ else ⟨3, 0, 0, 0, 0, 0⟩

/-- Two particles at rest half a cutoff apart: `(0, 0)` and `(1/2, 0)`. -/
def sample_near : ℕ → particle_t ℚ :=
  fun k => if k = 0 then ⟨0, 0, 0, 0, 0, 0⟩ else ⟨1 / 2, 0, 0, 0, 0, 0⟩

/-- Nine particles at rest in the square `[0, 2.5)^2` of a domain of size `10`:
eight at distinct positions, and a ninth at `(1/2, 0)`, half a cutoff from the
first and more than a cutoff from the other seven. -/
def sample_crowd : ℕ → particle_t ℚ := fun k =>
  ⟨(([(0, 0), (2, 0), (2, 1), (2, 2), (0, 2), (1, 2), (2, 1 / 2), (2, 3 / 2), (1 / 2, 0)] :
      List (ℚ × ℚ)).getD k (0, 0)).1,
   (([(0, 0), (2, 0), (2, 1), (2, 2), (0, 2), (1, 2), (2, 1 / 2), (2, 3 / 2), (1 / 2, 0)] :
      List (ℚ × ℚ)).getD k (0, 0)).2, 0, 0, 0, 0⟩

/-- A particle two and a half domain widths out, for a domain of size `1`:
`x = 1 + 3/2`, `vx = 1`, no acceleration. -/
def sample_overshoot : particle_t ℚ := ⟨1 + 3 / 2, 0, 1, 0, 0, 0⟩

/-- A particle just beyond the wall `x = 10`: `x = 10 + 1`, `vx = 1`, no
acceleration. -/
def sample_beyond_wall : particle_t ℚ := ⟨10 + 1, 0, 1, 0, 0, 0⟩

/-- A particle well inside a domain of size `10`, with velocity and
acceleration. -/
def sample_inside : particle_t ℚ := ⟨1, 2, 3, 4, 5, 6⟩

/-- Two particles at rest half a cutoff apart in the middle of a domain of
size `10`: `(5, 5)` and `(11/2, 5)`. -/
def sample_middle : ℕ → particle_t ℚ :=
  fun k => if k = 0 then ⟨5, 5, 0, 0, 0, 0⟩ else ⟨11 / 2, 5, 0, 0, 0, 0⟩

/-- Constants on a finer scale: `cutoff = 0.01`, `min_r = 0.0001`, `mass = 0.01`,
`dt = 0.0005`. -/
def sample_consts_fine : Consts ℚ := ⟨1 / 100, 1 / 10000, 1 / 100, 1 / 2000, Rat.sqrt⟩

/-- Constants that are doubles: `cutoff = 1`, `min_r = 1/128`, `mass = 1`,
`dt = 1/1024`, with the rational square root. -/
def sample_consts_dyadic : Consts ℚ := ⟨1, 1 / 128, 1, 1 / 1024, Rat.sqrt⟩

/-- Two particles half a cutoff apart, `(0, 0)` and `(1/2, 0)`, the first
already carrying the acceleration `ax = 10^20` (a double). -/
def sample_loaded : ℕ → particle_t ℚ :=
  fun k => if k = 0 then ⟨0, 0, 0, 0, 10 ^ 20, 0⟩ else ⟨1 / 2, 0, 0, 0, 0, 0⟩

/-! ## Kernels -/

section kernels

variable {α : Type} [LinearOrderedField α]

theorem pair_force_of_gt (c : Consts α) (p q : particle_t α)
    (h : (q.x - p.x) * (q.x - p.x) + (q.y - p.y) * (q.y - p.y) > c.cutoff * c.cutoff) :
    pair_force c p q = (0, 0) := by
  simp only [pair_force, if_pos h]

theorem pair_force_of_le (c : Consts α) (p q : particle_t α)
    (h : ¬ (q.x - p.x) * (q.x - p.x) + (q.y - p.y) * (q.y - p.y) > c.cutoff * c.cutoff) :
    pair_force c p q
      = (spec_coef c (q.x - p.x) (q.y - p.y) * (q.x - p.x),
         spec_coef c (q.x - p.x) (q.y - p.y) * (q.y - p.y)) := by
  simp only [pair_force, if_neg h, spec_coef, sq]

theorem pair_force_congr (c : Consts α) (p q p' q' : particle_t α)
    (hpx : p'.x = p.x) (hpy : p'.y = p.y) (hqx : q'.x = q.x) (hqy : q'.y = q.y) :
    pair_force c p' q' = pair_force c p q := by
  simp only [pair_force, hpx, hpy, hqx, hqy]

theorem pair_force_self (c : Consts α) (p q : particle_t α)
    (hx : q.x = p.x) (hy : q.y = p.y) : pair_force c p q = (0, 0) := by
  simp only [pair_force, hx, hy, sub_self, mul_zero, add_zero]
  split <;> rfl

theorem pair_force_swap (c : Consts α) (p q : particle_t α) :
    pair_force c q p = (-(pair_force c p q).1, -(pair_force c p q).2) := by
  have e : (p.x - q.x) * (p.x - q.x) + (p.y - q.y) * (p.y - q.y)
      = (q.x - p.x) * (q.x - p.x) + (q.y - p.y) * (q.y - p.y) := by ring
  simp only [pair_force, e]
  split
  · simp
  · simp only [Prod.mk.injEq]
    constructor <;> ring

theorem asym_apply_force_eq (c : Consts α) (parts : ℕ → particle_t α) (p q : ℕ) :
    serial_optimized.apply_force c parts p q
      = Function.update parts p
          { parts p with
            ax := (parts p).ax + (pair_force c (parts p) (parts q)).1
            ay := (parts p).ay + (pair_force c (parts p) (parts q)).2 } := by
  unfold serial_optimized.apply_force pair_force
  simp only []
  split
  · simp
  · simp [Function.update_same]

theorem critical_apply_force_eq (c : Consts α) (parts : ℕ → particle_t α) (p q : ℕ) :
    openmp_critical.apply_force c parts p q = serial_optimized.apply_force c parts p q := rfl

theorem sym_apply_force_eq (c : Consts α) (parts : ℕ → particle_t α) (p q : ℕ) :
    serial_optimized_v2.apply_force c parts p q
      = Function.update
          (Function.update parts p
            { parts p with
              ax := (parts p).ax + (pair_force c (parts p) (parts q)).1
              ay := (parts p).ay + (pair_force c (parts p) (parts q)).2 }) q
          { (Function.update parts p
              { parts p with
                ax := (parts p).ax + (pair_force c (parts p) (parts q)).1
                ay := (parts p).ay + (pair_force c (parts p) (parts q)).2 }) q with
            ax := ((Function.update parts p
              { parts p with
                ax := (parts p).ax + (pair_force c (parts p) (parts q)).1
                ay := (parts p).ay + (pair_force c (parts p) (parts q)).2 }) q).ax
                - (pair_force c (parts p) (parts q)).1
            ay := ((Function.update parts p
              { parts p with
                ax := (parts p).ax + (pair_force c (parts p) (parts q)).1
                ay := (parts p).ay + (pair_force c (parts p) (parts q)).2 }) q).ay
                - (pair_force c (parts p) (parts q)).2 } := by
  unfold serial_optimized_v2.apply_force pair_force
  simp only []
  split
  · simp
  · simp [Function.update_same]

theorem v3_apply_force_eq (c : Consts α) (parts : ℕ → particle_t α) (p q : ℕ) :
    openmp_v3.apply_force c parts p q = serial_optimized_v2.apply_force c parts p q := rfl

/-- C4 (cutoff correctness). In each of the four variants of `apply_force`
(asymmetric in serial_optimized.cpp and openmp_critical.cpp, symmetric in
serial_optimized_v2.cpp and openmp_v3.cpp), when `dx^2 + dy^2 > cutoff^2` the
call leaves the whole particle array as it was: no field of either particle
(nor of any other) changes. -/
theorem apply_force_beyond_cutoff_is_noop (c : Consts α) (parts : ℕ → particle_t α) (p q : ℕ)
    (h : ((parts q).x - (parts p).x) ^ 2 + ((parts q).y - (parts p).y) ^ 2 > c.cutoff ^ 2) :
    serial_optimized.apply_force c parts p q = parts
      ∧ openmp_critical.apply_force c parts p q = parts
      ∧ serial_optimized_v2.apply_force c parts p q = parts
      ∧ openmp_v3.apply_force c parts p q = parts := by
  have h' : ((parts q).x - (parts p).x) * ((parts q).x - (parts p).x)
      + ((parts q).y - (parts p).y) * ((parts q).y - (parts p).y) > c.cutoff * c.cutoff := by
    simpa only [sq] using h
  refine ⟨?_, ?_, ?_, ?_⟩
  · simp only [serial_optimized.apply_force, if_pos h']
  · simp only [openmp_critical.apply_force, if_pos h']
  · simp only [serial_optimized_v2.apply_force, if_pos h']
  · simp only [openmp_v3.apply_force, if_pos h']

/-- Witness of C4: the particles `(0, 0)` and `(3, 0)` with `cutoff = 1`. -/
theorem apply_force_beyond_cutoff_is_noop_witness :
    ((sample_far 1).x - (sample_far 0).x) ^ 2 + ((sample_far 1).y - (sample_far 0).y) ^ 2
        > sample_consts.cutoff ^ 2
    ∧ (serial_optimized.apply_force sample_consts sample_far 0 1 = sample_far
      ∧ openmp_critical.apply_force sample_consts sample_far 0 1 = sample_far
      ∧ serial_optimized_v2.apply_force sample_consts sample_far 0 1 = sample_far
      ∧ openmp_v3.apply_force sample_consts sample_far 0 1 = sample_far) :=
  ⟨by norm_num [sample_far, sample_consts],
    apply_force_beyond_cutoff_is_noop sample_consts sample_far 0 1
      (by norm_num [sample_far, sample_consts])⟩

/-- Over exact arithmetic (an ordered field), for two distinct particles `p`,
`q` one call `apply_force(p, q)` of serial_optimized_v2.cpp (and of
openmp_v3.cpp) changes the two accelerations by exact negations of each other,
in both components, whatever the constants. -/
theorem symmetric_kernel_equal_and_opposite (c : Consts α) (parts : ℕ → particle_t α)
    (p q : ℕ) (hpq : p ≠ q) :
    ((serial_optimized_v2.apply_force c parts p q p).ax - (parts p).ax
        = -((serial_optimized_v2.apply_force c parts p q q).ax - (parts q).ax)
      ∧ (serial_optimized_v2.apply_force c parts p q p).ay - (parts p).ay
        = -((serial_optimized_v2.apply_force c parts p q q).ay - (parts q).ay))
    ∧ ((openmp_v3.apply_force c parts p q p).ax - (parts p).ax
        = -((openmp_v3.apply_force c parts p q q).ax - (parts q).ax)
      ∧ (openmp_v3.apply_force c parts p q p).ay - (parts p).ay
        = -((openmp_v3.apply_force c parts p q q).ay - (parts q).ay)) := by
  have hqp : q ≠ p := fun e => hpq e.symm
  rw [v3_apply_force_eq, sym_apply_force_eq]
  simp only [Function.update_same, Function.update_noteq hpq, Function.update_noteq hqp]
  refine ⟨⟨?_, ?_⟩, ⟨?_, ?_⟩⟩ <;> ring

/-- An instance over `ℚ`: the particles at indices `0` and `1`, half a cutoff
apart. -/
theorem symmetric_kernel_equal_and_opposite_witness :
    (0 : ℕ) ≠ 1
    ∧ (((serial_optimized_v2.apply_force sample_consts sample_near 0 1 0).ax - (sample_near 0).ax
          = -((serial_optimized_v2.apply_force sample_consts sample_near 0 1 1).ax
              - (sample_near 1).ax)
        ∧ (serial_optimized_v2.apply_force sample_consts sample_near 0 1 0).ay - (sample_near 0).ay
          = -((serial_optimized_v2.apply_force sample_consts sample_near 0 1 1).ay
              - (sample_near 1).ay))
      ∧ ((openmp_v3.apply_force sample_consts sample_near 0 1 0).ax - (sample_near 0).ax
          = -((openmp_v3.apply_force sample_consts sample_near 0 1 1).ax - (sample_near 1).ax)
        ∧ (openmp_v3.apply_force sample_consts sample_near 0 1 0).ay - (sample_near 0).ay
          = -((openmp_v3.apply_force sample_consts sample_near 0 1 1).ay - (sample_near 1).ay))) :=
  ⟨by decide, symmetric_kernel_equal_and_opposite sample_consts sample_near 0 1 (by decide)⟩

/-- C10 (force law of the asymmetric kernel). When
`r2 = dx^2 + dy^2 <= cutoff^2`, `apply_force(p, q)` of serial_optimized.cpp
(and of openmp_critical.cpp) adds exactly `(coef * dx, coef * dy)` to
`(p.ax, p.ay)`, with `coef` as the specification words it, leaves the position
and velocity of `p` alone, and leaves `q` and every other particle
unchanged. -/
theorem asymmetric_kernel_force_law (c : Consts α) (parts : ℕ → particle_t α) (p q : ℕ)
    (h : ((parts q).x - (parts p).x) ^ 2 + ((parts q).y - (parts p).y) ^ 2 ≤ c.cutoff ^ 2) :
    ∀ parts' : ℕ → particle_t α,
      parts' = serial_optimized.apply_force c parts p q
        ∨ parts' = openmp_critical.apply_force c parts p q →
      (parts' p).ax = (parts p).ax
          + spec_coef c ((parts q).x - (parts p).x) ((parts q).y - (parts p).y)
            * ((parts q).x - (parts p).x)
        ∧ (parts' p).ay = (parts p).ay
          + spec_coef c ((parts q).x - (parts p).x) ((parts q).y - (parts p).y)
            * ((parts q).y - (parts p).y)
        ∧ (parts' p).x = (parts p).x ∧ (parts' p).y = (parts p).y
        ∧ (parts' p).vx = (parts p).vx ∧ (parts' p).vy = (parts p).vy
        ∧ parts' q = parts q
        ∧ ∀ k, k ≠ p → parts' k = parts k := by
  have h' : ¬ ((parts q).x - (parts p).x) * ((parts q).x - (parts p).x)
      + ((parts q).y - (parts p).y) * ((parts q).y - (parts p).y) > c.cutoff * c.cutoff := by
    simpa only [sq, not_lt, gt_iff_lt] using h
  intro parts' hp
  have e : parts' = serial_optimized.apply_force c parts p q := by
    rcases hp with hp | hp
    · exact hp
    · rw [hp, critical_apply_force_eq]
  subst e
  rw [asym_apply_force_eq, pair_force_of_le c _ _ h']
  refine ⟨by simp, by simp, by simp, by simp, by simp, by simp, ?_, ?_⟩
  · by_cases hqp : q = p
    · subst hqp
      simp
    · simp [Function.update_noteq hqp]
  · intro k hk
    simp [Function.update_noteq hk]

/-- Witness of C10: the particles `(0, 0)` and `(1/2, 0)` with `cutoff = 1`. -/
theorem asymmetric_kernel_force_law_witness :
    ((sample_near 1).x - (sample_near 0).x) ^ 2 + ((sample_near 1).y - (sample_near 0).y) ^ 2
        ≤ sample_consts.cutoff ^ 2
    ∧ ∀ parts' : ℕ → particle_t ℚ,
      parts' = serial_optimized.apply_force sample_consts sample_near 0 1
        ∨ parts' = openmp_critical.apply_force sample_consts sample_near 0 1 →
      (parts' 0).ax = (sample_near 0).ax
          + spec_coef sample_consts ((sample_near 1).x - (sample_near 0).x)
              ((sample_near 1).y - (sample_near 0).y)
            * ((sample_near 1).x - (sample_near 0).x)
        ∧ (parts' 0).ay = (sample_near 0).ay
          + spec_coef sample_consts ((sample_near 1).x - (sample_near 0).x)
              ((sample_near 1).y - (sample_near 0).y)
            * ((sample_near 1).y - (sample_near 0).y)
        ∧ (parts' 0).x = (sample_near 0).x ∧ (parts' 0).y = (sample_near 0).y
        ∧ (parts' 0).vx = (sample_near 0).vx ∧ (parts' 0).vy = (sample_near 0).vy
        ∧ parts' 1 = sample_near 1
        ∧ ∀ k, k ≠ 0 → parts' k = sample_near k :=
  ⟨by norm_num [sample_near, sample_consts],
    asymmetric_kernel_force_law sample_consts sample_near 0 1
      (by norm_num [sample_near, sample_consts])⟩

end kernels

/-! ## Grid geometry -/

section geometry

variable {α : Type} [LinearOrderedField α] [FloorRing α]

theorem to_int_of_nonneg {v : α} (h : 0 ≤ v) : to_int v = ⌊v⌋ := by
  simp only [to_int, if_pos h]

theorem to_int_div_nonneg {x cs : α} (hx : 0 ≤ x) (hcs : 0 < cs) : 0 ≤ to_int (x / cs) := by
  rw [to_int_of_nonneg (div_nonneg hx hcs.le)]
  exact Int.floor_nonneg.mpr (div_nonneg hx hcs.le)

theorem to_int_div_mono {x size cs : α} (hx : 0 ≤ x) (hxs : x ≤ size) (hcs : 0 < cs) :
    to_int (x / cs) ≤ to_int (size / cs) := by
  rw [to_int_of_nonneg (div_nonneg hx hcs.le),
    to_int_of_nonneg (div_nonneg (hx.trans hxs) hcs.le)]
  exact Int.floor_mono (div_le_div_of_nonneg_right hxs hcs.le)

/-- Two non-negative coordinates at most `cutoff` apart fall, for a cell size
of at least `cutoff`, in the same or in neighbouring columns. -/
theorem to_int_div_close {x1 x2 cutoff cs : α} (hx1 : 0 ≤ x1) (hx2 : 0 ≤ x2)
    (hcs : 0 < cs) (hle : cutoff ≤ cs) (h1 : x1 - x2 ≤ cutoff) (h2 : x2 - x1 ≤ cutoff) :
    |to_int (x1 / cs) - to_int (x2 / cs)| ≤ 1 := by
  rw [to_int_of_nonneg (div_nonneg hx1 hcs.le), to_int_of_nonneg (div_nonneg hx2 hcs.le)]
  have a1 := Int.floor_le (x1 / cs)
  have a2 := Int.lt_floor_add_one (x1 / cs)
  have b1 := Int.floor_le (x2 / cs)
  have b2 := Int.lt_floor_add_one (x2 / cs)
  have d1 : x1 / cs - x2 / cs ≤ 1 := by
    rw [← sub_div, div_le_one hcs]
    linarith
  have d2 : x2 / cs - x1 / cs ≤ 1 := by
    rw [← sub_div, div_le_one hcs]
    linarith
  have e1 : ((⌊x1 / cs⌋ : ℤ) : α) < ((⌊x2 / cs⌋ + 2 : ℤ) : α) := by
    push_cast
    linarith
  have e2 : ((⌊x2 / cs⌋ : ℤ) : α) < ((⌊x1 / cs⌋ + 2 : ℤ) : α) := by
    push_cast
    linarith
  have f1 := Int.cast_lt.mp e1
  have f2 := Int.cast_lt.mp e2
  rw [abs_le]
  constructor <;> omega

omit [FloorRing α] in
theorem sq_sum_le_split {dx dy cutoff : α} (hc : 0 < cutoff)
    (h : dx ^ 2 + dy ^ 2 ≤ cutoff ^ 2) :
    (-cutoff ≤ dx ∧ dx ≤ cutoff) ∧ (-cutoff ≤ dy ∧ dy ≤ cutoff) := by
  constructor
  · exact abs_le_of_sq_le_sq' (by nlinarith [sq_nonneg dy]) hc.le
  · exact abs_le_of_sq_le_sq' (by nlinarith [sq_nonneg dx]) hc.le

/-- Row-major indices of in-range cell coordinates are in range. -/
theorem linear_index_bounds {nx ny cx cy : ℤ} (hx0 : 0 ≤ cx) (hx : cx < nx) (hy0 : 0 ≤ cy)
    (hy : cy < ny) : 0 ≤ cy * nx + cx ∧ cy * nx + cx < nx * ny := by
  constructor
  · nlinarith
  · nlinarith

/-- Row-major indexing is injective on in-range cell coordinates. -/
theorem linear_index_inj {nx cx cy cx' cy' : ℤ} (hx0 : 0 ≤ cx) (hx : cx < nx)
    (hx0' : 0 ≤ cx') (hx' : cx' < nx) (h : cy * nx + cx = cy' * nx + cx') :
    cx = cx' ∧ cy = cy' := by
  have hy : cy = cy' := by
    rcases lt_trichotomy cy cy' with hlt | heq | hgt
    · exfalso
      have : cy + 1 ≤ cy' := hlt
      nlinarith
    · exact heq
    · exfalso
      have : cy' + 1 ≤ cy := hgt
      nlinarith
  subst hy
  exact ⟨by linarith, rfl⟩

/-- C7 (central grid invariant). For each cell size chosen by an
`init_simulation` (`cutoff` in serial_optimized.cpp and openmp_critical.cpp,
`2.5 * cutoff` in serial_optimized_v2.cpp, `2.5 * cutoff` or `5 * cutoff` in
openmp_v3.cpp) with `cutoff > 0`, two positions with non-negative coordinates
at squared distance at most `cutoff^2` are mapped by the `add_to_cell`
computation to cell coordinates that differ by at most one in each axis. -/
theorem interacting_pair_in_adjacent_cells (c : Consts α) (size : α) (num_parts : ℕ)
    (alloc : ℤ → serial_optimized_v2.cell_t) (alloc3 : ℤ → openmp_v3.cell_t)
    (lock_alloc : ℤ → Bool) (cell_size x1 y1 x2 y2 : α)
    (hcut : 0 < c.cutoff)
    (hcs : cell_size = (serial_optimized.init_simulation c size).cell_size
      ∨ cell_size = (openmp_critical.init_simulation c size).cell_size
      ∨ cell_size = (serial_optimized_v2.init_simulation c size alloc).1.cell_size
      ∨ cell_size = (openmp_v3.init_simulation c num_parts size alloc3 lock_alloc).1.cell_size)
    (hx1 : 0 ≤ x1) (hy1 : 0 ≤ y1) (hx2 : 0 ≤ x2) (hy2 : 0 ≤ y2)
    (hd : (x2 - x1) ^ 2 + (y2 - y1) ^ 2 ≤ c.cutoff ^ 2) :
    |to_int (x1 / cell_size) - to_int (x2 / cell_size)| ≤ 1
      ∧ |to_int (y1 / cell_size) - to_int (y2 / cell_size)| ≤ 1 := by
  have hle : c.cutoff ≤ cell_size := by
    rcases hcs with h | h | h | h
    · rw [h]; exact le_of_eq rfl
    · rw [h]; exact le_of_eq rfl
    · rw [h]
      show c.cutoff ≤ c.cutoff * (5 / 2)
      linarith
    · rw [h]
      show c.cutoff ≤ if num_parts > 300000 then c.cutoff * 5 else c.cutoff * (5 / 2)
      split <;> linarith
  have hpos : 0 < cell_size := lt_of_lt_of_le hcut hle
  obtain ⟨⟨a1, a2⟩, ⟨b1, b2⟩⟩ := sq_sum_le_split hcut hd
  exact ⟨to_int_div_close hx1 hx2 hpos hle (by linarith) (by linarith),
    to_int_div_close hy1 hy2 hpos hle (by linarith) (by linarith)⟩

/-- The geometry `(cell_size, nx, ny)` of every `init_simulation` has
`cutoff <= cell_size` and `nx = ny = (int)(size / cell_size) + 1`. -/
theorem init_geometry_cases (c : Consts α) (size : α) (num_parts : ℕ)
    (alloc : ℤ → serial_optimized_v2.cell_t) (alloc3 : ℤ → openmp_v3.cell_t)
    (lock_alloc : ℤ → Bool) (cell_size : α) (nx ny : ℤ) (hcut : 0 < c.cutoff)
    (hg : (cell_size, nx, ny) = serial_optimized.geometry (serial_optimized.init_simulation c size)
      ∨ (cell_size, nx, ny) = openmp_critical.geometry (openmp_critical.init_simulation c size)
      ∨ (cell_size, nx, ny)
        = serial_optimized_v2.geometry (serial_optimized_v2.init_simulation c size alloc).1
      ∨ (cell_size, nx, ny)
        = openmp_v3.geometry (openmp_v3.init_simulation c num_parts size alloc3 lock_alloc).1) :
    c.cutoff ≤ cell_size ∧ nx = to_int (size / cell_size) + 1
      ∧ ny = to_int (size / cell_size) + 1 := by
  rcases hg with h | h | h | h
  · simp only [serial_optimized.geometry, serial_optimized.init_simulation, Prod.mk.injEq] at h
    obtain ⟨h1, h2, h3⟩ := h
    subst h1 h2 h3
    exact ⟨le_refl _, rfl, rfl⟩
  · simp only [openmp_critical.geometry, openmp_critical.init_simulation, Prod.mk.injEq] at h
    obtain ⟨h1, h2, h3⟩ := h
    subst h1 h2 h3
    exact ⟨le_refl _, rfl, rfl⟩
  · simp only [serial_optimized_v2.geometry, serial_optimized_v2.init_simulation,
      Prod.mk.injEq] at h
    obtain ⟨h1, h2, h3⟩ := h
    subst h1 h2 h3
    exact ⟨by linarith, rfl, rfl⟩
  · simp only [openmp_v3.geometry, openmp_v3.init_simulation, Prod.mk.injEq] at h
    obtain ⟨h1, h2, h3⟩ := h
    subst h1 h2 h3
    refine ⟨?_, rfl, rfl⟩
    split <;> linarith

/-- With exact (unbounded) integers: after `init_simulation` (any of the four
variants) with `size > 0` and `cutoff > 0`, for every position with
`0 <= x <= size` and `0 <= y <= size` the coordinates computed by `add_to_cell`
satisfy `0 <= cx < nx` and `0 <= cy < ny`, hence `0 <= cy * nx + cx < nx * ny`,
also for `x = size` or `y = size`; and in-range coordinates with the same
linear index are the same coordinates. -/
theorem cell_index_in_range (c : Consts α) (size : α) (num_parts : ℕ)
    (alloc : ℤ → serial_optimized_v2.cell_t) (alloc3 : ℤ → openmp_v3.cell_t)
    (lock_alloc : ℤ → Bool) (cell_size : α) (nx ny : ℤ) (x y : α)
    (hsize : 0 < size) (hcut : 0 < c.cutoff)
    (hg : (cell_size, nx, ny) = serial_optimized.geometry (serial_optimized.init_simulation c size)
      ∨ (cell_size, nx, ny) = openmp_critical.geometry (openmp_critical.init_simulation c size)
      ∨ (cell_size, nx, ny)
        = serial_optimized_v2.geometry (serial_optimized_v2.init_simulation c size alloc).1
      ∨ (cell_size, nx, ny)
        = openmp_v3.geometry (openmp_v3.init_simulation c num_parts size alloc3 lock_alloc).1)
    (hx : 0 ≤ x) (hxs : x ≤ size) (hy : 0 ≤ y) (hys : y ≤ size) :
    (0 ≤ to_int (x / cell_size) ∧ to_int (x / cell_size) < nx)
      ∧ (0 ≤ to_int (y / cell_size) ∧ to_int (y / cell_size) < ny)
      ∧ (0 ≤ to_int (y / cell_size) * nx + to_int (x / cell_size)
          ∧ to_int (y / cell_size) * nx + to_int (x / cell_size) < nx * ny)
      ∧ ∀ cx cy cx' cy' : ℤ, 0 ≤ cx → cx < nx → 0 ≤ cy → cy < ny →
          0 ≤ cx' → cx' < nx → 0 ≤ cy' → cy' < ny →
          cy * nx + cx = cy' * nx + cx' → cx = cx' ∧ cy = cy' := by
  obtain ⟨hle, hnx, hny⟩ :=
    init_geometry_cases c size num_parts alloc alloc3 lock_alloc cell_size nx ny hcut hg
  have hpos : 0 < cell_size := lt_of_lt_of_le hcut hle
  have hsize' := hsize
  have bx : 0 ≤ to_int (x / cell_size) ∧ to_int (x / cell_size) < nx := by
    refine ⟨to_int_div_nonneg hx hpos, ?_⟩
    have := to_int_div_mono hx hxs hpos
    omega
  have by' : 0 ≤ to_int (y / cell_size) ∧ to_int (y / cell_size) < ny := by
    refine ⟨to_int_div_nonneg hy hpos, ?_⟩
    have := to_int_div_mono hy hys hpos
    omega
  refine ⟨bx, by', linear_index_bounds bx.1 bx.2 by'.1 by'.2, ?_⟩
  intro cx cy cx' cy' h1 h2 _ _ h5 h6 _ _ h
  exact linear_index_inj h1 h2 h5 h6 h

/-- Witness of C7: the positions `(1/2, 1/2)` and `(1, 1)` with `cutoff = 1`
and the cell size of serial_optimized.cpp for a domain of size `10`. -/
theorem interacting_pair_in_adjacent_cells_witness :
    (0 < sample_consts.cutoff
      ∧ ((1 : ℚ) = (serial_optimized.init_simulation sample_consts 10).cell_size
        ∨ (1 : ℚ) = (openmp_critical.init_simulation sample_consts 10).cell_size
        ∨ (1 : ℚ) = (serial_optimized_v2.init_simulation sample_consts 10 sample_alloc).1.cell_size
        ∨ (1 : ℚ) = (openmp_v3.init_simulation sample_consts 4 10 sample_alloc_v3
            sample_locks).1.cell_size)
      ∧ (0 : ℚ) ≤ 1 / 2 ∧ (0 : ℚ) ≤ 1 / 2 ∧ (0 : ℚ) ≤ 1 ∧ (0 : ℚ) ≤ 1
      ∧ ((1 : ℚ) - 1 / 2) ^ 2 + ((1 : ℚ) - 1 / 2) ^ 2 ≤ sample_consts.cutoff ^ 2)
    ∧ (|to_int ((1 / 2 : ℚ) / 1) - to_int ((1 : ℚ) / 1)| ≤ 1
      ∧ |to_int ((1 / 2 : ℚ) / 1) - to_int ((1 : ℚ) / 1)| ≤ 1) :=
  ⟨⟨by norm_num [sample_consts], Or.inl rfl, by norm_num, by norm_num, by norm_num, by norm_num,
      by norm_num [sample_consts]⟩,
    interacting_pair_in_adjacent_cells sample_consts 10 4 sample_alloc sample_alloc_v3
      sample_locks 1 (1 / 2) (1 / 2) 1 1
      (by norm_num [sample_consts]) (Or.inl rfl) (by norm_num) (by norm_num) (by norm_num)
      (by norm_num) (by norm_num [sample_consts])⟩

/-- An instance with exact integers: the corner `(10, 10)` of a domain of size
`10` with `cutoff = 1` in the grid of serial_optimized_v2.cpp. -/
theorem cell_index_in_range_witness :
    ((0 : ℚ) < 10 ∧ 0 < sample_consts.cutoff
      ∧ (0 : ℚ) ≤ 10 ∧ (10 : ℚ) ≤ 10 ∧ (0 : ℚ) ≤ 10 ∧ (10 : ℚ) ≤ 10)
    ∧ ((0 ≤ to_int ((10 : ℚ)
            / (serial_optimized_v2.init_simulation sample_consts 10 sample_alloc).1.cell_size)
        ∧ to_int ((10 : ℚ)
            / (serial_optimized_v2.init_simulation sample_consts 10 sample_alloc).1.cell_size)
          < (serial_optimized_v2.init_simulation sample_consts 10 sample_alloc).1.nx)
      ∧ (0 ≤ to_int ((10 : ℚ)
            / (serial_optimized_v2.init_simulation sample_consts 10 sample_alloc).1.cell_size)
        ∧ to_int ((10 : ℚ)
            / (serial_optimized_v2.init_simulation sample_consts 10 sample_alloc).1.cell_size)
          < (serial_optimized_v2.init_simulation sample_consts 10 sample_alloc).1.ny)
      ∧ (0 ≤ to_int ((10 : ℚ)
              / (serial_optimized_v2.init_simulation sample_consts 10 sample_alloc).1.cell_size)
            * (serial_optimized_v2.init_simulation sample_consts 10 sample_alloc).1.nx
            + to_int ((10 : ℚ)
              / (serial_optimized_v2.init_simulation sample_consts 10 sample_alloc).1.cell_size)
        ∧ to_int ((10 : ℚ)
              / (serial_optimized_v2.init_simulation sample_consts 10 sample_alloc).1.cell_size)
            * (serial_optimized_v2.init_simulation sample_consts 10 sample_alloc).1.nx
            + to_int ((10 : ℚ)
              / (serial_optimized_v2.init_simulation sample_consts 10 sample_alloc).1.cell_size)
          < (serial_optimized_v2.init_simulation sample_consts 10 sample_alloc).1.nx
            * (serial_optimized_v2.init_simulation sample_consts 10 sample_alloc).1.ny)
      ∧ ∀ cx cy cx' cy' : ℤ,
          0 ≤ cx → cx < (serial_optimized_v2.init_simulation sample_consts 10 sample_alloc).1.nx →
          0 ≤ cy → cy < (serial_optimized_v2.init_simulation sample_consts 10 sample_alloc).1.ny →
          0 ≤ cx' → cx' < (serial_optimized_v2.init_simulation sample_consts 10 sample_alloc).1.nx →
          0 ≤ cy' → cy' < (serial_optimized_v2.init_simulation sample_consts 10 sample_alloc).1.ny →
          cy * (serial_optimized_v2.init_simulation sample_consts 10 sample_alloc).1.nx + cx
            = cy' * (serial_optimized_v2.init_simulation sample_consts 10 sample_alloc).1.nx + cx' →
          cx = cx' ∧ cy = cy') :=
  ⟨⟨by norm_num, by norm_num [sample_consts], by norm_num, le_refl _, by norm_num, le_refl _⟩,
    cell_index_in_range sample_consts 10 4 sample_alloc sample_alloc_v3 sample_locks _ _ _ 10 10
      (by norm_num)
      (by norm_num [sample_consts]) (Or.inr (Or.inr (Or.inl rfl))) (by norm_num) (le_refl _)
      (by norm_num) (le_refl _)⟩

end geometry

/-! ## Generic facts about folds -/

section folds

theorem foldl_flatMap_eq {β γ σ : Type} (f : β → List γ) (g : σ → γ → σ) (L : List β) (s : σ) :
    (L.flatMap f).foldl g s = L.foldl (fun s a => (f a).foldl g s) s := by
  induction L generalizing s with
  | nil => rfl
  | cons a L ih => simp only [List.flatMap_cons, List.foldl_append, List.foldl_cons, ih]

theorem foldl_update_const_key {κ β γ : Type} [DecidableEq κ] (i : κ) (g : β → List γ)
    (L : List β) (nb : κ → List γ) :
    L.foldl (fun nb a => Function.update nb i (nb i ++ g a)) nb
      = Function.update nb i (nb i ++ L.flatMap g) := by
  induction L generalizing nb with
  | nil => simp
  | cons a L ih =>
    simp only [List.foldl_cons, ih, Function.update_same, List.flatMap_cons, List.append_assoc,
      Function.update_idem]

theorem foldl_update_key {κ β γ : Type} [DecidableEq κ] (key : β → κ) (g : β → List γ)
    (L : List β) (nb : κ → List γ) (k : κ) :
    (L.foldl (fun nb a => Function.update nb (key a) (nb (key a) ++ g a)) nb) k
      = nb k ++ (L.filter fun a => key a = k).flatMap g := by
  induction L generalizing nb with
  | nil => simp
  | cons a L ih =>
    simp only [List.foldl_cons, ih, List.filter_cons]
    by_cases h : key a = k
    · subst h
      simp
    · have h' : k ≠ key a := fun e => h e.symm
      simp [h, Function.update_noteq h']

theorem filter_eq_singleton {β : Type} (p : β → Bool) (a0 : β) (L : List β) (hnd : L.Nodup)
    (ha : a0 ∈ L) (hp : ∀ a ∈ L, p a = true ↔ a = a0) : L.filter p = [a0] := by
  induction L with
  | nil => simp at ha
  | cons b L ih =>
    rw [List.nodup_cons] at hnd
    rw [List.filter_cons]
    by_cases hb : b = a0
    · subst hb
      have hpb : p b = true := (hp b (List.mem_cons_self _ _)).mpr rfl
      rw [if_pos hpb]
      have : L.filter p = [] := by
        rw [List.filter_eq_nil_iff]
        intro a haL hpa
        have := (hp a (List.mem_cons_of_mem _ haL)).mp hpa
        subst this
        exact hnd.1 haL
      rw [this]
    · have hpb : ¬ p b = true := fun h => hb ((hp b (List.mem_cons_self _ _)).mp h)
      rw [if_neg hpb]
      have ha' : a0 ∈ L := by
        rcases List.mem_cons.mp ha with h | h
        · exact absurd h.symm hb
        · exact h
      exact ih hnd.2 ha' (fun a haL => hp a (List.mem_cons_of_mem _ haL))

theorem nodup_flatMap_of_sep {β γ : Type} (f : β → List γ) (L : List β) (hL : L.Nodup)
    (hf : ∀ a ∈ L, (f a).Nodup)
    (hsep : ∀ a ∈ L, ∀ b ∈ L, ∀ j, j ∈ f a → j ∈ f b → a = b) : (L.flatMap f).Nodup := by
  rw [List.nodup_flatMap]
  refine ⟨hf, ?_⟩
  refine List.Pairwise.imp_of_mem ?_ hL
  intro a b ha hb hne
  show List.Disjoint (f a) (f b)
  rw [List.disjoint_left]
  intro j hja hjb
  exact hne (hsep a ha b hb j hja hjb)

theorem take_succ_set {β : Type} (l : List β) (n : ℕ) (a : β) (h : n < l.length) :
    (l.set n a).take (n + 1) = l.take n ++ [a] := by
  rw [List.set_eq_take_append_cons_drop, if_pos h, List.take_append_eq_append_take]
  have hl : (List.take n l).length = n := by
    rw [List.length_take]
    omega
  rw [hl, List.take_of_length_le (by omega)]
  simp

theorem range_map_getD_eq_take {β : Type} (l : List β) (d : β) (n : ℕ) (h : n ≤ l.length) :
    (List.range n).map (fun j => l.getD j d) = l.take n := by
  apply List.ext_getElem
  · simp [h]
  · intro j h1 h2
    simp only [List.length_map, List.length_range] at h1
    simp only [List.getElem_map, List.getElem_range, List.getElem_take]
    exact List.getD_eq_getElem l d (by omega)

theorem sum_map_eq_sum_range {M : Type} [AddCommMonoid M] (L : List ℕ) (n : ℕ) (f : ℕ → M)
    (hnd : L.Nodup) (hsub : ∀ k ∈ L, k < n) (hz : ∀ k, k < n → k ∉ L → f k = 0) :
    (L.map f).sum = ∑ k in Finset.range n, f k := by
  rw [← List.sum_toFinset f hnd]
  apply Finset.sum_subset
  · intro k hk
    rw [List.mem_toFinset] at hk
    exact Finset.mem_range.mpr (hsub k hk)
  · intro k hk hnk
    rw [List.mem_toFinset] at hnk
    exact hz k (Finset.mem_range.mp hk) hnk

/-- A prefix `P 0, ..., P (m-1)` listed in increasing order is increasing in
the index. -/
theorem increasing_index_mono (P : ℕ → ℕ) (m : ℕ)
    (h : ((List.range m).map P).Pairwise (fun a b => a < b)) (a b : ℕ) (hab : a < b) (hb : b < m) :
    P a < P b := by
  rw [List.pairwise_map, List.pairwise_iff_getElem] at h
  have := h a b (by simp; omega) (by simp; omega) hab
  simpa using this

theorem increasing_index_inj (P : ℕ → ℕ) (m : ℕ)
    (h : ((List.range m).map P).Pairwise (fun a b => a < b)) (a b : ℕ) (ha : a < m) (hb : b < m)
    (e : P a = P b) : a = b := by
  rcases lt_trichotomy a b with hlt | heq | hgt
  · have := increasing_index_mono P m h a b hlt hb
    omega
  · exact heq
  · have := increasing_index_mono P m h b a hgt ha
    omega

/-- The pairs visited by the loops `idx1 < idx2 < m` over a prefix in
increasing order: no pair twice, and exactly the pairs `p < q` of members. -/
theorem same_cell_pairs (P : ℕ → ℕ) (m : ℕ)
    (h : ((List.range m).map P).Pairwise (fun a b => a < b)) :
    ((List.range m).flatMap fun a => (List.Ico (a + 1) m).map fun b => (P a, P b)).Nodup
    ∧ ∀ p q : ℕ,
      (p, q) ∈ ((List.range m).flatMap fun a => (List.Ico (a + 1) m).map fun b => (P a, P b))
        ↔ p ∈ (List.range m).map P ∧ q ∈ (List.range m).map P ∧ p < q := by
  constructor
  · apply nodup_flatMap_of_sep
    · exact List.nodup_range m
    · intro a _
      apply List.Nodup.map_on _ (List.Ico.nodup _ _)
      intro x hx y hy e
      rw [List.Ico.mem] at hx hy
      simp only [Prod.mk.injEq, true_and] at e
      exact increasing_index_inj P m h x y hx.2 hy.2 e
    · intro a ha b hb pq hpa hpb
      rw [List.mem_range] at ha hb
      rw [List.mem_map] at hpa hpb
      obtain ⟨x, _, ex⟩ := hpa
      obtain ⟨y, _, ey⟩ := hpb
      have e : P a = P b := by
        have := congrArg Prod.fst (ex.trans ey.symm)
        exact this
      exact increasing_index_inj P m h a b ha hb e
  · intro p q
    simp only [List.mem_flatMap, List.mem_map, List.mem_range, List.Ico.mem, Prod.mk.injEq]
    constructor
    · rintro ⟨a, ha, b, ⟨hab, hb⟩, rfl, rfl⟩
      exact ⟨⟨a, ha, rfl⟩, ⟨b, hb, rfl⟩, increasing_index_mono P m h a b (by omega) hb⟩
    · rintro ⟨⟨a, ha, rfl⟩, ⟨b, hb, rfl⟩, hlt⟩
      refine ⟨a, ha, b, ⟨?_, hb⟩, rfl, rfl⟩
      rcases lt_trichotomy a b with h1 | h1 | h1
      · omega
      · subst h1; omega
      · have := increasing_index_mono P m h b a h1 ha
        omega

/-- The pairs visited by the two nested loops over two prefixes without
repetition: no pair twice, and exactly the pairs of members. -/
theorem cross_cell_pairs (P1 P2 : ℕ → ℕ) (m1 m2 : ℕ)
    (h1 : ((List.range m1).map P1).Pairwise (fun a b => a < b))
    (h2 : ((List.range m2).map P2).Pairwise (fun a b => a < b)) :
    ((List.range m1).flatMap fun a => (List.range m2).map fun b => (P1 a, P2 b)).Nodup
    ∧ ∀ p q : ℕ,
      (p, q) ∈ ((List.range m1).flatMap fun a => (List.range m2).map fun b => (P1 a, P2 b))
        ↔ p ∈ (List.range m1).map P1 ∧ q ∈ (List.range m2).map P2 := by
  constructor
  · apply nodup_flatMap_of_sep
    · exact List.nodup_range m1
    · intro a _
      apply List.Nodup.map_on _ (List.nodup_range _)
      intro x hx y hy e
      rw [List.mem_range] at hx hy
      simp only [Prod.mk.injEq, true_and] at e
      exact increasing_index_inj P2 m2 h2 x y hx hy e
    · intro a ha b hb pq hpa hpb
      rw [List.mem_range] at ha hb
      rw [List.mem_map] at hpa hpb
      obtain ⟨x, _, ex⟩ := hpa
      obtain ⟨y, _, ey⟩ := hpb
      have e : P1 a = P1 b := by
        have := congrArg Prod.fst (ex.trans ey.symm)
        exact this
      exact increasing_index_inj P1 m1 h1 a b ha hb e
  · intro p q
    simp only [List.mem_flatMap, List.mem_map, List.mem_range, Prod.mk.injEq]
    constructor
    · rintro ⟨a, ha, b, hb, rfl, rfl⟩
      exact ⟨⟨a, ha, rfl⟩, ⟨b, hb, rfl⟩⟩
    · rintro ⟨⟨a, ha, rfl⟩, ⟨b, hb, rfl⟩⟩
      exact ⟨a, ha, b, hb, rfl, rfl⟩

theorem count_of_nodup {β : Type} [BEq β] [LawfulBEq β] [DecidableEq β] (l : List β)
    (hnd : l.Nodup) (x : β) : l.count x = if x ∈ l then 1 else 0 := by
  induction l with
  | nil => simp
  | cons a l ih =>
    rw [List.nodup_cons] at hnd
    rw [List.count_cons, ih hnd.2]
    by_cases hx : a = x
    · subst hx
      simp [hnd.1]
    · have hx' : ¬ x = a := fun e => hx e.symm
      have hb : (a == x) = false := by
        rw [beq_eq_false_iff_ne]
        exact hx
      simp [hb, hx']

/-- Summing over a duplicate-free list of pairs the values `F q` of the pairs
`(i, q)` amounts to summing `F j` over the `j` with `(i, j)` in the list. -/
theorem sum_over_first {M : Type} [AddCommMonoid M] (T : List (ℕ × ℕ)) (hnd : T.Nodup)
    (i n : ℕ) (F : ℕ → M) (hn : ∀ j, (i, j) ∈ T → j < n) :
    (T.map fun pq => if pq.1 = i then F pq.2 else 0).sum
      = ∑ j in Finset.range n, if (i, j) ∈ T then F j else 0 := by
  induction T with
  | nil => simp
  | cons a T ih =>
    obtain ⟨p, q⟩ := a
    rw [List.nodup_cons] at hnd
    rw [List.map_cons, List.sum_cons,
      ih hnd.2 (fun j hj => hn j (List.mem_cons_of_mem _ hj))]
    by_cases hp : p = i
    · subst hp
      have hq : q < n := hn q (List.mem_cons_self _ _)
      have e : ∀ j ∈ Finset.range n, (if (p, j) ∈ (p, q) :: T then F j else 0)
          = (if j = q then F j else 0) + (if (p, j) ∈ T then F j else 0) := by
        intro j _
        by_cases hj : j = q
        · subst hj
          simp [hnd.1]
        · simp [hj]
      rw [Finset.sum_congr rfl e, Finset.sum_add_distrib, Finset.sum_ite_eq' (Finset.range n) q F,
        if_pos (Finset.mem_range.mpr hq)]
      simp
    · have e : ∀ j ∈ Finset.range n, (if (i, j) ∈ (p, q) :: T then F j else 0)
          = (if (i, j) ∈ T then F j else 0) := by
        intro j _
        have : ¬ i = p := fun e => hp e.symm
        simp [this]
      rw [Finset.sum_congr rfl e]
      simp [hp]

/-- The same for the second components. -/
theorem sum_over_second {M : Type} [AddCommMonoid M] (T : List (ℕ × ℕ)) (hnd : T.Nodup)
    (i n : ℕ) (F : ℕ → M) (hn : ∀ j, (j, i) ∈ T → j < n) :
    (T.map fun pq => if pq.2 = i then F pq.1 else 0).sum
      = ∑ j in Finset.range n, if (j, i) ∈ T then F j else 0 := by
  have hsw : (T.map Prod.swap).Nodup :=
    List.Nodup.map_on (fun x _ y _ e => Prod.swap_injective e) hnd
  have hmem : ∀ j, (i, j) ∈ T.map Prod.swap ↔ (j, i) ∈ T := by
    intro j
    rw [List.mem_map]
    constructor
    · rintro ⟨⟨a, b⟩, h, e⟩
      simp only [Prod.swap_prod_mk, Prod.mk.injEq] at e
      obtain ⟨rfl, rfl⟩ := e
      exact h
    · intro h
      exact ⟨(j, i), h, rfl⟩
  have := sum_over_first (T.map Prod.swap) hsw i n F (fun j hj => hn j ((hmem j).mp hj))
  rw [List.map_map] at this
  simp only [hmem] at this
  rw [← this]
  rfl

/-- The net effect on `i` of symmetric contributions over a duplicate-free
list of pairs in which no unordered pair occurs in both orders and which
misses only pairs that contribute nothing. -/
theorem sum_over_pairs {M : Type} [AddCommMonoid M] (T : List (ℕ × ℕ)) (hnd : T.Nodup)
    (i n : ℕ) (F : ℕ → M) (h1 : ∀ j, (i, j) ∈ T → j < n) (h2 : ∀ j, (j, i) ∈ T → j < n)
    (h3 : ∀ j, (i, j) ∈ T → (j, i) ∈ T → False)
    (h4 : ∀ j, j < n → (i, j) ∉ T → (j, i) ∉ T → F j = 0) :
    (T.map fun pq => (if pq.1 = i then F pq.2 else 0) + (if pq.2 = i then F pq.1 else 0)).sum
      = ∑ j in Finset.range n, F j := by
  have hsplit : (T.map fun pq => (if pq.1 = i then F pq.2 else 0)
      + (if pq.2 = i then F pq.1 else 0)).sum
      = (T.map fun pq => if pq.1 = i then F pq.2 else 0).sum
        + (T.map fun pq => if pq.2 = i then F pq.1 else 0).sum :=
    List.sum_map_add
  · rw [hsplit, sum_over_first T hnd i n F h1, sum_over_second T hnd i n F h2,
      ← Finset.sum_add_distrib]
    apply Finset.sum_congr rfl
    intro j hj
    rw [Finset.mem_range] at hj
    by_cases ha : (i, j) ∈ T
    · have hb : (j, i) ∉ T := fun hb => h3 j ha hb
      simp [ha, hb]
    · by_cases hb : (j, i) ∈ T
      · simp [ha, hb]
      · simp [ha, hb, h4 j hj ha hb]

end folds

/-! ## The precomputed neighbour lists -/

section neighbours

theorem precompute_row_fold (nx cx i ny' : ℤ) (nb : ℤ → List ℤ) :
    ([-1, 0, 1] : List ℤ).foldl (fun nb dx =>
        let nx' : ℤ := cx + dx
        if nx' < 0 ∨ nx' ≥ nx then nb
        else
          let j : ℤ := ny' * nx + nx'
          if j ≥ i then Function.update nb i (nb i ++ [j]) else nb) nb
      = Function.update nb i (nb i ++ neighbor_row nx cx i ny') := by
  have e : (fun (nb : ℤ → List ℤ) (dx : ℤ) =>
        let nx' : ℤ := cx + dx
        if nx' < 0 ∨ nx' ≥ nx then nb
        else
          let j : ℤ := ny' * nx + nx'
          if j ≥ i then Function.update nb i (nb i ++ [j]) else nb)
      = fun nb dx => Function.update nb i (nb i ++
          (if cx + dx < 0 ∨ cx + dx ≥ nx then []
            else if ny' * nx + (cx + dx) ≥ i then [ny' * nx + (cx + dx)] else [])) := by
    funext nb dx
    simp only []
    split_ifs <;> simp
  rw [e, foldl_update_const_key]
  rfl

theorem precompute_block_fold (nx ny cx cy : ℤ) (nb : ℤ → List ℤ) :
    ([-1, 0, 1] : List ℤ).foldl (fun nb dy =>
        let ny' : ℤ := cy + dy
        if ny' < 0 ∨ ny' ≥ ny then nb
        else
          ([-1, 0, 1] : List ℤ).foldl (fun nb dx =>
            let nx' : ℤ := cx + dx
            if nx' < 0 ∨ nx' ≥ nx then nb
            else
              let j : ℤ := ny' * nx + nx'
              if j ≥ cy * nx + cx then
                Function.update nb (cy * nx + cx) (nb (cy * nx + cx) ++ [j])
              else nb) nb) nb
      = Function.update nb (cy * nx + cx) (nb (cy * nx + cx) ++ neighbor_block nx ny cx cy) := by
  have e : (fun (nb : ℤ → List ℤ) (dy : ℤ) =>
        let ny' : ℤ := cy + dy
        if ny' < 0 ∨ ny' ≥ ny then nb
        else
          ([-1, 0, 1] : List ℤ).foldl (fun nb dx =>
            let nx' : ℤ := cx + dx
            if nx' < 0 ∨ nx' ≥ nx then nb
            else
              let j : ℤ := ny' * nx + nx'
              if j ≥ cy * nx + cx then
                Function.update nb (cy * nx + cx) (nb (cy * nx + cx) ++ [j])
              else nb) nb)
      = fun nb dy => Function.update nb (cy * nx + cx) (nb (cy * nx + cx) ++
          (if cy + dy < 0 ∨ cy + dy ≥ ny then []
            else neighbor_row nx cx (cy * nx + cx) (cy + dy))) := by
    funext nb dy
    simp only []
    split_ifs
    · simp
    · exact precompute_row_fold nx cx (cy * nx + cx) (cy + dy) nb
  rw [e, foldl_update_const_key]
  rfl

/-- The entry `k` of `neighbors_for_cell` after the precomputation: the blocks
of the cells `(cx, cy)` of the scan whose index is `k`, in scan order. -/
theorem precompute_neighbors_entry (nx ny k : ℤ) :
    precompute_neighbors nx ny k
      = ((List.range ny.toNat ×ˢ List.range nx.toNat).filter
          fun a => (a.1 : ℤ) * nx + (a.2 : ℤ) = k).flatMap
          fun a => neighbor_block nx ny (a.2 : ℤ) (a.1 : ℤ) := by
  have h := foldl_update_key (fun a : ℕ × ℕ => (a.1 : ℤ) * nx + (a.2 : ℤ))
    (fun a => neighbor_block nx ny (a.2 : ℤ) (a.1 : ℤ))
    (List.range ny.toNat ×ˢ List.range nx.toNat) (fun _ => []) k
  rw [List.nil_append] at h
  rw [← h]
  unfold precompute_neighbors
  have e : (List.range ny.toNat ×ˢ List.range nx.toNat)
      = (List.range ny.toNat).flatMap fun a => (List.range nx.toNat).map (Prod.mk a) := rfl
  rw [e, foldl_flatMap_eq]
  simp only [List.foldl_map, precompute_block_fold]

theorem mem_neighbor_row (nx cx i ny' j : ℤ) :
    j ∈ neighbor_row nx cx i ny' ↔
      ∃ dx : ℤ, (dx = -1 ∨ dx = 0 ∨ dx = 1) ∧ 0 ≤ cx + dx ∧ cx + dx < nx
        ∧ j = ny' * nx + (cx + dx) ∧ i ≤ j := by
  unfold neighbor_row
  rw [List.mem_flatMap]
  constructor
  · rintro ⟨dx, hdx, hj⟩
    have hdx' : dx = -1 ∨ dx = 0 ∨ dx = 1 := by simpa using hdx
    split_ifs at hj with h1 h2
    · simp at hj
    · rw [List.mem_singleton] at hj
      exact ⟨dx, hdx', by omega, by omega, hj, by omega⟩
    · simp at hj
  · rintro ⟨dx, hdx, h0, h1, hj, hi⟩
    refine ⟨dx, by simpa using hdx, ?_⟩
    rw [if_neg (by omega), if_pos (by omega)]
    simp [hj]

theorem nodup_neighbor_row (nx cx i ny' : ℤ) : (neighbor_row nx cx i ny').Nodup := by
  unfold neighbor_row
  apply nodup_flatMap_of_sep
  · decide
  · intro dx _
    split_ifs <;> simp
  · intro a _ b _ j hja hjb
    split_ifs at hja hjb <;> simp at hja hjb
    omega

theorem mem_neighbor_block (nx ny cx cy j : ℤ) :
    j ∈ neighbor_block nx ny cx cy ↔
      ∃ dx dy : ℤ, (dx = -1 ∨ dx = 0 ∨ dx = 1) ∧ (dy = -1 ∨ dy = 0 ∨ dy = 1)
        ∧ (0 ≤ cx + dx ∧ cx + dx < nx) ∧ (0 ≤ cy + dy ∧ cy + dy < ny)
        ∧ j = (cy + dy) * nx + (cx + dx) ∧ cy * nx + cx ≤ j := by
  unfold neighbor_block
  rw [List.mem_flatMap]
  constructor
  · rintro ⟨dy, hdy, hj⟩
    have hdy' : dy = -1 ∨ dy = 0 ∨ dy = 1 := by simpa using hdy
    split_ifs at hj with h1
    · simp at hj
    · obtain ⟨dx, hdx, h0, h2, hj', hi⟩ := (mem_neighbor_row _ _ _ _ _).mp hj
      exact ⟨dx, dy, hdx, hdy', ⟨h0, h2⟩, ⟨by omega, by omega⟩, hj', hi⟩
  · rintro ⟨dx, dy, hdx, hdy, ⟨h0, h1⟩, ⟨h2, h3⟩, hj, hi⟩
    refine ⟨dy, by simpa using hdy, ?_⟩
    rw [if_neg (by omega)]
    exact (mem_neighbor_row _ _ _ _ _).mpr ⟨dx, hdx, h0, h1, hj, hi⟩

theorem nodup_neighbor_block (nx ny cx cy : ℤ) : (neighbor_block nx ny cx cy).Nodup := by
  unfold neighbor_block
  apply nodup_flatMap_of_sep
  · decide
  · intro dy _
    split_ifs
    · simp
    · exact nodup_neighbor_row _ _ _ _
  · intro a _ b _ j hja hjb
    split_ifs at hja hjb
    · simp at hja
    · simp at hja
    · simp at hjb
    · obtain ⟨dx, _, h0, h1, hj, _⟩ := (mem_neighbor_row _ _ _ _ _).mp hja
      obtain ⟨dx', _, h0', h1', hj', _⟩ := (mem_neighbor_row _ _ _ _ _).mp hjb
      have := (linear_index_inj h0 h1 h0' h1' (hj.symm.trans hj')).2
      omega

/-- The coordinates `(i % nx, i / nx)` of an in-range cell index. -/
theorem cell_coords_of_index {nx ny i : ℤ} (hnx : 1 ≤ nx) (hi0 : 0 ≤ i) (hi : i < nx * ny) :
    (0 ≤ i % nx ∧ i % nx < nx) ∧ (0 ≤ i / nx ∧ i / nx < ny) ∧ i = i / nx * nx + i % nx := by
  have hpos : 0 < nx := by omega
  refine ⟨⟨Int.emod_nonneg _ (by omega), Int.emod_lt_of_pos _ hpos⟩,
    ⟨Int.ediv_nonneg hi0 (by omega), Int.ediv_lt_of_lt_mul hpos (by rw [mul_comm]; exact hi)⟩, ?_⟩
  have := Int.ediv_add_emod i nx
  rw [mul_comm] at this
  exact this.symm

/-- For an in-range cell index the precomputed list is the block of its cell. -/
theorem precompute_neighbors_in_range {nx ny i : ℤ} (hnx : 1 ≤ nx) (hi0 : 0 ≤ i)
    (hi : i < nx * ny) :
    precompute_neighbors nx ny i = neighbor_block nx ny (i % nx) (i / nx) := by
  obtain ⟨⟨hx0, hx1⟩, ⟨hy0, hy1⟩, hdecomp⟩ := cell_coords_of_index hnx hi0 hi
  rw [precompute_neighbors_entry]
  have hf := filter_eq_singleton (fun a : ℕ × ℕ => decide ((a.1 : ℤ) * nx + (a.2 : ℤ) = i))
    ((i / nx).toNat, (i % nx).toNat) (List.range ny.toNat ×ˢ List.range nx.toNat)
    (List.Nodup.product (List.nodup_range _) (List.nodup_range _))
    (by
      rw [List.mem_product, List.mem_range, List.mem_range]
      constructor <;> omega)
    (by
      rintro ⟨a1, a2⟩ ha
      rw [List.mem_product, List.mem_range, List.mem_range] at ha
      simp only [decide_eq_true_eq, Prod.mk.injEq]
      constructor
      · intro h
        have h' : (a1 : ℤ) * nx + (a2 : ℤ) = i / nx * nx + i % nx := by rw [← hdecomp]; exact h
        have := @linear_index_inj nx (a2 : ℤ) (a1 : ℤ) (i % nx) (i / nx) (by omega) (by omega)
          hx0 hx1 h'
        omega
      · rintro ⟨h1, h2⟩
        subst h1 h2
        rw [Int.toNat_of_nonneg hy0, Int.toNat_of_nonneg hx0]
        exact hdecomp.symm)
  rw [hf]
  simp only [List.flatMap_cons, List.flatMap_nil, List.append_nil]
  rw [Int.toNat_of_nonneg hy0, Int.toNat_of_nonneg hx0]

/-- Membership in the precomputed list of an in-range cell, in coordinates. -/
theorem mem_precompute_neighbors {nx ny i j : ℤ} (hnx : 1 ≤ nx) (hi0 : 0 ≤ i)
    (hi : i < nx * ny) :
    j ∈ precompute_neighbors nx ny i ↔
      (0 ≤ j ∧ j < nx * ny) ∧ i ≤ j ∧ |j % nx - i % nx| ≤ 1 ∧ |j / nx - i / nx| ≤ 1 := by
  obtain ⟨⟨hx0, hx1⟩, ⟨hy0, hy1⟩, hdecomp⟩ := cell_coords_of_index hnx hi0 hi
  rw [precompute_neighbors_in_range hnx hi0 hi, mem_neighbor_block]
  constructor
  · rintro ⟨dx, dy, hdx, hdy, ⟨h0, h1⟩, ⟨h2, h3⟩, hj, hij⟩
    have hb := linear_index_bounds h0 h1 h2 h3
    rw [← hj] at hb
    obtain ⟨⟨jx0, jx1⟩, _, jdecomp⟩ := cell_coords_of_index hnx hb.1 hb.2
    have := linear_index_inj jx0 jx1 h0 h1 (jdecomp.symm.trans hj)
    refine ⟨hb, by omega, ?_, ?_⟩
    · rw [this.1, abs_le]; constructor <;> omega
    · rw [this.2, abs_le]; constructor <;> omega
  · rintro ⟨⟨hj0, hj1⟩, hij, hx, hy⟩
    obtain ⟨⟨jx0, jx1⟩, ⟨jy0, jy1⟩, jdecomp⟩ := cell_coords_of_index hnx hj0 hj1
    rw [abs_le] at hx hy
    refine ⟨j % nx - i % nx, j / nx - i / nx, by omega, by omega, ⟨by omega, by omega⟩,
      ⟨by omega, by omega⟩, ?_, by omega⟩
    have e1 : i % nx + (j % nx - i % nx) = j % nx := by ring
    have e2 : i / nx + (j / nx - i / nx) = j / nx := by ring
    rw [e1, e2]
    exact jdecomp

/-- C9 (content of the neighbour-cell lists). `init_simulation` of
serial_optimized_v2.cpp and of openmp_v3.cpp set `neighbors_for_cell` to the
result of the precomputation loop for their `nx`, `ny`; and for every grid
size `nx, ny >= 1` and every cell index `i`, the list `neighbors_for_cell[i]`
has no repetition and holds precisely the cell indices `j >= i` whose
coordinates `(j % nx, j / nx)` differ from those of `i` by at most one in each
axis (`i` included). Consequently, for a cell `j` distinct from `i` and
8-adjacent to it, exactly one of `j ∈ neighbors_for_cell[i]` and
`i ∈ neighbors_for_cell[j]` holds. -/
theorem neighbor_lists_content {α : Type} [LinearOrderedField α] [FloorRing α]
    (c : Consts α) (size : α) (num_parts : ℕ) (alloc : ℤ → serial_optimized_v2.cell_t)
    (alloc3 : ℤ → openmp_v3.cell_t) (lock_alloc : ℤ → Bool) (nx ny i : ℤ) (hnx : 1 ≤ nx) (hny : 1 ≤ ny) (hi0 : 0 ≤ i) (hi : i < nx * ny) :
    ((serial_optimized_v2.init_simulation c size alloc).2
        = precompute_neighbors (serial_optimized_v2.init_simulation c size alloc).1.nx
            (serial_optimized_v2.init_simulation c size alloc).1.ny
      ∧ (openmp_v3.init_simulation c num_parts size alloc3 lock_alloc).2
        = precompute_neighbors (openmp_v3.init_simulation c num_parts size alloc3 lock_alloc).1.nx
            (openmp_v3.init_simulation c num_parts size alloc3 lock_alloc).1.ny)
    ∧ (precompute_neighbors nx ny i).Nodup
    ∧ (∀ j : ℤ, j ∈ precompute_neighbors nx ny i ↔
        (0 ≤ j ∧ j < nx * ny) ∧ i ≤ j ∧ |j % nx - i % nx| ≤ 1 ∧ |j / nx - i / nx| ≤ 1)
    ∧ ∀ j : ℤ, 0 ≤ j → j < nx * ny → j ≠ i → |j % nx - i % nx| ≤ 1 → |j / nx - i / nx| ≤ 1 →
        Xor' (j ∈ precompute_neighbors nx ny i) (i ∈ precompute_neighbors nx ny j) := by
  have hny' := hny
  refine ⟨⟨rfl, rfl⟩, ?_, fun j => mem_precompute_neighbors hnx hi0 hi, ?_⟩
  · rw [precompute_neighbors_in_range hnx hi0 hi]
    exact nodup_neighbor_block _ _ _ _
  · intro j hj0 hj hne hx hy
    rw [mem_precompute_neighbors hnx hi0 hi, mem_precompute_neighbors hnx hj0 hj]
    have hx' : |i % nx - j % nx| ≤ 1 := by rw [abs_sub_comm]; exact hx
    have hy' : |i / nx - j / nx| ≤ 1 := by rw [abs_sub_comm]; exact hy
    rcases lt_or_gt_of_ne hne with hlt | hgt
    · exact Or.inr ⟨⟨⟨hi0, hi⟩, hlt.le, hx', hy'⟩, fun h => by omega⟩
    · exact Or.inl ⟨⟨⟨hj0, hj⟩, le_of_lt hgt, hx, hy⟩, fun h => by omega⟩

/-- Witness of C9: the cell `0` of a grid of `2` by `2` cells. -/
theorem neighbor_lists_content_witness :
    ((1 : ℤ) ≤ 2 ∧ (1 : ℤ) ≤ 2 ∧ (0 : ℤ) ≤ 0 ∧ (0 : ℤ) < 2 * 2)
    ∧ ((serial_optimized_v2.init_simulation sample_consts 10 sample_alloc).2
          = precompute_neighbors (serial_optimized_v2.init_simulation sample_consts 10 sample_alloc).1.nx
              (serial_optimized_v2.init_simulation sample_consts 10 sample_alloc).1.ny
        ∧ (openmp_v3.init_simulation sample_consts 4 10 sample_alloc_v3 sample_locks).2
          = precompute_neighbors
              (openmp_v3.init_simulation sample_consts 4 10 sample_alloc_v3 sample_locks).1.nx
              (openmp_v3.init_simulation sample_consts 4 10 sample_alloc_v3 sample_locks).1.ny)
      ∧ (precompute_neighbors 2 2 0).Nodup
      ∧ (∀ j : ℤ, j ∈ precompute_neighbors 2 2 0 ↔
          (0 ≤ j ∧ j < 2 * 2) ∧ 0 ≤ j ∧ |j % 2 - 0 % 2| ≤ 1 ∧ |j / 2 - 0 / 2| ≤ 1)
      ∧ ∀ j : ℤ, 0 ≤ j → j < 2 * 2 → j ≠ 0 → |j % 2 - 0 % 2| ≤ 1 → |j / 2 - 0 / 2| ≤ 1 →
          Xor' (j ∈ precompute_neighbors 2 2 0) (0 ∈ precompute_neighbors 2 2 j) :=
  ⟨by decide, neighbor_lists_content sample_consts 10 4 sample_alloc sample_alloc_v3 sample_locks
    2 2 0 (by decide) (by decide) (by decide) (by decide)⟩

end neighbours

/-! ## The dynamic grid of serial_optimized.cpp -/

namespace serial_optimized

section grid

variable {α : Type} [LinearOrderedField α] [FloorRing α]

omit [LinearOrderedField α] [FloorRing α] in
theorem reset_fold_geometry (L : List ℕ) (g : grid_t α) :
    (L.foldl (fun g (i : ℕ) =>
        { g with cells := Function.update g.cells (i : ℤ) { g.cells (i : ℤ) with size := 0 } })
      g).nx = g.nx
    ∧ (L.foldl (fun g (i : ℕ) =>
        { g with cells := Function.update g.cells (i : ℤ) { g.cells (i : ℤ) with size := 0 } })
      g).ny = g.ny
    ∧ (L.foldl (fun g (i : ℕ) =>
        { g with cells := Function.update g.cells (i : ℤ) { g.cells (i : ℤ) with size := 0 } })
      g).cell_size = g.cell_size := by
  induction L generalizing g with
  | nil => exact ⟨rfl, rfl, rfl⟩
  | cons a L ih =>
    simp only [List.foldl_cons]
    exact ih _

omit [LinearOrderedField α] [FloorRing α] in
theorem reset_fold_cells (L : List ℕ) (g : grid_t α) (k : ℤ) :
    (L.foldl (fun g (i : ℕ) =>
        { g with cells := Function.update g.cells (i : ℤ) { g.cells (i : ℤ) with size := 0 } })
      g).cells k
      = if ∃ i ∈ L, (i : ℤ) = k then { g.cells k with size := 0 } else g.cells k := by
  induction L generalizing g with
  | nil => simp
  | cons a L ih =>
    simp only [List.foldl_cons]
    rw [ih]
    by_cases ha : (a : ℤ) = k
    · subst ha
      by_cases hL : ∃ i ∈ L, (i : ℤ) = (a : ℤ)
      · simp [hL]
      · simp [hL]
    · have hk : k ≠ (a : ℤ) := fun e => ha e.symm
      by_cases hL : ∃ i ∈ L, (i : ℤ) = k
      · have : ∃ i ∈ a :: L, (i : ℤ) = k := by
          obtain ⟨i, hi, e⟩ := hL
          exact ⟨i, List.mem_cons_of_mem _ hi, e⟩
        simp only [if_pos hL, if_pos this, Function.update_noteq hk]
      · have : ¬ ∃ i ∈ a :: L, (i : ℤ) = k := by
          rintro ⟨i, hi, e⟩
          rcases List.mem_cons.mp hi with h | h
          · subst h; exact ha e
          · exact hL ⟨i, h, e⟩
        simp only [if_neg hL, if_neg this, Function.update_noteq hk]

theorem exists_mem_range_cast (m k : ℤ) :
    (∃ i ∈ List.range m.toNat, (i : ℤ) = k) ↔ 0 ≤ k ∧ k < m := by
  constructor
  · rintro ⟨i, hi, e⟩
    rw [List.mem_range] at hi
    omega
  · rintro ⟨h0, h1⟩
    exact ⟨k.toNat, by rw [List.mem_range]; omega, by omega⟩

theorem reset_cells_geometry (g : grid_t α) :
    (reset_cells g).nx = g.nx ∧ (reset_cells g).ny = g.ny
      ∧ (reset_cells g).cell_size = g.cell_size :=
  reset_fold_geometry _ g

theorem reset_cells_cells (g : grid_t α) (k : ℤ) :
    (reset_cells g).cells k
      = if 0 ≤ k ∧ k < g.nx * g.ny then { g.cells k with size := 0 } else g.cells k := by
  unfold reset_cells
  rw [reset_fold_cells]
  simp only [exists_mem_range_cast]

theorem add_to_cell_geometry (g : grid_t α) (i : ℕ) (p : particle_t α) :
    (add_to_cell g i p).nx = g.nx ∧ (add_to_cell g i p).ny = g.ny
      ∧ (add_to_cell g i p).cell_size = g.cell_size := ⟨rfl, rfl, rfl⟩

theorem cell_of_congr (g g' : grid_t α) (p : particle_t α) (hnx : g'.nx = g.nx)
    (hcs : g'.cell_size = g.cell_size) : cell_of g' p = cell_of g p := by
  simp only [cell_of, hnx, hcs]

theorem add_to_cell_other (g : grid_t α) (i : ℕ) (p : particle_t α) (k : ℤ)
    (hk : k ≠ cell_of g p) : (add_to_cell g i p).cells k = g.cells k := by
  unfold add_to_cell
  simp only []
  exact Function.update_noteq hk _ _

theorem add_to_cell_length (g : grid_t α) (i : ℕ) (p : particle_t α) (k : ℤ) :
    (g.cells k).particles.length ≤ ((add_to_cell g i p).cells k).particles.length := by
  by_cases hk : k = cell_of g p
  · subst hk
    unfold add_to_cell
    simp only [cell_of, Function.update_same]
    split
    · simp
    · simp
  · rw [add_to_cell_other g i p k hk]

theorem add_to_cell_live (g : grid_t α) (i : ℕ) (p : particle_t α)
    (h : (g.cells (cell_of g p)).size ≤ (g.cells (cell_of g p)).particles.length) :
    live ((add_to_cell g i p).cells (cell_of g p)) = live (g.cells (cell_of g p)) ++ [i]
      ∧ ((add_to_cell g i p).cells (cell_of g p)).size
          ≤ ((add_to_cell g i p).cells (cell_of g p)).particles.length := by
  unfold add_to_cell live
  simp only [cell_of, Function.update_same] at h ⊢
  split
  · rename_i hlt
    refine ⟨?_, by simp; omega⟩
    exact take_succ_set _ _ _ hlt
  · rename_i hnl
    have e : (g.cells (to_int (p.y / g.cell_size) * g.nx + to_int (p.x / g.cell_size))).size
        = (g.cells (to_int (p.y / g.cell_size) * g.nx
            + to_int (p.x / g.cell_size))).particles.length := by omega
    refine ⟨?_, by simp; omega⟩
    rw [e, List.take_length]
    exact List.take_of_length_le (by simp)

theorem populate_succ (g : grid_t α) (parts : ℕ → particle_t α) (n : ℕ) :
    populate g parts (n + 1) = add_to_cell (populate g parts n) n (parts n) := by
  unfold populate
  rw [List.range_succ, List.foldl_append]
  rfl

theorem populate_geometry (g : grid_t α) (parts : ℕ → particle_t α) (n : ℕ) :
    (populate g parts n).nx = g.nx ∧ (populate g parts n).ny = g.ny
      ∧ (populate g parts n).cell_size = g.cell_size := by
  induction n with
  | zero => exact ⟨rfl, rfl, rfl⟩
  | succ n ih =>
    rw [populate_succ]
    exact ih

theorem populate_length (g : grid_t α) (parts : ℕ → particle_t α) (n : ℕ) (k : ℤ) :
    (g.cells k).particles.length ≤ ((populate g parts n).cells k).particles.length := by
  induction n with
  | zero => exact le_refl _
  | succ n ih =>
    rw [populate_succ]
    exact le_trans ih (add_to_cell_length _ _ _ _)

/-- After the population loop, the live prefix of a cell whose live count
started within its backing vector is its former live prefix followed by the
indices of the particles mapped to it, in increasing order. -/
theorem populate_live (g : grid_t α) (parts : ℕ → particle_t α) (n : ℕ) (k : ℤ)
    (h : (g.cells k).size ≤ (g.cells k).particles.length) :
    live ((populate g parts n).cells k)
        = live (g.cells k) ++ (List.range n).filter (fun i => cell_of g (parts i) = k)
      ∧ ((populate g parts n).cells k).size
          ≤ ((populate g parts n).cells k).particles.length := by
  induction n with
  | zero => exact ⟨by simp [populate], h⟩
  | succ n ih =>
    obtain ⟨ih1, ih2⟩ := ih
    have hgeo := populate_geometry g parts n
    have hc : cell_of (populate g parts n) (parts n) = cell_of g (parts n) :=
      cell_of_congr _ _ _ hgeo.1 hgeo.2.2
    rw [populate_succ, List.range_succ, List.filter_append]
    by_cases hk : cell_of g (parts n) = k
    · subst hk
      have := add_to_cell_live (populate g parts n) n (parts n) (by rw [hc]; exact ih2)
      rw [hc] at this
      refine ⟨?_, this.2⟩
      rw [this.1, ih1]
      simp
    · have hk' : k ≠ cell_of (populate g parts n) (parts n) := by
        rw [hc]
        exact fun e => hk e.symm
      rw [add_to_cell_other _ _ _ _ hk']
      refine ⟨?_, ih2⟩
      rw [ih1]
      simp [hk]

/-- The live prefix of an in-range cell after the reset and population loops. -/
theorem populated_live (g : grid_t α) (parts : ℕ → particle_t α) (n : ℕ) (k : ℤ)
    (hk : 0 ≤ k ∧ k < g.nx * g.ny) :
    live ((populate (reset_cells g) parts n).cells k)
        = (List.range n).filter (fun i => cell_of g (parts i) = k)
      ∧ ((populate (reset_cells g) parts n).cells k).size
          ≤ ((populate (reset_cells g) parts n).cells k).particles.length := by
  have hr : (reset_cells g).cells k = { g.cells k with size := 0 } := by
    rw [reset_cells_cells, if_pos hk]
  have h0 : ((reset_cells g).cells k).size ≤ ((reset_cells g).cells k).particles.length := by
    rw [hr]
    exact Nat.zero_le _
  have hgeo := reset_cells_geometry g
  obtain ⟨h1, h2⟩ := populate_live (reset_cells g) parts n k h0
  refine ⟨?_, h2⟩
  rw [h1, hr]
  have e : ∀ i, cell_of (reset_cells g) (parts i) = cell_of g (parts i) :=
    fun i => cell_of_congr _ _ _ hgeo.1 hgeo.2.2
  simp only [live, List.take_zero, List.nil_append, e]

end grid

end serial_optimized

section dynamic_grid

variable {α : Type} [LinearOrderedField α] [FloorRing α]

/-- The cell of a particle inside the domain is a cell of the grid, for a grid
with the geometry set by `init_simulation` of serial_optimized.cpp. -/
theorem serial_optimized.cell_of_in_range (c : Consts α) (size : α)
    (grid : serial_optimized.grid_t α) (p : particle_t α) (hcut : 0 < c.cutoff)
    (hcs : grid.cell_size = (serial_optimized.init_simulation c size).cell_size)
    (hnx : grid.nx = (serial_optimized.init_simulation c size).nx)
    (hny : grid.ny = (serial_optimized.init_simulation c size).ny)
    (hx : 0 ≤ p.x ∧ p.x ≤ size) (hy : 0 ≤ p.y ∧ p.y ≤ size) :
    (0 ≤ to_int (p.x / grid.cell_size) ∧ to_int (p.x / grid.cell_size) < grid.nx)
      ∧ (0 ≤ to_int (p.y / grid.cell_size) ∧ to_int (p.y / grid.cell_size) < grid.ny)
      ∧ 0 ≤ serial_optimized.cell_of grid p
      ∧ serial_optimized.cell_of grid p < grid.nx * grid.ny := by
  have hcs' : grid.cell_size = c.cutoff := hcs
  have hnx' : grid.nx = to_int (size / c.cutoff) + 1 := hnx
  have hny' : grid.ny = to_int (size / c.cutoff) + 1 := hny
  have bx : 0 ≤ to_int (p.x / grid.cell_size) ∧ to_int (p.x / grid.cell_size) < grid.nx := by
    rw [hcs', hnx']
    refine ⟨to_int_div_nonneg hx.1 hcut, ?_⟩
    have := to_int_div_mono hx.1 hx.2 hcut
    omega
  have by' : 0 ≤ to_int (p.y / grid.cell_size) ∧ to_int (p.y / grid.cell_size) < grid.ny := by
    rw [hcs', hny']
    refine ⟨to_int_div_nonneg hy.1 hcut, ?_⟩
    have := to_int_div_mono hy.1 hy.2 hcut
    omega
  have := linear_index_bounds bx.1 bx.2 by'.1 by'.2
  exact ⟨bx, by', this.1, this.2⟩

/-- C6 (grid completeness for dynamic cells). Start from any grid state with
the geometry set by `init_simulation` of serial_optimized.cpp (whatever the
cells hold: the reset alone brings every live count within its backing
vector). After the reset loop and the population loop of `simulate_one_step`,
for every particle index `i` whose position lies in `[0, size]^2`, the live
prefix of the cell computed from the position of `i` contains `i` exactly
once, the live prefix of no other cell of the grid contains `i`, and no
backing vector has become shorter. -/
theorem dynamic_grid_complete (c : Consts α) (size : α) (grid : serial_optimized.grid_t α)
    (parts : ℕ → particle_t α) (num_parts i : ℕ) (hsize : 0 < size) (hcut : 0 < c.cutoff)
    (hcs : grid.cell_size = (serial_optimized.init_simulation c size).cell_size)
    (hnx : grid.nx = (serial_optimized.init_simulation c size).nx)
    (hny : grid.ny = (serial_optimized.init_simulation c size).ny)
    (hi : i < num_parts)
    (hx : 0 ≤ (parts i).x ∧ (parts i).x ≤ size) (hy : 0 ≤ (parts i).y ∧ (parts i).y ≤ size) :
    ∀ g' : serial_optimized.grid_t α,
      g' = serial_optimized.populate (serial_optimized.reset_cells grid) parts num_parts →
      (serial_optimized.live (g'.cells (serial_optimized.cell_of g' (parts i)))).count i = 1
        ∧ (∀ k : ℤ, 0 ≤ k → k < g'.nx * g'.ny → k ≠ serial_optimized.cell_of g' (parts i) →
            i ∉ serial_optimized.live (g'.cells k))
        ∧ ∀ k : ℤ, (grid.cells k).particles.length ≤ (g'.cells k).particles.length := by
  intro g' hg'
  subst hg'
  have hsize' := hsize
  have hr := serial_optimized.reset_cells_geometry grid
  have hp := serial_optimized.populate_geometry (serial_optimized.reset_cells grid) parts num_parts
  have hc : ∀ p, serial_optimized.cell_of
      (serial_optimized.populate (serial_optimized.reset_cells grid) parts num_parts) p
      = serial_optimized.cell_of grid p :=
    fun p => serial_optimized.cell_of_congr _ _ _ (hp.1.trans hr.1) (hp.2.2.trans hr.2.2)
  have hin := serial_optimized.cell_of_in_range c size grid (parts i) hcut hcs hnx hny hx hy
  refine ⟨?_, ?_, ?_⟩
  · rw [hc, (serial_optimized.populated_live grid parts num_parts _ ⟨hin.2.2.1, hin.2.2.2⟩).1]
    apply List.count_eq_one_of_mem ((List.nodup_range _).filter _)
    rw [List.mem_filter, List.mem_range]
    exact ⟨hi, by simp⟩
  · intro k hk0 hk1 hne
    rw [hp.1, hp.2.1, hr.1, hr.2.1] at hk1
    rw [hc] at hne
    rw [(serial_optimized.populated_live grid parts num_parts k ⟨hk0, hk1⟩).1, List.mem_filter]
    rintro ⟨_, h⟩
    have h' : serial_optimized.cell_of grid (parts i) = k := by simpa using h
    exact hne h'.symm
  · intro k
    have h1 := serial_optimized.populate_length (serial_optimized.reset_cells grid) parts
      num_parts k
    have h2 : ((serial_optimized.reset_cells grid).cells k).particles = (grid.cells k).particles := by
      rw [serial_optimized.reset_cells_cells]
      split <;> rfl
    rw [h2] at h1
    exact h1

end dynamic_grid

/-! ## The force loop of serial_optimized.cpp -/

namespace serial_optimized

section forces

variable {α : Type} [LinearOrderedField α] [FloorRing α]

theorem visited_congr (g : grid_t α) (p p' : particle_t α) (hx : p'.x = p.x) (hy : p'.y = p.y) :
    visited g p' = visited g p := by
  simp only [visited, hx, hy]

theorem force_on_particle_eq (c : Consts α) (g : grid_t α) (s : traced α) (i : ℕ) :
    force_on_particle c g s i
      = (visited g (s.parts i)).foldl (fun s k => call_apply_force c s i k)
          ⟨Function.update s.parts i { s.parts i with ax := 0, ay := 0 }, s.calls⟩ := by
  unfold force_on_particle visited
  simp only [Function.update_same]
  rw [foldl_flatMap_eq]
  congr 1
  funext s dx
  rw [foldl_flatMap_eq]
  congr 1
  funext s dy
  split_ifs
  · rfl
  · rw [List.foldl_map]

/-- The effect of a run of asymmetric calls with the same subject `i`. -/
theorem asym_fold (c : Consts α) (i : ℕ) (V : List ℕ) (s : traced α) :
    (V.foldl (fun s k => call_apply_force c s i k) s).calls = s.calls ++ V.map (fun k => (i, k))
    ∧ (∀ k, k ≠ i → (V.foldl (fun s k => call_apply_force c s i k) s).parts k = s.parts k)
    ∧ ((V.foldl (fun s k => call_apply_force c s i k) s).parts i).x = (s.parts i).x
    ∧ ((V.foldl (fun s k => call_apply_force c s i k) s).parts i).y = (s.parts i).y
    ∧ ((V.foldl (fun s k => call_apply_force c s i k) s).parts i).vx = (s.parts i).vx
    ∧ ((V.foldl (fun s k => call_apply_force c s i k) s).parts i).vy = (s.parts i).vy
    ∧ ((V.foldl (fun s k => call_apply_force c s i k) s).parts i).ax
        = (s.parts i).ax + (V.map fun k => (pair_force c (s.parts i) (s.parts k)).1).sum
    ∧ ((V.foldl (fun s k => call_apply_force c s i k) s).parts i).ay
        = (s.parts i).ay + (V.map fun k => (pair_force c (s.parts i) (s.parts k)).2).sum := by
  induction V generalizing s with
  | nil => simp
  | cons a V ih =>
    simp only [List.foldl_cons]
    obtain ⟨h1, h2, h3, h4, h5, h6, h7, h8⟩ := ih (call_apply_force c s i a)
    have e : (call_apply_force c s i a).parts
        = Function.update s.parts i
          { s.parts i with
            ax := (s.parts i).ax + (pair_force c (s.parts i) (s.parts a)).1
            ay := (s.parts i).ay + (pair_force c (s.parts i) (s.parts a)).2 } := by
      simp only [call_apply_force, asym_apply_force_eq]
    have hpf : ∀ k, pair_force c ((call_apply_force c s i a).parts i)
        ((call_apply_force c s i a).parts k) = pair_force c (s.parts i) (s.parts k) := by
      intro k
      apply pair_force_congr
      · rw [e]; simp
      · rw [e]; simp
      · rw [e]
        by_cases hk : k = i
        · subst hk; simp
        · simp [Function.update_noteq hk]
      · rw [e]
        by_cases hk : k = i
        · subst hk; simp
        · simp [Function.update_noteq hk]
    refine ⟨?_, ?_, ?_, ?_, ?_, ?_, ?_, ?_⟩
    · rw [h1]; simp [call_apply_force]
    · intro k hk
      rw [h2 k hk, e, Function.update_noteq hk]
    · rw [h3, e]; simp
    · rw [h4, e]; simp
    · rw [h5, e]; simp
    · rw [h6, e]; simp
    · rw [h7]
      simp only [hpf, List.map_cons, List.sum_cons]
      rw [e]
      simp only [Function.update_same]
      ring
    · rw [h8]
      simp only [hpf, List.map_cons, List.sum_cons]
      rw [e]
      simp only [Function.update_same]
      ring

/-- The effect of the body of "Compute forces" for the particle `i`. -/
theorem force_on_particle_spec (c : Consts α) (g : grid_t α) (s : traced α) (i : ℕ) :
    (force_on_particle c g s i).calls = s.calls ++ (visited g (s.parts i)).map (fun k => (i, k))
    ∧ (∀ k, k ≠ i → (force_on_particle c g s i).parts k = s.parts k)
    ∧ ((force_on_particle c g s i).parts i).x = (s.parts i).x
    ∧ ((force_on_particle c g s i).parts i).y = (s.parts i).y
    ∧ ((force_on_particle c g s i).parts i).vx = (s.parts i).vx
    ∧ ((force_on_particle c g s i).parts i).vy = (s.parts i).vy
    ∧ ((force_on_particle c g s i).parts i).ax
        = ((visited g (s.parts i)).map fun k => (pair_force c (s.parts i) (s.parts k)).1).sum
    ∧ ((force_on_particle c g s i).parts i).ay
        = ((visited g (s.parts i)).map fun k => (pair_force c (s.parts i) (s.parts k)).2).sum := by
  rw [force_on_particle_eq]
  obtain ⟨h1, h2, h3, h4, h5, h6, h7, h8⟩ := asym_fold c i (visited g (s.parts i))
    ⟨Function.update s.parts i { s.parts i with ax := 0, ay := 0 }, s.calls⟩
  have hpf : ∀ k, pair_force c
      ((Function.update s.parts i { s.parts i with ax := 0, ay := 0 }) i)
      ((Function.update s.parts i { s.parts i with ax := 0, ay := 0 }) k)
      = pair_force c (s.parts i) (s.parts k) := by
    intro k
    apply pair_force_congr
    · simp
    · simp
    · by_cases hk : k = i
      · subst hk; simp
      · simp [Function.update_noteq hk]
    · by_cases hk : k = i
      · subst hk; simp
      · simp [Function.update_noteq hk]
  refine ⟨h1, ?_, ?_, ?_, ?_, ?_, ?_, ?_⟩
  · intro k hk
    rw [h2 k hk]
    exact Function.update_noteq hk _ _
  · rw [h3]; simp
  · rw [h4]; simp
  · rw [h5]; simp
  · rw [h6]; simp
  · rw [h7]
    simp only [hpf]
    simp
  · rw [h8]
    simp only [hpf]
    simp

theorem compute_forces_succ (c : Consts α) (g : grid_t α) (s : traced α) (n : ℕ) :
    compute_forces c g s (n + 1) = force_on_particle c g (compute_forces c g s n) n := by
  unfold compute_forces
  rw [List.range_succ, List.foldl_append]
  rfl

/-- The effect of the loop "Compute forces": positions and velocities are
kept, particles beyond `num_parts` are untouched, and the acceleration of each
particle is the sum of the pair forces over the particles its scan visits. -/
theorem compute_forces_spec (c : Consts α) (g : grid_t α) (s : traced α) (n : ℕ) :
    (compute_forces c g s n).calls
        = s.calls ++ (List.range n).flatMap
            (fun i => (visited g (s.parts i)).map (fun k => (i, k)))
    ∧ (∀ k, ((compute_forces c g s n).parts k).x = (s.parts k).x
        ∧ ((compute_forces c g s n).parts k).y = (s.parts k).y
        ∧ ((compute_forces c g s n).parts k).vx = (s.parts k).vx
        ∧ ((compute_forces c g s n).parts k).vy = (s.parts k).vy)
    ∧ (∀ k, n ≤ k → (compute_forces c g s n).parts k = s.parts k)
    ∧ ∀ i, i < n →
        ((compute_forces c g s n).parts i).ax
          = ((visited g (s.parts i)).map fun k => (pair_force c (s.parts i) (s.parts k)).1).sum
        ∧ ((compute_forces c g s n).parts i).ay
          = ((visited g (s.parts i)).map fun k => (pair_force c (s.parts i) (s.parts k)).2).sum := by
  induction n with
  | zero =>
    refine ⟨by simp [compute_forces], fun k => ⟨rfl, rfl, rfl, rfl⟩, fun k _ => rfl, ?_⟩
    intro i hi
    exact absurd hi (Nat.not_lt_zero _)
  | succ n ih =>
    obtain ⟨ic, ipos, ifar, iacc⟩ := ih
    rw [compute_forces_succ]
    obtain ⟨h1, h2, h3, h4, h5, h6, h7, h8⟩ :=
      force_on_particle_spec c g (compute_forces c g s n) n
    have hv : visited g ((compute_forces c g s n).parts n) = visited g (s.parts n) :=
      visited_congr g _ _ (ipos n).1 (ipos n).2.1
    have hpf : ∀ k, pair_force c ((compute_forces c g s n).parts n)
        ((compute_forces c g s n).parts k) = pair_force c (s.parts n) (s.parts k) :=
      fun k => pair_force_congr c _ _ _ _ (ipos n).1 (ipos n).2.1 (ipos k).1 (ipos k).2.1
    refine ⟨?_, ?_, ?_, ?_⟩
    · rw [h1, ic, hv, List.range_succ, List.flatMap_append]
      simp
    · intro k
      by_cases hk : k = n
      · subst hk
        rw [h3, h4, h5, h6]
        exact ipos k
      · rw [h2 k hk]
        exact ipos k
    · intro k hk
      rw [h2 k (by omega)]
      exact ifar k (by omega)
    · intro i hi
      by_cases hin : i = n
      · subst hin
        rw [h7, h8, hv]
        simp only [hpf, and_self]
      · rw [h2 i hin]
        exact iacc i (by omega)

/-- On a populated grid the scan visits, cell by cell, the particles mapped to
the cells of the 3x3 block. -/
theorem visited_populated (g : grid_t α) (parts : ℕ → particle_t α) (n : ℕ) (p : particle_t α) :
    visited (populate (reset_cells g) parts n) p = block_members g parts n p := by
  have hr := reset_cells_geometry g
  have hp := populate_geometry (reset_cells g) parts n
  unfold visited block_members
  rw [hp.1, hp.2.1, hp.2.2, hr.1, hr.2.1, hr.2.2]
  congr 1
  funext dx
  congr 1
  funext dy
  split_ifs with h
  · rfl
  · have hk := @linear_index_bounds g.nx g.ny (to_int (p.x / g.cell_size) + dx)
      (to_int (p.y / g.cell_size) + dy) (by omega) (by omega) (by omega) (by omega)
    obtain ⟨h1, h2⟩ := populated_live g parts n _ hk
    rw [range_map_getD_eq_take _ _ _ h2]
    exact h1

theorem mem_block_members (g : grid_t α) (parts : ℕ → particle_t α) (n : ℕ) (p : particle_t α)
    (k : ℕ) :
    k ∈ block_members g parts n p ↔
      k < n ∧ ∃ dx dy : ℤ, (dx = -1 ∨ dx = 0 ∨ dx = 1) ∧ (dy = -1 ∨ dy = 0 ∨ dy = 1)
        ∧ (0 ≤ to_int (p.x / g.cell_size) + dx ∧ to_int (p.x / g.cell_size) + dx < g.nx)
        ∧ (0 ≤ to_int (p.y / g.cell_size) + dy ∧ to_int (p.y / g.cell_size) + dy < g.ny)
        ∧ cell_of g (parts k)
          = (to_int (p.y / g.cell_size) + dy) * g.nx + (to_int (p.x / g.cell_size) + dx) := by
  unfold block_members
  simp only [List.mem_flatMap]
  constructor
  · rintro ⟨dx, hdx, dy, hdy, hk⟩
    have hdx' : dx = -1 ∨ dx = 0 ∨ dx = 1 := by simpa using hdx
    have hdy' : dy = -1 ∨ dy = 0 ∨ dy = 1 := by simpa using hdy
    split_ifs at hk with h
    · simp at hk
    · rw [List.mem_filter, List.mem_range] at hk
      exact ⟨hk.1, dx, dy, hdx', hdy', ⟨by omega, by omega⟩, ⟨by omega, by omega⟩,
        by simpa using hk.2⟩
  · rintro ⟨hk, dx, dy, hdx, hdy, ⟨h0, h1⟩, ⟨h2, h3⟩, hc⟩
    refine ⟨dx, by simpa using hdx, dy, by simpa using hdy, ?_⟩
    rw [if_neg (by omega), List.mem_filter, List.mem_range]
    exact ⟨hk, by simpa using hc⟩

theorem nodup_block_members (g : grid_t α) (parts : ℕ → particle_t α) (n : ℕ)
    (p : particle_t α) : (block_members g parts n p).Nodup := by
  unfold block_members
  apply nodup_flatMap_of_sep
  · decide
  · intro dx _
    apply nodup_flatMap_of_sep
    · decide
    · intro dy _
      split_ifs
      · simp
      · exact (List.nodup_range _).filter _
    · intro a _ b _ k hka hkb
      split_ifs at hka hkb with h1 h2
      · simp at hka
      · simp at hka
      · simp at hkb
      · rw [List.mem_filter] at hka hkb
        have e1 := of_decide_eq_true hka.2
        have e2 := of_decide_eq_true hkb.2
        have := @linear_index_inj g.nx (to_int (p.x / g.cell_size) + dx) _
          (to_int (p.x / g.cell_size) + dx) _ (by omega) (by omega) (by omega) (by omega)
          (e1.symm.trans e2)
        omega
  · intro a _ b _ k hka hkb
    rw [List.mem_flatMap] at hka hkb
    obtain ⟨dy, _, hka⟩ := hka
    obtain ⟨dy', _, hkb⟩ := hkb
    split_ifs at hka hkb with h1 h2
    · simp at hka
    · simp at hka
    · simp at hkb
    · rw [List.mem_filter] at hka hkb
      have e1 := of_decide_eq_true hka.2
      have e2 := of_decide_eq_true hkb.2
      have := @linear_index_inj g.nx (to_int (p.x / g.cell_size) + a) _
        (to_int (p.x / g.cell_size) + b) _ (by omega) (by omega) (by omega) (by omega)
        (e1.symm.trans e2)
      omega

theorem contribution_eq_pair_force (c : Consts α) (p q : particle_t α) :
    contribution c p q = pair_force c p q := by
  unfold contribution
  rw [asym_apply_force_eq]
  have e : pair_force c
      ((fun k : ℕ => if k = 0 then ({ p with ax := 0, ay := 0 } : particle_t α) else q) 0)
      ((fun k : ℕ => if k = 0 then ({ p with ax := 0, ay := 0 } : particle_t α) else q) 1)
      = pair_force c p q := pair_force_congr c _ _ _ _ rfl rfl rfl rfl
  rw [e]
  simp

/-- A particle of the domain within the cutoff of a subject of the domain is
in the 3x3 block of the subject, for the geometry of serial_optimized.cpp. -/
theorem within_cutoff_mem_block (c : Consts α) (size : α) (g : grid_t α)
    (parts : ℕ → particle_t α) (n : ℕ) (p : particle_t α) (k : ℕ) (hcut : 0 < c.cutoff)
    (hcs : g.cell_size = (init_simulation c size).cell_size)
    (hnx : g.nx = (init_simulation c size).nx) (hny : g.ny = (init_simulation c size).ny)
    (hk : k < n) (hpx : 0 ≤ p.x ∧ p.x ≤ size) (hpy : 0 ≤ p.y ∧ p.y ≤ size)
    (hqx : 0 ≤ (parts k).x ∧ (parts k).x ≤ size) (hqy : 0 ≤ (parts k).y ∧ (parts k).y ≤ size)
    (hd : ¬ ((parts k).x - p.x) * ((parts k).x - p.x) + ((parts k).y - p.y) * ((parts k).y - p.y)
      > c.cutoff * c.cutoff) :
    k ∈ block_members g parts n p := by
  have hcs' : g.cell_size = c.cutoff := hcs
  have hd' : ((parts k).x - p.x) ^ 2 + ((parts k).y - p.y) ^ 2 ≤ c.cutoff ^ 2 := by
    simpa only [sq, not_lt, gt_iff_lt] using hd
  obtain ⟨⟨a1, a2⟩, ⟨b1, b2⟩⟩ := sq_sum_le_split hcut hd'
  have hpos : 0 < g.cell_size := by rw [hcs']; exact hcut
  have hle : c.cutoff ≤ g.cell_size := by rw [hcs']
  have cx := to_int_div_close hqx.1 hpx.1 hpos hle (by linarith) (by linarith)
  have cy := to_int_div_close hqy.1 hpy.1 hpos hle (by linarith) (by linarith)
  rw [abs_le] at cx cy
  have hq := cell_of_in_range c size g (parts k) hcut hcs hnx hny hqx hqy
  rw [mem_block_members]
  refine ⟨hk, to_int ((parts k).x / g.cell_size) - to_int (p.x / g.cell_size),
    to_int ((parts k).y / g.cell_size) - to_int (p.y / g.cell_size), by omega, by omega,
    ⟨by omega, by omega⟩, ⟨by omega, by omega⟩, ?_⟩
  unfold cell_of
  ring

/-- The binned force pass equals the all-pairs sum of pair forces, for any
grid with the geometry of `init_simulation`. -/
theorem force_pass_eq_sum (c : Consts α) (size : α) (g : grid_t α) (parts : ℕ → particle_t α)
    (n i : ℕ) (hcut : 0 < c.cutoff)
    (hcs : g.cell_size = (init_simulation c size).cell_size)
    (hnx : g.nx = (init_simulation c size).nx) (hny : g.ny = (init_simulation c size).ny)
    (hdom : ∀ k, k < n → (0 ≤ (parts k).x ∧ (parts k).x ≤ size)
      ∧ (0 ≤ (parts k).y ∧ (parts k).y ≤ size))
    (hi : i < n) :
    ((force_pass c g parts n).2.parts i).ax
        = ∑ j in Finset.range n, (pair_force c (parts i) (parts j)).1
      ∧ ((force_pass c g parts n).2.parts i).ay
        = ∑ j in Finset.range n, (pair_force c (parts i) (parts j)).2 := by
  unfold force_pass
  simp only []
  obtain ⟨_, _, _, hacc⟩ := compute_forces_spec c (populate (reset_cells g) parts n)
    ⟨parts, []⟩ n
  obtain ⟨hax, hay⟩ := hacc i hi
  rw [hax, hay]
  simp only [visited_populated]
  have hz : ∀ k, k < n → k ∉ block_members g parts n (parts i) →
      pair_force c (parts i) (parts k) = (0, 0) := by
    intro k hk hnot
    by_cases hd : ((parts k).x - (parts i).x) * ((parts k).x - (parts i).x)
        + ((parts k).y - (parts i).y) * ((parts k).y - (parts i).y) > c.cutoff * c.cutoff
    · exact pair_force_of_gt c _ _ hd
    · exact absurd (within_cutoff_mem_block c size g parts n (parts i) k hcut hcs hnx hny hk
        (hdom i hi).1 (hdom i hi).2 (hdom k hk).1 (hdom k hk).2 hd) hnot
  have hsub : ∀ k ∈ block_members g parts n (parts i), k < n :=
    fun k hk => ((mem_block_members g parts n (parts i) k).mp hk).1
  constructor
  · exact sum_map_eq_sum_range _ n _ (nodup_block_members g parts n (parts i)) hsub
      (fun k hk hnot => by rw [hz k hk hnot])
  · exact sum_map_eq_sum_range _ n _ (nodup_block_members g parts n (parts i)) hsub
      (fun k hk hnot => by rw [hz k hk hnot])

end forces

end serial_optimized

section binned_vs_all_pairs

variable {α : Type} [LinearOrderedField α] [FloorRing α]

/-- C1 (the on-demand binned force pass equals the all-pairs reference). For
every domain size `> 0`, every cutoff `> 0` (whatever `min_r` and `mass`) and
every particle list with positions in `[0, size] x [0, size]`, after
`init_simulation` followed by the reset, population and force phases of
`simulate_one_step` of serial_optimized.cpp, the acceleration of each particle
`i` is the sum, over all particles `j` of the list, of the contribution that
`apply_force(i, j)` adds to a zeroed acceleration. -/
theorem binned_force_pass_eq_all_pairs (c : Consts α) (size : α) (parts : ℕ → particle_t α)
    (num_parts i : ℕ) (hsize : 0 < size) (hcut : 0 < c.cutoff)
    (hdom : ∀ k, k < num_parts → (0 ≤ (parts k).x ∧ (parts k).x ≤ size)
      ∧ (0 ≤ (parts k).y ∧ (parts k).y ≤ size))
    (hi : i < num_parts) :
    (((serial_optimized.force_pass c (serial_optimized.init_simulation c size) parts
          num_parts).2.parts i).ax,
      ((serial_optimized.force_pass c (serial_optimized.init_simulation c size) parts
          num_parts).2.parts i).ay)
      = all_pairs_reference c parts num_parts i := by
  have hsize' := hsize
  obtain ⟨h1, h2⟩ := serial_optimized.force_pass_eq_sum c size
    (serial_optimized.init_simulation c size) parts num_parts i hcut rfl rfl rfl hdom hi
  unfold all_pairs_reference
  simp only [serial_optimized.contribution_eq_pair_force]
  rw [h1, h2]

end binned_vs_all_pairs

/-! ## The fixed-capacity grid of serial_optimized_v2.cpp -/

namespace serial_optimized_v2

section grid

variable {α : Type} [LinearOrderedField α] [FloorRing α]

theorem fixed_reset_fold_geometry (L : List ℕ) (g : grid_t α) :
    (L.foldl (fun g (i : ℕ) =>
        { g with cells := Function.update g.cells (i : ℤ) { g.cells (i : ℤ) with size := 0 } })
      g).nx = g.nx
    ∧ (L.foldl (fun g (i : ℕ) =>
        { g with cells := Function.update g.cells (i : ℤ) { g.cells (i : ℤ) with size := 0 } })
      g).ny = g.ny
    ∧ (L.foldl (fun g (i : ℕ) =>
        { g with cells := Function.update g.cells (i : ℤ) { g.cells (i : ℤ) with size := 0 } })
      g).cell_size = g.cell_size := by
  induction L generalizing g with
  | nil => exact ⟨rfl, rfl, rfl⟩
  | cons a L ih =>
    simp only [List.foldl_cons]
    exact ih _

theorem fixed_reset_fold_cells (L : List ℕ) (g : grid_t α) (k : ℤ) :
    (L.foldl (fun g (i : ℕ) =>
        { g with cells := Function.update g.cells (i : ℤ) { g.cells (i : ℤ) with size := 0 } })
      g).cells k
      = if ∃ i ∈ L, (i : ℤ) = k then { g.cells k with size := 0 } else g.cells k := by
  induction L generalizing g with
  | nil => simp
  | cons a L ih =>
    simp only [List.foldl_cons]
    rw [ih]
    by_cases ha : (a : ℤ) = k
    · subst ha
      by_cases hL : ∃ i ∈ L, (i : ℤ) = (a : ℤ)
      · simp [hL]
      · simp [hL]
    · have hk : k ≠ (a : ℤ) := fun e => ha e.symm
      by_cases hL : ∃ i ∈ L, (i : ℤ) = k
      · have : ∃ i ∈ a :: L, (i : ℤ) = k := by
          obtain ⟨i, hi, e⟩ := hL
          exact ⟨i, List.mem_cons_of_mem _ hi, e⟩
        simp only [if_pos hL, if_pos this, Function.update_noteq hk]
      · have : ¬ ∃ i ∈ a :: L, (i : ℤ) = k := by
          rintro ⟨i, hi, e⟩
          rcases List.mem_cons.mp hi with h | h
          · subst h; exact ha e
          · exact hL ⟨i, h, e⟩
        simp only [if_neg hL, if_neg this, Function.update_noteq hk]

theorem fixed_reset_cells_geometry (g : grid_t α) :
    (reset_cells g).nx = g.nx ∧ (reset_cells g).ny = g.ny
      ∧ (reset_cells g).cell_size = g.cell_size :=
  fixed_reset_fold_geometry _ g

theorem fixed_reset_cells_cells (g : grid_t α) (k : ℤ) :
    (reset_cells g).cells k
      = if 0 ≤ k ∧ k < g.nx * g.ny then { g.cells k with size := 0 } else g.cells k := by
  unfold reset_cells
  rw [fixed_reset_fold_cells]
  simp only [serial_optimized.exists_mem_range_cast]

theorem fixed_add_to_cell_geometry (g : grid_t α) (i : ℕ) (p : particle_t α) :
    (add_to_cell g i p).nx = g.nx ∧ (add_to_cell g i p).ny = g.ny
      ∧ (add_to_cell g i p).cell_size = g.cell_size := by
  unfold add_to_cell
  simp only []
  split <;> exact ⟨rfl, rfl, rfl⟩

theorem fixed_cell_of_congr (g g' : grid_t α) (p : particle_t α) (hnx : g'.nx = g.nx)
    (hcs : g'.cell_size = g.cell_size) : cell_of g' p = cell_of g p := by
  simp only [cell_of, cell_index, hnx, hcs]

theorem fixed_add_to_cell_other (g : grid_t α) (i : ℕ) (p : particle_t α) (k : ℤ)
    (hk : k ≠ cell_of g p) : (add_to_cell g i p).cells k = g.cells k := by
  unfold add_to_cell
  simp only []
  split
  · exact Function.update_noteq hk _ _
  · rfl

theorem add_to_cell_full (g : grid_t α) (i : ℕ) (p : particle_t α)
    (h : ¬ (g.cells (cell_of g p)).size < MAX_PER_CELL) : add_to_cell g i p = g := by
  unfold add_to_cell
  simp only []
  exact if_neg h

theorem fixed_add_to_cell_live (g : grid_t α) (i : ℕ) (p : particle_t α)
    (h : (g.cells (cell_of g p)).size < MAX_PER_CELL) :
    live ((add_to_cell g i p).cells (cell_of g p)) = live (g.cells (cell_of g p)) ++ [i] := by
  have e : add_to_cell g i p = { g with cells := (Function.update g.cells (cell_of g p)
      (cell_t.mk (Function.update (g.cells (cell_of g p)).particles (g.cells (cell_of g p)).size i)
        ((g.cells (cell_of g p)).size + 1))) } := by
    unfold add_to_cell
    simp only []
    exact if_pos h
  rw [e]
  simp only [Function.update_same, live]
  rw [List.range_succ, List.map_append]
  simp only [List.map_cons, List.map_nil, Function.update_same]
  congr 1
  apply List.map_congr_left
  intro j hj
  rw [List.mem_range] at hj
  exact Function.update_noteq (by omega) _ _

theorem length_live (cell : cell_t) : (live cell).length = cell.size := by
  simp [live]

theorem fixed_populate_succ (g : grid_t α) (parts : ℕ → particle_t α) (n : ℕ) :
    populate g parts (n + 1) = add_to_cell (populate g parts n) n (parts n) := by
  unfold populate
  rw [List.range_succ, List.foldl_append]
  rfl

theorem fixed_populate_geometry (g : grid_t α) (parts : ℕ → particle_t α) (n : ℕ) :
    (populate g parts n).nx = g.nx ∧ (populate g parts n).ny = g.ny
      ∧ (populate g parts n).cell_size = g.cell_size := by
  induction n with
  | zero => exact ⟨rfl, rfl, rfl⟩
  | succ n ih =>
    rw [fixed_populate_succ]
    have := fixed_add_to_cell_geometry (populate g parts n) n (parts n)
    exact ⟨this.1.trans ih.1, this.2.1.trans ih.2.1, this.2.2.trans ih.2.2⟩

/-- After the population loop, the live prefix of a cell that started empty is
the first `MAX_PER_CELL` of the indices of the particles mapped to it, in
increasing order. -/
theorem fixed_populate_live (g : grid_t α) (parts : ℕ → particle_t α) (n : ℕ) (k : ℤ)
    (h : (g.cells k).size = 0) :
    live ((populate g parts n).cells k)
      = ((List.range n).filter (fun i => cell_of g (parts i) = k)).take MAX_PER_CELL := by
  induction n with
  | zero => simp [populate, live, h]
  | succ n ih =>
    have hgeo := fixed_populate_geometry g parts n
    have hc : cell_of (populate g parts n) (parts n) = cell_of g (parts n) :=
      fixed_cell_of_congr _ _ _ hgeo.1 hgeo.2.2
    rw [fixed_populate_succ, List.range_succ, List.filter_append]
    by_cases hk : cell_of g (parts n) = k
    · subst hk
      have hlen := congrArg List.length ih
      rw [length_live, List.length_take] at hlen
      have hf : List.filter (fun i => decide (cell_of g (parts i) = cell_of g (parts n))) [n]
          = [n] := by simp
      rw [hf]
      by_cases hsz : ((populate g parts n).cells (cell_of (populate g parts n) (parts n))).size
          < MAX_PER_CELL
      · have := fixed_add_to_cell_live (populate g parts n) n (parts n) hsz
        rw [hc] at this hsz
        rw [this, ih]
        have hlt : (List.filter (fun i => decide (cell_of g (parts i) = cell_of g (parts n)))
            (List.range n)).length < MAX_PER_CELL := by omega
        rw [List.take_of_length_le (by omega), List.take_of_length_le (by simp; omega)]
      · rw [add_to_cell_full _ _ _ hsz, ih]
        rw [hc] at hsz
        rw [List.take_append_of_le_length (by omega)]
    · have hk' : k ≠ cell_of (populate g parts n) (parts n) := by
        rw [hc]
        exact fun e => hk e.symm
      rw [fixed_add_to_cell_other _ _ _ _ hk', ih]
      simp [hk]

/-- The live prefix of an in-range cell after the reset and population loops. -/
theorem fixed_populated_live (g : grid_t α) (parts : ℕ → particle_t α) (n : ℕ) (k : ℤ)
    (hk : 0 ≤ k ∧ k < g.nx * g.ny) :
    live ((populate (reset_cells g) parts n).cells k)
      = ((List.range n).filter (fun i => cell_of g (parts i) = k)).take MAX_PER_CELL := by
  have hr : ((reset_cells g).cells k).size = 0 := by
    rw [fixed_reset_cells_cells, if_pos hk]
  have hgeo := fixed_reset_cells_geometry g
  rw [fixed_populate_live (reset_cells g) parts n k hr]
  have e : ∀ i, cell_of (reset_cells g) (parts i) = cell_of g (parts i) :=
    fun i => fixed_cell_of_congr _ _ _ hgeo.1 hgeo.2.2
  simp only [e]

end grid

end serial_optimized_v2

/-! ## The force loop of serial_optimized_v2.cpp -/

namespace serial_optimized_v2

section forces

variable {α : Type} [LinearOrderedField α] [FloorRing α]

theorem apply_forces_eq (c : Consts α) (g : grid_t α) (nbrs : ℤ → List ℤ) (s : traced α) :
    apply_forces c g nbrs s
      = (call_pairs g nbrs).foldl (fun s pq => call_apply_force c s pq.1 pq.2) s := by
  unfold apply_forces call_pairs
  rw [foldl_flatMap_eq]
  congr 1
  funext s i
  simp only []
  rw [foldl_flatMap_eq]
  congr 1
  funext s j
  split_ifs
  · rw [foldl_flatMap_eq]
    congr 1
    funext s idx1
    rw [List.foldl_map]
  · rw [foldl_flatMap_eq]
    congr 1
    funext s idx1
    rw [List.foldl_map]

/-- The effect of one symmetric call on every particle `k`. -/
theorem sym_call_spec (c : Consts α) (parts : ℕ → particle_t α) (p q k : ℕ) :
    (apply_force c parts p q k).x = (parts k).x
    ∧ (apply_force c parts p q k).y = (parts k).y
    ∧ (apply_force c parts p q k).vx = (parts k).vx
    ∧ (apply_force c parts p q k).vy = (parts k).vy
    ∧ (apply_force c parts p q k).ax
        = (parts k).ax + ((if p = k then (pair_force c (parts p) (parts q)).1 else 0)
            - (if q = k then (pair_force c (parts p) (parts q)).1 else 0))
    ∧ (apply_force c parts p q k).ay
        = (parts k).ay + ((if p = k then (pair_force c (parts p) (parts q)).2 else 0)
            - (if q = k then (pair_force c (parts p) (parts q)).2 else 0)) := by
  rw [sym_apply_force_eq]
  by_cases hq : k = q
  · subst hq
    by_cases hp : k = p
    · subst hp
      simp
    · have hp' : p ≠ k := fun e => hp e.symm
      simp [Function.update_noteq hp, hp']
      constructor <;> ring
  · have hq' : q ≠ k := fun e => hq e.symm
    rw [Function.update_noteq hq]
    by_cases hp : k = p
    · subst hp
      simp [hq']
    · have hp' : p ≠ k := fun e => hp e.symm
      simp [Function.update_noteq hp, hp', hq']

/-- The effect of a run of symmetric calls: positions and velocities are
kept, and the acceleration of `k` gains the pair force of every call whose
first argument is `k` and loses that of every call whose second argument is
`k`. -/
theorem sym_fold (c : Consts α) (T : List (ℕ × ℕ)) (s : traced α) :
    (T.foldl (fun s pq => call_apply_force c s pq.1 pq.2) s).calls = s.calls ++ T
    ∧ ∀ k,
      ((T.foldl (fun s pq => call_apply_force c s pq.1 pq.2) s).parts k).x = (s.parts k).x
      ∧ ((T.foldl (fun s pq => call_apply_force c s pq.1 pq.2) s).parts k).y = (s.parts k).y
      ∧ ((T.foldl (fun s pq => call_apply_force c s pq.1 pq.2) s).parts k).vx = (s.parts k).vx
      ∧ ((T.foldl (fun s pq => call_apply_force c s pq.1 pq.2) s).parts k).vy = (s.parts k).vy
      ∧ ((T.foldl (fun s pq => call_apply_force c s pq.1 pq.2) s).parts k).ax
          = (s.parts k).ax + (T.map fun pq =>
              (if pq.1 = k then (pair_force c (s.parts pq.1) (s.parts pq.2)).1 else 0)
                - (if pq.2 = k then (pair_force c (s.parts pq.1) (s.parts pq.2)).1 else 0)).sum
      ∧ ((T.foldl (fun s pq => call_apply_force c s pq.1 pq.2) s).parts k).ay
          = (s.parts k).ay + (T.map fun pq =>
              (if pq.1 = k then (pair_force c (s.parts pq.1) (s.parts pq.2)).2 else 0)
                - (if pq.2 = k then (pair_force c (s.parts pq.1) (s.parts pq.2)).2 else 0)).sum := by
  induction T generalizing s with
  | nil => simp
  | cons a T ih =>
    simp only [List.foldl_cons]
    obtain ⟨h1, h2⟩ := ih (call_apply_force c s a.1 a.2)
    have hs : ∀ k, _ := fun k => sym_call_spec c s.parts a.1 a.2 k
    have hpf : ∀ u v, pair_force c ((call_apply_force c s a.1 a.2).parts u)
        ((call_apply_force c s a.1 a.2).parts v) = pair_force c (s.parts u) (s.parts v) :=
      fun u v => pair_force_congr c _ _ _ _ (hs u).1 (hs u).2.1 (hs v).1 (hs v).2.1
    refine ⟨?_, ?_⟩
    · rw [h1]; simp [call_apply_force]
    · intro k
      obtain ⟨k1, k2, k3, k4, k5, k6⟩ := h2 k
      obtain ⟨s1, s2, s3, s4, s5, s6⟩ := hs k
      refine ⟨k1.trans s1, k2.trans s2, k3.trans s3, k4.trans s4, ?_, ?_⟩
      · rw [k5]
        simp only [hpf, List.map_cons, List.sum_cons]
        have : ((call_apply_force c s a.1 a.2).parts k).ax = (apply_force c s.parts a.1 a.2 k).ax :=
          rfl
        rw [this, s5]
        ring
      · rw [k6]
        simp only [hpf, List.map_cons, List.sum_cons]
        have : ((call_apply_force c s a.1 a.2).parts k).ay = (apply_force c s.parts a.1 a.2 k).ay :=
          rfl
        rw [this, s6]
        ring

theorem reset_accelerations_spec (parts : ℕ → particle_t α) (n k : ℕ) :
    reset_accelerations parts n k
      = if k < n then { parts k with ax := 0, ay := 0 } else parts k := by
  unfold reset_accelerations
  induction n with
  | zero => simp
  | succ n ih =>
    rw [List.range_succ, List.foldl_append]
    simp only [List.foldl_cons, List.foldl_nil]
    by_cases hk : k = n
    · subst hk
      simp only [Function.update_same, Nat.lt_succ_self, if_true]
      rw [ih, if_neg (Nat.lt_irrefl _)]
    · rw [Function.update_noteq hk, ih]
      by_cases h : k < n
      · rw [if_pos h, if_pos (by omega)]
      · rw [if_neg h, if_neg (by omega)]

/-- Facts about the live prefix of an in-range cell after the reset and
population loops: it is listed in increasing order, holds only particles
mapped to the cell, and holds all of them when the cell does not overflow. -/
theorem populated_cell_facts (g : grid_t α) (parts : ℕ → particle_t α) (n : ℕ) (k : ℤ)
    (hk : 0 ≤ k ∧ k < g.nx * g.ny) :
    (live ((populate (reset_cells g) parts n).cells k)).Pairwise (fun a b => a < b)
    ∧ (∀ p ∈ live ((populate (reset_cells g) parts n).cells k),
        p < n ∧ cell_of g (parts p) = k)
    ∧ (((List.range n).filter (fun i => cell_of g (parts i) = k)).length ≤ MAX_PER_CELL →
        ∀ p, p < n → cell_of g (parts p) = k →
          p ∈ live ((populate (reset_cells g) parts n).cells k)) := by
  rw [fixed_populated_live g parts n k hk]
  refine ⟨?_, ?_, ?_⟩
  · exact ((List.pairwise_lt_range n).filter _).sublist (List.take_sublist _ _)
  · intro p hp
    have := List.mem_of_mem_take hp
    rw [List.mem_filter, List.mem_range] at this
    exact ⟨this.1, of_decide_eq_true this.2⟩
  · intro hno p hp hc
    rw [List.take_of_length_le hno, List.mem_filter, List.mem_range]
    exact ⟨hp, decide_eq_true hc⟩

/-- Membership in the call list of "Apply forces" on a populated grid with the
precomputed neighbour lists. -/
theorem mem_call_pairs (g : grid_t α) (parts : ℕ → particle_t α) (n : ℕ) (hnx : 1 ≤ g.nx)
    (p q : ℕ) :
    (p, q) ∈ call_pairs (populate (reset_cells g) parts n) (precompute_neighbors g.nx g.ny)
      ↔ ∃ i j : ℤ, (0 ≤ i ∧ i < g.nx * g.ny) ∧ j ∈ precompute_neighbors g.nx g.ny i
          ∧ p ∈ live ((populate (reset_cells g) parts n).cells i)
          ∧ q ∈ live ((populate (reset_cells g) parts n).cells j)
          ∧ (j = i → p < q) := by
  have hr := fixed_reset_cells_geometry g
  have hp := fixed_populate_geometry (reset_cells g) parts n
  unfold call_pairs
  rw [hp.1, hp.2.1, hr.1, hr.2.1]
  simp only [List.mem_flatMap, List.mem_range]
  constructor
  · rintro ⟨i, hi, j, hj, hpq⟩
    have hir : 0 ≤ (i : ℤ) ∧ (i : ℤ) < g.nx * g.ny := by omega
    have hjr := ((mem_precompute_neighbors hnx hir.1 hir.2).mp hj).1
    refine ⟨(i : ℤ), j, hir, hj, ?_⟩
    split_ifs at hpq with hji
    · subst hji
      have := ((same_cell_pairs _ _ (populated_cell_facts g parts n _ hir).1).2 p q).mp hpq
      exact ⟨this.1, this.2.1, fun _ => this.2.2⟩
    · have := ((cross_cell_pairs _ _ _ _ (populated_cell_facts g parts n _ hir).1
        (populated_cell_facts g parts n _ hjr).1).2 p q).mp hpq
      exact ⟨this.1, this.2, fun e => absurd e hji⟩
  · rintro ⟨i, j, hir, hj, hpi, hqj, hlt⟩
    have hjr := ((mem_precompute_neighbors hnx hir.1 hir.2).mp hj).1
    have hcast : ((i.toNat : ℕ) : ℤ) = i := Int.toNat_of_nonneg hir.1
    refine ⟨i.toNat, by omega, j, by rw [hcast]; exact hj, ?_⟩
    rw [hcast]
    split_ifs with hji
    · subst hji
      exact ((same_cell_pairs _ _ (populated_cell_facts g parts n _ hir).1).2 p q).mpr
        ⟨hpi, hqj, hlt rfl⟩
    · exact ((cross_cell_pairs _ _ _ _ (populated_cell_facts g parts n _ hir).1
        (populated_cell_facts g parts n _ hjr).1).2 p q).mpr ⟨hpi, hqj⟩

/-- The calls made for one pair of cells `(i, j)`: no pair twice, and every
pair is made of a member of cell `i` and a member of cell `j`. -/
theorem cell_pair_calls (g : grid_t α) (parts : ℕ → particle_t α) (n : ℕ) (i j : ℤ)
    (hi : 0 ≤ i ∧ i < g.nx * g.ny) (hj : 0 ≤ j ∧ j < g.nx * g.ny) :
    (if j = i then
        (List.range ((populate (reset_cells g) parts n).cells i).size).flatMap fun idx1 =>
          (List.Ico (idx1 + 1) ((populate (reset_cells g) parts n).cells i).size).map fun idx2 =>
            (((populate (reset_cells g) parts n).cells i).particles idx1,
              ((populate (reset_cells g) parts n).cells i).particles idx2)
      else
        (List.range ((populate (reset_cells g) parts n).cells i).size).flatMap fun idx1 =>
          (List.range ((populate (reset_cells g) parts n).cells j).size).map fun idx2 =>
            (((populate (reset_cells g) parts n).cells i).particles idx1,
              ((populate (reset_cells g) parts n).cells j).particles idx2)).Nodup
    ∧ ∀ pq : ℕ × ℕ, pq ∈ (if j = i then
        (List.range ((populate (reset_cells g) parts n).cells i).size).flatMap fun idx1 =>
          (List.Ico (idx1 + 1) ((populate (reset_cells g) parts n).cells i).size).map fun idx2 =>
            (((populate (reset_cells g) parts n).cells i).particles idx1,
              ((populate (reset_cells g) parts n).cells i).particles idx2)
      else
        (List.range ((populate (reset_cells g) parts n).cells i).size).flatMap fun idx1 =>
          (List.range ((populate (reset_cells g) parts n).cells j).size).map fun idx2 =>
            (((populate (reset_cells g) parts n).cells i).particles idx1,
              ((populate (reset_cells g) parts n).cells j).particles idx2)) →
      pq.1 ∈ live ((populate (reset_cells g) parts n).cells i)
        ∧ pq.2 ∈ live ((populate (reset_cells g) parts n).cells j) := by
  have fi := (populated_cell_facts g parts n i hi).1
  have fj := (populated_cell_facts g parts n j hj).1
  split_ifs with hji
  · subst hji
    refine ⟨(same_cell_pairs _ _ fi).1, ?_⟩
    rintro ⟨p, q⟩ h
    have := ((same_cell_pairs _ _ fi).2 p q).mp h
    exact ⟨this.1, this.2.1⟩
  · refine ⟨(cross_cell_pairs _ _ _ _ fi fj).1, ?_⟩
    rintro ⟨p, q⟩ h
    exact ((cross_cell_pairs _ _ _ _ fi fj).2 p q).mp h

/-- On a populated grid "Apply forces" never makes the same call twice. -/
theorem nodup_call_pairs (g : grid_t α) (parts : ℕ → particle_t α) (n : ℕ) (hnx : 1 ≤ g.nx) :
    (call_pairs (populate (reset_cells g) parts n) (precompute_neighbors g.nx g.ny)).Nodup := by
  have hr := fixed_reset_cells_geometry g
  have hp := fixed_populate_geometry (reset_cells g) parts n
  unfold call_pairs
  rw [hp.1, hp.2.1, hr.1, hr.2.1]
  apply nodup_flatMap_of_sep
  · exact List.nodup_range _
  · intro i hi
    rw [List.mem_range] at hi
    have hir : 0 ≤ (i : ℤ) ∧ (i : ℤ) < g.nx * g.ny := by omega
    apply nodup_flatMap_of_sep
    · rw [precompute_neighbors_in_range hnx hir.1 hir.2]
      exact nodup_neighbor_block _ _ _ _
    · intro j hj
      have hjr := ((mem_precompute_neighbors hnx hir.1 hir.2).mp hj).1
      exact (cell_pair_calls g parts n _ j hir hjr).1
    · intro j hj j' hj' pq h1 h2
      have hjr := ((mem_precompute_neighbors hnx hir.1 hir.2).mp hj).1
      have hjr' := ((mem_precompute_neighbors hnx hir.1 hir.2).mp hj').1
      have m1 := ((cell_pair_calls g parts n _ j hir hjr).2 pq h1).2
      have m2 := ((cell_pair_calls g parts n _ j' hir hjr').2 pq h2).2
      have c1 := ((populated_cell_facts g parts n j hjr).2.1 _ m1).2
      have c2 := ((populated_cell_facts g parts n j' hjr').2.1 _ m2).2
      exact c1.symm.trans c2
  · intro i hi i' hi' pq h1 h2
    rw [List.mem_range] at hi hi'
    have hir : 0 ≤ (i : ℤ) ∧ (i : ℤ) < g.nx * g.ny := by omega
    have hir' : 0 ≤ (i' : ℤ) ∧ (i' : ℤ) < g.nx * g.ny := by omega
    rw [List.mem_flatMap] at h1 h2
    obtain ⟨j, hj, h1⟩ := h1
    obtain ⟨j', hj', h2⟩ := h2
    have hjr := ((mem_precompute_neighbors hnx hir.1 hir.2).mp hj).1
    have hjr' := ((mem_precompute_neighbors hnx hir'.1 hir'.2).mp hj').1
    have m1 := ((cell_pair_calls g parts n _ j hir hjr).2 pq h1).1
    have m2 := ((cell_pair_calls g parts n _ j' hir' hjr').2 pq h2).1
    have c1 := ((populated_cell_facts g parts n _ hir).2.1 _ m1).2
    have c2 := ((populated_cell_facts g parts n _ hir').2.1 _ m2).2
    have := c1.symm.trans c2
    omega

/-- Coordinates of a row-major index built from in-range coordinates. -/
theorem coords_of_linear_index {nx ny cx cy : ℤ} (hx : 0 ≤ cx ∧ cx < nx) (hy : 0 ≤ cy ∧ cy < ny) :
    (cy * nx + cx) % nx = cx ∧ (cy * nx + cx) / nx = cy := by
  have hb := linear_index_bounds hx.1 hx.2 hy.1 hy.2
  obtain ⟨⟨a0, a1⟩, _, hdec⟩ := cell_coords_of_index (by omega : 1 ≤ nx) hb.1 hb.2
  have := linear_index_inj a0 a1 hx.1 hx.2 hdec.symm
  exact ⟨this.1, this.2⟩

/-- The cell of a particle inside the domain is a cell of the grid, for a grid
with the geometry set by `init_simulation` of serial_optimized_v2.cpp. -/
theorem fixed_cell_of_in_range (c : Consts α) (size : α) (alloc : ℤ → cell_t) (g : grid_t α)
    (p : particle_t α) (hcut : 0 < c.cutoff)
    (hcs : g.cell_size = (init_simulation c size alloc).1.cell_size)
    (hnx : g.nx = (init_simulation c size alloc).1.nx)
    (hny : g.ny = (init_simulation c size alloc).1.ny)
    (hx : 0 ≤ p.x ∧ p.x ≤ size) (hy : 0 ≤ p.y ∧ p.y ≤ size) :
    (0 ≤ to_int (p.x / g.cell_size) ∧ to_int (p.x / g.cell_size) < g.nx)
      ∧ (0 ≤ to_int (p.y / g.cell_size) ∧ to_int (p.y / g.cell_size) < g.ny)
      ∧ (0 ≤ cell_of g p ∧ cell_of g p < g.nx * g.ny)
      ∧ cell_of g p % g.nx = to_int (p.x / g.cell_size)
      ∧ cell_of g p / g.nx = to_int (p.y / g.cell_size) := by
  have hcs' : g.cell_size = c.cutoff * (5 / 2) := hcs
  have hnx' : g.nx = to_int (size / (c.cutoff * (5 / 2))) + 1 := hnx
  have hny' : g.ny = to_int (size / (c.cutoff * (5 / 2))) + 1 := hny
  have hpos : 0 < c.cutoff * (5 / 2) := by linarith
  have bx : 0 ≤ to_int (p.x / g.cell_size) ∧ to_int (p.x / g.cell_size) < g.nx := by
    rw [hcs', hnx']
    refine ⟨to_int_div_nonneg hx.1 hpos, ?_⟩
    have := to_int_div_mono hx.1 hx.2 hpos
    omega
  have by' : 0 ≤ to_int (p.y / g.cell_size) ∧ to_int (p.y / g.cell_size) < g.ny := by
    rw [hcs', hny']
    refine ⟨to_int_div_nonneg hy.1 hpos, ?_⟩
    have := to_int_div_mono hy.1 hy.2 hpos
    omega
  have hb := linear_index_bounds bx.1 bx.2 by'.1 by'.2
  have hc := coords_of_linear_index bx by'
  exact ⟨bx, by', hb, hc.1, hc.2⟩

/-- The calls of "Apply forces" in terms of the particles, when every
particle lies in the domain and no cell overflows: `apply_force(p, q)` is
called exactly when the cells of `p` and `q` are equal or 8-adjacent and
either the cell of `p` has the smaller index, or the cells are equal and
`p < q`. -/
theorem mem_call_pairs_iff (c : Consts α) (size : α) (alloc : ℤ → cell_t) (g : grid_t α)
    (parts : ℕ → particle_t α) (n : ℕ) (hsize : 0 ≤ size) (hcut : 0 < c.cutoff)
    (hcs : g.cell_size = (init_simulation c size alloc).1.cell_size)
    (hnx : g.nx = (init_simulation c size alloc).1.nx)
    (hny : g.ny = (init_simulation c size alloc).1.ny)
    (hdom : ∀ k, k < n → (0 ≤ (parts k).x ∧ (parts k).x ≤ size)
      ∧ (0 ≤ (parts k).y ∧ (parts k).y ≤ size))
    (hcap : ∀ k : ℤ, ((List.range n).filter (fun i => cell_of g (parts i) = k)).length
      ≤ MAX_PER_CELL)
    (p q : ℕ) :
    (p, q) ∈ call_pairs (populate (reset_cells g) parts n) (precompute_neighbors g.nx g.ny)
      ↔ p < n ∧ q < n
        ∧ |to_int ((parts q).x / g.cell_size) - to_int ((parts p).x / g.cell_size)| ≤ 1
        ∧ |to_int ((parts q).y / g.cell_size) - to_int ((parts p).y / g.cell_size)| ≤ 1
        ∧ cell_of g (parts p) ≤ cell_of g (parts q)
        ∧ (cell_of g (parts q) = cell_of g (parts p) → p < q) := by
  have hin : ∀ k, k < n → _ := fun k hk =>
    fixed_cell_of_in_range c size alloc g (parts k) hcut hcs hnx hny (hdom k hk).1 (hdom k hk).2
  have hnx1 : 1 ≤ g.nx := by
    have hnx' : g.nx = to_int (size / (c.cutoff * (5 / 2))) + 1 := hnx
    have := to_int_div_nonneg hsize (by linarith : 0 < c.cutoff * (5 / 2))
    omega
  rw [mem_call_pairs g parts n hnx1]
  constructor
  · rintro ⟨i, j, hi, hj, hpi, hqj, hlt⟩
    have hjm := (mem_precompute_neighbors hnx1 hi.1 hi.2).mp hj
    obtain ⟨hpn, hpc⟩ := (populated_cell_facts g parts n i hi).2.1 p hpi
    obtain ⟨hqn, hqc⟩ := (populated_cell_facts g parts n j hjm.1).2.1 q hqj
    subst hpc hqc
    obtain ⟨_, _, _, px, py⟩ := hin p hpn
    obtain ⟨_, _, _, qx, qy⟩ := hin q hqn
    rw [px, py, qx, qy] at hjm
    exact ⟨hpn, hqn, hjm.2.2.1, hjm.2.2.2, hjm.2.1, hlt⟩
  · rintro ⟨hpn, hqn, hx, hy, hle, hlt⟩
    obtain ⟨_, _, pr, px, py⟩ := hin p hpn
    obtain ⟨_, _, qr, qx, qy⟩ := hin q hqn
    refine ⟨cell_of g (parts p), cell_of g (parts q), pr, ?_, ?_, ?_, hlt⟩
    · rw [mem_precompute_neighbors hnx1 pr.1 pr.2, px, py, qx, qy]
      exact ⟨qr, hle, hx, hy⟩
    · exact (populated_cell_facts g parts n _ pr).2.2 (hcap _) p hpn rfl
    · exact (populated_cell_facts g parts n _ qr).2.2 (hcap _) q hqn rfl

theorem force_pass_calls (c : Consts α) (g : grid_t α) (nbrs : ℤ → List ℤ)
    (parts : ℕ → particle_t α) (n : ℕ) :
    (force_pass c g nbrs parts n).2.calls
      = call_pairs (populate (reset_cells g) parts n) nbrs := by
  unfold force_pass
  simp only []
  rw [apply_forces_eq, (sym_fold c _ _).1]
  simp

/-- The accelerations after the force pass of serial_optimized_v2.cpp, in
terms of the call list. -/
theorem force_pass_acc (c : Consts α) (g : grid_t α) (nbrs : ℤ → List ℤ)
    (parts : ℕ → particle_t α) (n k : ℕ) :
    ((force_pass c g nbrs parts n).2.parts k).ax
        = (reset_accelerations parts n k).ax
          + ((call_pairs (populate (reset_cells g) parts n) nbrs).map fun pq =>
              (if pq.1 = k then (pair_force c (parts pq.1) (parts pq.2)).1 else 0)
                - (if pq.2 = k then (pair_force c (parts pq.1) (parts pq.2)).1 else 0)).sum
    ∧ ((force_pass c g nbrs parts n).2.parts k).ay
        = (reset_accelerations parts n k).ay
          + ((call_pairs (populate (reset_cells g) parts n) nbrs).map fun pq =>
              (if pq.1 = k then (pair_force c (parts pq.1) (parts pq.2)).2 else 0)
                - (if pq.2 = k then (pair_force c (parts pq.1) (parts pq.2)).2 else 0)).sum := by
  unfold force_pass
  simp only []
  rw [apply_forces_eq]
  obtain ⟨_, _, _, _, h5, h6⟩ := (sym_fold c (call_pairs (populate (reset_cells g) parts n) nbrs)
    ⟨reset_accelerations parts n, []⟩).2 k
  have hpf : ∀ u v, pair_force c (reset_accelerations parts n u) (reset_accelerations parts n v)
      = pair_force c (parts u) (parts v) := by
    intro u v
    apply pair_force_congr <;> (rw [reset_accelerations_spec]; split <;> rfl)
  rw [h5, h6]
  simp only [hpf, and_self]

/-- Under the geometry of `init_simulation`, with every particle in the domain
and no cell overflowing, two distinct particles within the cutoff are passed
to `apply_force` in one of the two orders. -/
theorem interacting_pair_called (c : Consts α) (size : α) (alloc : ℤ → cell_t) (g : grid_t α)
    (parts : ℕ → particle_t α) (n : ℕ) (hsize : 0 ≤ size) (hcut : 0 < c.cutoff)
    (hcs : g.cell_size = (init_simulation c size alloc).1.cell_size)
    (hnx : g.nx = (init_simulation c size alloc).1.nx)
    (hny : g.ny = (init_simulation c size alloc).1.ny)
    (hdom : ∀ k, k < n → (0 ≤ (parts k).x ∧ (parts k).x ≤ size)
      ∧ (0 ≤ (parts k).y ∧ (parts k).y ≤ size))
    (hcap : ∀ k : ℤ, ((List.range n).filter (fun i => cell_of g (parts i) = k)).length
      ≤ MAX_PER_CELL)
    (p q : ℕ) (hp : p < n) (hq : q < n) (hne : p ≠ q)
    (hd : ¬ ((parts q).x - (parts p).x) * ((parts q).x - (parts p).x)
      + ((parts q).y - (parts p).y) * ((parts q).y - (parts p).y) > c.cutoff * c.cutoff) :
    (p, q) ∈ call_pairs (populate (reset_cells g) parts n) (precompute_neighbors g.nx g.ny)
      ∨ (q, p) ∈ call_pairs (populate (reset_cells g) parts n)
          (precompute_neighbors g.nx g.ny) := by
  have hmem := mem_call_pairs_iff c size alloc g parts n hsize hcut hcs hnx hny hdom hcap
  have hcs' : g.cell_size = c.cutoff * (5 / 2) := hcs
  have hd' : ((parts q).x - (parts p).x) ^ 2 + ((parts q).y - (parts p).y) ^ 2
      ≤ c.cutoff ^ 2 := by
    simpa only [sq, not_lt, gt_iff_lt] using hd
  obtain ⟨⟨a1, a2⟩, ⟨b1, b2⟩⟩ := sq_sum_le_split hcut hd'
  have hpos : 0 < g.cell_size := by rw [hcs']; linarith
  have hle : c.cutoff ≤ g.cell_size := by rw [hcs']; linarith
  have hx := to_int_div_close (hdom q hq).1.1 (hdom p hp).1.1 hpos hle (by linarith) (by linarith)
  have hy := to_int_div_close (hdom q hq).2.1 (hdom p hp).2.1 hpos hle (by linarith) (by linarith)
  have hx' := hx
  have hy' := hy
  rw [abs_sub_comm] at hx' hy'
  rcases lt_trichotomy (cell_of g (parts p)) (cell_of g (parts q)) with h | h | h
  · exact Or.inl ((hmem p q).mpr ⟨hp, hq, hx, hy, h.le, fun e => by omega⟩)
  · rcases lt_or_gt_of_ne hne with hlt | hgt
    · exact Or.inl ((hmem p q).mpr ⟨hp, hq, hx, hy, h.le, fun _ => hlt⟩)
    · exact Or.inr ((hmem q p).mpr ⟨hq, hp, hx', hy', h.ge, fun _ => hgt⟩)
  · exact Or.inr ((hmem q p).mpr ⟨hq, hp, hx', hy', h.le, fun e => by omega⟩)

/-- The force pass of serial_optimized_v2.cpp gives each particle the all-pairs
sum of pair forces, when every particle lies in the domain and no cell
overflows. -/
theorem fixed_force_pass_eq_sum (c : Consts α) (size : α) (alloc : ℤ → cell_t) (g : grid_t α)
    (parts : ℕ → particle_t α) (n i : ℕ) (hsize : 0 ≤ size) (hcut : 0 < c.cutoff)
    (hcs : g.cell_size = (init_simulation c size alloc).1.cell_size)
    (hnx : g.nx = (init_simulation c size alloc).1.nx)
    (hny : g.ny = (init_simulation c size alloc).1.ny)
    (hdom : ∀ k, k < n → (0 ≤ (parts k).x ∧ (parts k).x ≤ size)
      ∧ (0 ≤ (parts k).y ∧ (parts k).y ≤ size))
    (hcap : ∀ k : ℤ, ((List.range n).filter (fun i => cell_of g (parts i) = k)).length
      ≤ MAX_PER_CELL)
    (hi : i < n) :
    ((force_pass c g (precompute_neighbors g.nx g.ny) parts n).2.parts i).ax
        = ∑ j in Finset.range n, (pair_force c (parts i) (parts j)).1
      ∧ ((force_pass c g (precompute_neighbors g.nx g.ny) parts n).2.parts i).ay
        = ∑ j in Finset.range n, (pair_force c (parts i) (parts j)).2 := by
  have hmem := mem_call_pairs_iff c size alloc g parts n hsize hcut hcs hnx hny hdom hcap
  have hnx1 : 1 ≤ g.nx := by
    have hnx' : g.nx = to_int (size / (c.cutoff * (5 / 2))) + 1 := hnx
    have := to_int_div_nonneg hsize (by linarith : 0 < c.cutoff * (5 / 2))
    omega
  have hnd := nodup_call_pairs g parts n hnx1
  obtain ⟨hax, hay⟩ := force_pass_acc c g (precompute_neighbors g.nx g.ny) parts n i
  have hreset : (reset_accelerations parts n i).ax = 0 ∧ (reset_accelerations parts n i).ay = 0 := by
    rw [reset_accelerations_spec, if_pos hi]
    exact ⟨rfl, rfl⟩
  have h1 : ∀ j, (i, j) ∈ call_pairs (populate (reset_cells g) parts n)
      (precompute_neighbors g.nx g.ny) → j < n := fun j h => ((hmem i j).mp h).2.1
  have h2 : ∀ j, (j, i) ∈ call_pairs (populate (reset_cells g) parts n)
      (precompute_neighbors g.nx g.ny) → j < n := fun j h => ((hmem j i).mp h).1
  have h3 : ∀ j, (i, j) ∈ call_pairs (populate (reset_cells g) parts n)
      (precompute_neighbors g.nx g.ny) → (j, i) ∈ call_pairs (populate (reset_cells g) parts n)
      (precompute_neighbors g.nx g.ny) → False := by
    intro j ha hb
    have a := (hmem i j).mp ha
    have b := (hmem j i).mp hb
    have e : cell_of g (parts j) = cell_of g (parts i) := le_antisymm b.2.2.2.2.1 a.2.2.2.2.1
    have := a.2.2.2.2.2 e
    have := b.2.2.2.2.2 e.symm
    omega
  have h4 : ∀ j, j < n → (i, j) ∉ call_pairs (populate (reset_cells g) parts n)
      (precompute_neighbors g.nx g.ny) → (j, i) ∉ call_pairs (populate (reset_cells g) parts n)
      (precompute_neighbors g.nx g.ny) → pair_force c (parts i) (parts j) = (0, 0) := by
    intro j hj ha hb
    by_cases hij : i = j
    · subst hij
      exact pair_force_self c _ _ rfl rfl
    · by_cases hd : ((parts j).x - (parts i).x) * ((parts j).x - (parts i).x)
          + ((parts j).y - (parts i).y) * ((parts j).y - (parts i).y) > c.cutoff * c.cutoff
      · exact pair_force_of_gt c _ _ hd
      · rcases interacting_pair_called c size alloc g parts n hsize hcut hcs hnx hny hdom hcap
          i j hi hj hij hd with h | h
        · exact absurd h ha
        · exact absurd h hb
  constructor
  · rw [hax, hreset.1, zero_add]
    rw [← sum_over_pairs _ hnd i n (fun j => (pair_force c (parts i) (parts j)).1) h1 h2 h3
      (fun j hj ha hb => by
        show (pair_force c (parts i) (parts j)).1 = 0
        rw [h4 j hj ha hb])]
    congr 1
    apply List.map_congr_left
    rintro ⟨p, q⟩ _
    by_cases hp : p = i
    · by_cases hq : q = i
      · simp [hp, hq, pair_force_self c (parts i) (parts i) rfl rfl]
      · simp [hp, hq]
    · by_cases hq : q = i
      · simp [hp, hq, pair_force_swap c (parts p) (parts i)]
      · simp [hp, hq]
  · rw [hay, hreset.2, zero_add]
    rw [← sum_over_pairs _ hnd i n (fun j => (pair_force c (parts i) (parts j)).2) h1 h2 h3
      (fun j hj ha hb => by
        show (pair_force c (parts i) (parts j)).2 = 0
        rw [h4 j hj ha hb])]
    congr 1
    apply List.map_congr_left
    rintro ⟨p, q⟩ _
    by_cases hp : p = i
    · by_cases hq : q = i
      · simp [hp, hq, pair_force_self c (parts i) (parts i) rfl rfl]
      · simp [hp, hq]
    · by_cases hq : q = i
      · simp [hp, hq, pair_force_swap c (parts p) (parts i)]
      · simp [hp, hq]

/-- A particle that occurs in no call keeps the acceleration set by the
reset loop. -/
theorem unlisted_particle_keeps_reset (c : Consts α) (g : grid_t α) (nbrs : ℤ → List ℤ)
    (parts : ℕ → particle_t α) (n k : ℕ)
    (h : ∀ pq ∈ call_pairs (populate (reset_cells g) parts n) nbrs, pq.1 ≠ k ∧ pq.2 ≠ k) :
    ((force_pass c g nbrs parts n).2.parts k).ax = (reset_accelerations parts n k).ax
      ∧ ((force_pass c g nbrs parts n).2.parts k).ay = (reset_accelerations parts n k).ay := by
  obtain ⟨hax, hay⟩ := force_pass_acc c g nbrs parts n k
  have z1 : ((call_pairs (populate (reset_cells g) parts n) nbrs).map fun pq =>
      (if pq.1 = k then (pair_force c (parts pq.1) (parts pq.2)).1 else 0)
        - (if pq.2 = k then (pair_force c (parts pq.1) (parts pq.2)).1 else 0)).sum = 0 := by
    apply List.sum_eq_zero
    intro x hx
    rw [List.mem_map] at hx
    obtain ⟨pq, hpq, rfl⟩ := hx
    rw [if_neg (h pq hpq).1, if_neg (h pq hpq).2, sub_zero]
  have z2 : ((call_pairs (populate (reset_cells g) parts n) nbrs).map fun pq =>
      (if pq.1 = k then (pair_force c (parts pq.1) (parts pq.2)).2 else 0)
        - (if pq.2 = k then (pair_force c (parts pq.1) (parts pq.2)).2 else 0)).sum = 0 := by
    apply List.sum_eq_zero
    intro x hx
    rw [List.mem_map] at hx
    obtain ⟨pq, hpq, rfl⟩ := hx
    rw [if_neg (h pq hpq).1, if_neg (h pq hpq).2, sub_zero]
  rw [hax, hay, z1, z2, add_zero, add_zero]
  exact ⟨rfl, rfl⟩

/-- Both arguments of every call are among the first `MAX_PER_CELL` particles
mapped to some cell of the grid. -/
theorem call_pairs_members (g : grid_t α) (parts : ℕ → particle_t α) (n : ℕ) (hnx : 1 ≤ g.nx)
    (pq : ℕ × ℕ)
    (h : pq ∈ call_pairs (populate (reset_cells g) parts n) (precompute_neighbors g.nx g.ny)) :
    (∃ i : ℤ, pq.1 ∈ ((List.range n).filter
        (fun k => cell_of g (parts k) = i)).take MAX_PER_CELL)
      ∧ ∃ j : ℤ, pq.2 ∈ ((List.range n).filter
        (fun k => cell_of g (parts k) = j)).take MAX_PER_CELL := by
  obtain ⟨p, q⟩ := pq
  obtain ⟨i, j, hi, hj, hp, hq, _⟩ := (mem_call_pairs g parts n hnx p q).mp h
  have hjr := ((mem_precompute_neighbors hnx hi.1 hi.2).mp hj).1
  rw [fixed_populated_live g parts n i hi] at hp
  rw [fixed_populated_live g parts n j hjr] at hq
  exact ⟨⟨i, hp⟩, ⟨j, hq⟩⟩

end forces

end serial_optimized_v2

section precomputed_traversal

variable {α : Type} [LinearOrderedField α] [FloorRing α]

/-- C3 (no missing and no double-counted interaction in the precomputed
traversal). For every particle list with positions in `[0, size]^2` such that
no cell receives more than `MAX_PER_CELL` particles, the force loop of
`simulate_one_step` of serial_optimized_v2.cpp calls `apply_force` exactly
once, in one of the two argument orders, on every unordered pair of distinct
particles at squared distance at most `cutoff^2`; it never calls it on a pair
`(p, p)`; and it calls it at most once on any unordered pair of distinct
particles. -/
theorem precomputed_traversal_each_pair_once (c : Consts α) (size : α)
    (alloc : ℤ → serial_optimized_v2.cell_t) (parts : ℕ → particle_t α) (num_parts : ℕ)
    (hsize : 0 < size) (hcut : 0 < c.cutoff)
    (hdom : ∀ k, k < num_parts → (0 ≤ (parts k).x ∧ (parts k).x ≤ size)
      ∧ (0 ≤ (parts k).y ∧ (parts k).y ≤ size))
    (hcap : ∀ cell : ℤ, (List.range num_parts).countP
        (fun i => serial_optimized_v2.cell_of (serial_optimized_v2.init_simulation c size alloc).1
          (parts i) = cell)
      ≤ serial_optimized_v2.MAX_PER_CELL) :
    ∀ T : List (ℕ × ℕ),
      T = (serial_optimized_v2.force_pass c (serial_optimized_v2.init_simulation c size alloc).1
            (serial_optimized_v2.init_simulation c size alloc).2 parts num_parts).2.calls →
      (∀ p q, p < num_parts → q < num_parts → p ≠ q →
          ((parts q).x - (parts p).x) ^ 2 + ((parts q).y - (parts p).y) ^ 2 ≤ c.cutoff ^ 2 →
          T.count (p, q) + T.count (q, p) = 1)
        ∧ (∀ p, T.count (p, p) = 0)
        ∧ ∀ p q, p ≠ q → T.count (p, q) + T.count (q, p) ≤ 1 := by
  intro T hT
  have hT' : T = serial_optimized_v2.call_pairs
      (serial_optimized_v2.populate
        (serial_optimized_v2.reset_cells (serial_optimized_v2.init_simulation c size alloc).1)
        parts num_parts)
      (precompute_neighbors (serial_optimized_v2.init_simulation c size alloc).1.nx
        (serial_optimized_v2.init_simulation c size alloc).1.ny) := by
    rw [hT, serial_optimized_v2.force_pass_calls]
    rfl
  have hcap' : ∀ k : ℤ, ((List.range num_parts).filter (fun i =>
      serial_optimized_v2.cell_of (serial_optimized_v2.init_simulation c size alloc).1 (parts i)
        = k)).length ≤ serial_optimized_v2.MAX_PER_CELL := by
    intro k
    rw [← List.countP_eq_length_filter]
    exact hcap k
  have hmem := fun p q => serial_optimized_v2.mem_call_pairs_iff c size alloc
    (serial_optimized_v2.init_simulation c size alloc).1 parts num_parts hsize.le hcut rfl rfl rfl
    hdom hcap' p q
  have hnd : T.Nodup := by
    rw [hT']
    apply serial_optimized_v2.nodup_call_pairs
    have := to_int_div_nonneg hsize.le (by linarith : 0 < c.cutoff * (5 / 2))
    show 1 ≤ to_int (size / (c.cutoff * (5 / 2))) + 1
    omega
  have hcount : ∀ x : ℕ × ℕ, T.count x = if x ∈ T then 1 else 0 :=
    fun x => count_of_nodup T hnd x
  rw [← hT'] at hmem
  refine ⟨?_, ?_, ?_⟩
  · intro p q hp hq hne hd
    have hcs : (serial_optimized_v2.init_simulation c size alloc).1.cell_size
        = c.cutoff * (5 / 2) := rfl
    obtain ⟨⟨a1, a2⟩, ⟨b1, b2⟩⟩ := sq_sum_le_split hcut hd
    have hx := to_int_div_close (hdom q hq).1.1 (hdom p hp).1.1
      (by linarith : 0 < c.cutoff * (5 / 2)) (by linarith : c.cutoff ≤ c.cutoff * (5 / 2))
      (by linarith) (by linarith)
    have hy := to_int_div_close (hdom q hq).2.1 (hdom p hp).2.1
      (by linarith : 0 < c.cutoff * (5 / 2)) (by linarith : c.cutoff ≤ c.cutoff * (5 / 2))
      (by linarith) (by linarith)
    have hx' := hx
    have hy' := hy
    rw [abs_sub_comm] at hx' hy'
    rw [hcount, hcount]
    rcases lt_trichotomy
      (serial_optimized_v2.cell_of (serial_optimized_v2.init_simulation c size alloc).1 (parts p))
      (serial_optimized_v2.cell_of (serial_optimized_v2.init_simulation c size alloc).1 (parts q))
      with h | h | h
    · have m1 : (p, q) ∈ T := (hmem p q).mpr ⟨hp, hq, hx, hy, h.le, fun e => by omega⟩
      have m2 : (q, p) ∉ T := fun m => by
        have := ((hmem q p).mp m).2.2.2.2.1
        omega
      rw [if_pos m1, if_neg m2]
    · rcases lt_or_gt_of_ne hne with hlt | hgt
      · have m1 : (p, q) ∈ T := (hmem p q).mpr ⟨hp, hq, hx, hy, h.le, fun _ => hlt⟩
        have m2 : (q, p) ∉ T := fun m => by
          have := ((hmem q p).mp m).2.2.2.2.2 h
          omega
        rw [if_pos m1, if_neg m2]
      · have m1 : (p, q) ∉ T := fun m => by
          have := ((hmem p q).mp m).2.2.2.2.2 h.symm
          omega
        have m2 : (q, p) ∈ T := (hmem q p).mpr ⟨hq, hp, hx', hy', h.ge, fun _ => hgt⟩
        rw [if_neg m1, if_pos m2]
    · have m1 : (p, q) ∉ T := fun m => by
        have := ((hmem p q).mp m).2.2.2.2.1
        omega
      have m2 : (q, p) ∈ T := (hmem q p).mpr ⟨hq, hp, hx', hy', h.le, fun e => by omega⟩
      rw [if_neg m1, if_pos m2]
  · intro p
    rw [hcount, if_neg]
    intro m
    have := ((hmem p p).mp m).2.2.2.2.2 rfl
    omega
  · intro p q hne
    rw [hcount, hcount]
    by_cases m1 : (p, q) ∈ T
    · by_cases m2 : (q, p) ∈ T
      · exfalso
        have h1 := (hmem p q).mp m1
        have h2 := (hmem q p).mp m2
        have e : serial_optimized_v2.cell_of (serial_optimized_v2.init_simulation c size alloc).1
            (parts q) = serial_optimized_v2.cell_of
              (serial_optimized_v2.init_simulation c size alloc).1 (parts p) :=
          le_antisymm h2.2.2.2.2.1 h1.2.2.2.2.1
        have := h1.2.2.2.2.2 e
        have := h2.2.2.2.2.2 e.symm
        omega
      · rw [if_pos m1, if_neg m2]
    · by_cases m2 : (q, p) ∈ T
      · rw [if_neg m1, if_pos m2]
      · rw [if_neg m1, if_neg m2]
        omega

end precomputed_traversal

/-! ## The two strategies compared -/

section strategies

variable {α : Type} [LinearOrderedField α] [FloorRing α]

theorem rat_sqrt_quarter : Rat.sqrt (1 / 4) = 1 / 2 := by
  have h := Rat.sqrt_eq (1 / 2)
  rw [abs_of_pos (by norm_num : (0 : ℚ) < 1 / 2)] at h
  rw [← h]
  norm_num

theorem sample_crowd_in_domain (k : ℕ) (hk : k < 9) :
    (0 ≤ (sample_crowd k).x ∧ (sample_crowd k).x ≤ 10)
      ∧ (0 ≤ (sample_crowd k).y ∧ (sample_crowd k).y ≤ 10) := by
  interval_cases k <;> simp [sample_crowd] <;> norm_num

/-- All nine particles of the crowd fall in the cell `0` of the grid of
serial_optimized_v2.cpp. -/
theorem sample_crowd_one_cell (k : ℕ) (hk : k < 9) :
    serial_optimized_v2.cell_of
      (serial_optimized_v2.init_simulation sample_consts 10 sample_alloc).1 (sample_crowd k)
      = 0 := by
  interval_cases k <;>
    simp [serial_optimized_v2.cell_of, serial_optimized_v2.cell_index,
      serial_optimized_v2.init_simulation, sample_crowd, sample_consts, to_int] <;>
    norm_num [Int.floor_eq_iff]

/-- The all-pairs force on the ninth particle of the crowd: only the first
particle is within the cutoff, and it pushes with `2` along `x`. -/
theorem sample_crowd_force_sum :
    ∑ j in Finset.range 9, (pair_force sample_consts (sample_crowd 8) (sample_crowd j)).1
      = 2 := by
  simp [Finset.sum_range_succ, pair_force, sample_crowd, sample_consts]
  norm_num [rat_sqrt_quarter]

/-- The ninth particle of the crowd is recorded in no cell: its cell is full
when it is inserted. -/
theorem sample_crowd_dropped (i : ℤ) :
    8 ∉ ((List.range 9).filter (fun k => serial_optimized_v2.cell_of
        (serial_optimized_v2.init_simulation sample_consts 10 sample_alloc).1 (sample_crowd k)
          = i)).take serial_optimized_v2.MAX_PER_CELL := by
  by_cases hi : i = 0
  · subst hi
    have e : (List.range 9).filter (fun k => serial_optimized_v2.cell_of
        (serial_optimized_v2.init_simulation sample_consts 10 sample_alloc).1 (sample_crowd k)
          = 0) = List.range 9 := by
      rw [List.filter_eq_self]
      intro k hk
      rw [List.mem_range] at hk
      exact decide_eq_true (sample_crowd_one_cell k hk)
    rw [e]
    decide
  · have e : (List.range 9).filter (fun k => serial_optimized_v2.cell_of
        (serial_optimized_v2.init_simulation sample_consts 10 sample_alloc).1 (sample_crowd k)
          = i) = [] := by
      rw [List.filter_eq_nil_iff]
      intro k hk
      rw [List.mem_range] at hk
      rw [sample_crowd_one_cell k hk]
      simpa using fun e : (0 : ℤ) = i => hi e.symm
    rw [e]
    simp

/-- C2 fails on the code (a defect of serial_optimized_v2.cpp): nine particles
inside a domain of size `10` (cutoff `1`), all in one cell of
serial_optimized_v2.cpp. The on-demand pass of serial_optimized.cpp gives the
ninth particle the acceleration `ax = 2`; the precomputed pass of
serial_optimized_v2.cpp, whose `add_to_cell` takes the branch commented
`// Error` once the cell holds eight indices and drops the ninth, leaves it at
`ax = 0`. -/
theorem strategies_differ_when_cell_overflows :
    (∀ k, k < 9 → (0 ≤ (sample_crowd k).x ∧ (sample_crowd k).x ≤ 10)
        ∧ (0 ≤ (sample_crowd k).y ∧ (sample_crowd k).y ≤ 10))
    ∧ ((serial_optimized.force_pass sample_consts
          (serial_optimized.init_simulation sample_consts 10) sample_crowd 9).2.parts 8).ax = 2
    ∧ ((serial_optimized_v2.force_pass sample_consts
          (serial_optimized_v2.init_simulation sample_consts 10 sample_alloc).1
          (serial_optimized_v2.init_simulation sample_consts 10 sample_alloc).2
          sample_crowd 9).2.parts 8).ax = 0
    ∧ ¬ ∀ i, i < 9 →
        ((serial_optimized.force_pass sample_consts
            (serial_optimized.init_simulation sample_consts 10) sample_crowd 9).2.parts i).ax
          = ((serial_optimized_v2.force_pass sample_consts
            (serial_optimized_v2.init_simulation sample_consts 10 sample_alloc).1
            (serial_optimized_v2.init_simulation sample_consts 10 sample_alloc).2
            sample_crowd 9).2.parts i).ax
        ∧ ((serial_optimized.force_pass sample_consts
            (serial_optimized.init_simulation sample_consts 10) sample_crowd 9).2.parts i).ay
          = ((serial_optimized_v2.force_pass sample_consts
            (serial_optimized_v2.init_simulation sample_consts 10 sample_alloc).1
            (serial_optimized_v2.init_simulation sample_consts 10 sample_alloc).2
            sample_crowd 9).2.parts i).ay := by
  have hcut : 0 < sample_consts.cutoff := by norm_num [sample_consts]
  have h1 : ((serial_optimized.force_pass sample_consts
      (serial_optimized.init_simulation sample_consts 10) sample_crowd 9).2.parts 8).ax = 2 := by
    rw [(serial_optimized.force_pass_eq_sum sample_consts 10
      (serial_optimized.init_simulation sample_consts 10) sample_crowd 9 8 hcut rfl rfl rfl
      sample_crowd_in_domain (by decide)).1]
    exact sample_crowd_force_sum
  have hnx : 1 ≤ (serial_optimized_v2.init_simulation sample_consts 10 sample_alloc).1.nx := by
    have := to_int_div_nonneg (by norm_num : (0 : ℚ) ≤ 10)
      (by norm_num [sample_consts] : (0 : ℚ) < sample_consts.cutoff * (5 / 2))
    show 1 ≤ to_int (10 / (sample_consts.cutoff * (5 / 2))) + 1
    omega
  have h2 : ((serial_optimized_v2.force_pass sample_consts
      (serial_optimized_v2.init_simulation sample_consts 10 sample_alloc).1
      (serial_optimized_v2.init_simulation sample_consts 10 sample_alloc).2
      sample_crowd 9).2.parts 8).ax = 0 := by
    have hun := serial_optimized_v2.unlisted_particle_keeps_reset sample_consts
      (serial_optimized_v2.init_simulation sample_consts 10 sample_alloc).1
      (serial_optimized_v2.init_simulation sample_consts 10 sample_alloc).2 sample_crowd 9 8
      (by
        intro pq hpq
        obtain ⟨⟨i, hi⟩, ⟨j, hj⟩⟩ := serial_optimized_v2.call_pairs_members
          (serial_optimized_v2.init_simulation sample_consts 10 sample_alloc).1 sample_crowd 9
          hnx pq hpq
        constructor
        · intro e
          rw [e] at hi
          exact sample_crowd_dropped i hi
        · intro e
          rw [e] at hj
          exact sample_crowd_dropped j hj)
    rw [hun.1, serial_optimized_v2.reset_accelerations_spec, if_pos (by decide)]
  refine ⟨sample_crowd_in_domain, h1, h2, ?_⟩
  intro h
  have := (h 8 (by decide)).1
  rw [h1, h2] at this
  norm_num at this

/-- Where the defect does not strike the two strategies agree: for every
particle list with positions inside the domain such that no cell of
serial_optimized_v2.cpp receives more than
`MAX_PER_CELL = 8` particles, one force-evaluation pass of the on-demand 3x3
enumeration (serial_optimized.cpp) and one of the precomputed
half-neighbourhood enumeration (serial_optimized_v2.cpp) leave every particle
of the list with the same acceleration. -/
theorem strategies_agree_without_overflow (c : Consts α) (size : α)
    (alloc : ℤ → serial_optimized_v2.cell_t) (parts : ℕ → particle_t α) (num_parts i : ℕ)
    (hsize : 0 < size) (hcut : 0 < c.cutoff)
    (hdom : ∀ k, k < num_parts → (0 ≤ (parts k).x ∧ (parts k).x ≤ size)
      ∧ (0 ≤ (parts k).y ∧ (parts k).y ≤ size))
    (hcap : ∀ cell : ℤ, (List.range num_parts).countP
        (fun k => serial_optimized_v2.cell_of (serial_optimized_v2.init_simulation c size alloc).1
          (parts k) = cell)
      ≤ serial_optimized_v2.MAX_PER_CELL)
    (hi : i < num_parts) :
    ((serial_optimized.force_pass c (serial_optimized.init_simulation c size) parts
          num_parts).2.parts i).ax
        = ((serial_optimized_v2.force_pass c (serial_optimized_v2.init_simulation c size alloc).1
            (serial_optimized_v2.init_simulation c size alloc).2 parts num_parts).2.parts i).ax
      ∧ ((serial_optimized.force_pass c (serial_optimized.init_simulation c size) parts
          num_parts).2.parts i).ay
        = ((serial_optimized_v2.force_pass c (serial_optimized_v2.init_simulation c size alloc).1
            (serial_optimized_v2.init_simulation c size alloc).2 parts num_parts).2.parts i).ay := by
  have hcap' : ∀ k : ℤ, ((List.range num_parts).filter (fun i =>
      serial_optimized_v2.cell_of (serial_optimized_v2.init_simulation c size alloc).1 (parts i)
        = k)).length ≤ serial_optimized_v2.MAX_PER_CELL := by
    intro k
    rw [← List.countP_eq_length_filter]
    exact hcap k
  obtain ⟨a1, a2⟩ := serial_optimized.force_pass_eq_sum c size
    (serial_optimized.init_simulation c size) parts num_parts i hcut rfl rfl rfl hdom hi
  obtain ⟨b1, b2⟩ := serial_optimized_v2.fixed_force_pass_eq_sum c size alloc
    (serial_optimized_v2.init_simulation c size alloc).1 parts num_parts i hsize.le hcut
    rfl rfl rfl hdom hcap' hi
  have e : (serial_optimized_v2.init_simulation c size alloc).2
      = precompute_neighbors (serial_optimized_v2.init_simulation c size alloc).1.nx
          (serial_optimized_v2.init_simulation c size alloc).1.ny := rfl
  rw [e, a1, a2, b1, b2]
  exact ⟨rfl, rfl⟩

theorem sample_near_in_domain (k : ℕ) (hk : k < 2) :
    (0 ≤ (sample_near k).x ∧ (sample_near k).x ≤ 10)
      ∧ (0 ≤ (sample_near k).y ∧ (sample_near k).y ≤ 10) := by
  interval_cases k <;> norm_num [sample_near]

theorem sample_near_capacity (cell : ℤ) :
    (List.range 2).countP
        (fun k => serial_optimized_v2.cell_of
          (serial_optimized_v2.init_simulation sample_consts 10 sample_alloc).1 (sample_near k)
            = cell)
      ≤ serial_optimized_v2.MAX_PER_CELL := by
  refine le_trans (List.countP_le_length _) ?_
  simp [serial_optimized_v2.MAX_PER_CELL]

/-- Witness of C1: the two particles `(0, 0)` and `(1/2, 0)` in a domain of
size `10` with `cutoff = 1`. -/
theorem binned_force_pass_eq_all_pairs_witness :
    ((0 : ℚ) < 10 ∧ 0 < sample_consts.cutoff
      ∧ (∀ k, k < 2 → (0 ≤ (sample_near k).x ∧ (sample_near k).x ≤ 10)
          ∧ (0 ≤ (sample_near k).y ∧ (sample_near k).y ≤ 10))
      ∧ 0 < 2)
    ∧ (((serial_optimized.force_pass sample_consts
            (serial_optimized.init_simulation sample_consts 10) sample_near 2).2.parts 0).ax,
        ((serial_optimized.force_pass sample_consts
            (serial_optimized.init_simulation sample_consts 10) sample_near 2).2.parts 0).ay)
      = all_pairs_reference sample_consts sample_near 2 0 :=
  ⟨⟨by norm_num, by norm_num [sample_consts], sample_near_in_domain, by decide⟩,
    binned_force_pass_eq_all_pairs sample_consts 10 sample_near 2 0 (by norm_num)
      (by norm_num [sample_consts]) sample_near_in_domain (by decide)⟩

/-- An instance without overflow: the two particles `(0, 0)` and `(1/2, 0)`. -/
theorem strategies_agree_without_overflow_witness :
    ((0 : ℚ) < 10 ∧ 0 < sample_consts.cutoff
      ∧ (∀ k, k < 2 → (0 ≤ (sample_near k).x ∧ (sample_near k).x ≤ 10)
          ∧ (0 ≤ (sample_near k).y ∧ (sample_near k).y ≤ 10))
      ∧ (∀ cell : ℤ, (List.range 2).countP
            (fun k => serial_optimized_v2.cell_of
              (serial_optimized_v2.init_simulation sample_consts 10 sample_alloc).1
              (sample_near k) = cell)
          ≤ serial_optimized_v2.MAX_PER_CELL)
      ∧ 0 < 2)
    ∧ (((serial_optimized.force_pass sample_consts
            (serial_optimized.init_simulation sample_consts 10) sample_near 2).2.parts 0).ax
        = ((serial_optimized_v2.force_pass sample_consts
            (serial_optimized_v2.init_simulation sample_consts 10 sample_alloc).1
            (serial_optimized_v2.init_simulation sample_consts 10 sample_alloc).2
            sample_near 2).2.parts 0).ax
      ∧ ((serial_optimized.force_pass sample_consts
            (serial_optimized.init_simulation sample_consts 10) sample_near 2).2.parts 0).ay
        = ((serial_optimized_v2.force_pass sample_consts
            (serial_optimized_v2.init_simulation sample_consts 10 sample_alloc).1
            (serial_optimized_v2.init_simulation sample_consts 10 sample_alloc).2
            sample_near 2).2.parts 0).ay) :=
  ⟨⟨by norm_num, by norm_num [sample_consts], sample_near_in_domain, sample_near_capacity,
      by decide⟩,
    strategies_agree_without_overflow sample_consts 10 sample_alloc sample_near 2 0 (by norm_num)
      (by norm_num [sample_consts]) sample_near_in_domain sample_near_capacity (by decide)⟩

/-- Witness of C3: the two particles `(0, 0)` and `(1/2, 0)`. -/
theorem precomputed_traversal_each_pair_once_witness :
    ((0 : ℚ) < 10 ∧ 0 < sample_consts.cutoff
      ∧ (∀ k, k < 2 → (0 ≤ (sample_near k).x ∧ (sample_near k).x ≤ 10)
          ∧ (0 ≤ (sample_near k).y ∧ (sample_near k).y ≤ 10))
      ∧ (∀ cell : ℤ, (List.range 2).countP
            (fun k => serial_optimized_v2.cell_of
              (serial_optimized_v2.init_simulation sample_consts 10 sample_alloc).1
              (sample_near k) = cell)
          ≤ serial_optimized_v2.MAX_PER_CELL))
    ∧ ∀ T : List (ℕ × ℕ),
      T = (serial_optimized_v2.force_pass sample_consts
            (serial_optimized_v2.init_simulation sample_consts 10 sample_alloc).1
            (serial_optimized_v2.init_simulation sample_consts 10 sample_alloc).2
            sample_near 2).2.calls →
      (∀ p q, p < 2 → q < 2 → p ≠ q →
          ((sample_near q).x - (sample_near p).x) ^ 2
              + ((sample_near q).y - (sample_near p).y) ^ 2 ≤ sample_consts.cutoff ^ 2 →
          T.count (p, q) + T.count (q, p) = 1)
        ∧ (∀ p, T.count (p, p) = 0)
        ∧ ∀ p q, p ≠ q → T.count (p, q) + T.count (q, p) ≤ 1 :=
  ⟨⟨by norm_num, by norm_num [sample_consts], sample_near_in_domain, sample_near_capacity⟩,
    precomputed_traversal_each_pair_once sample_consts 10 sample_alloc sample_near 2
      (by norm_num) (by norm_num [sample_consts]) sample_near_in_domain sample_near_capacity⟩

/-- Witness of C6: the particle `0` of the pair `(0, 0)`, `(1/2, 0)` on the grid
left by `init_simulation` for a domain of size `10`. -/
theorem dynamic_grid_complete_witness :
    ((0 : ℚ) < 10 ∧ 0 < sample_consts.cutoff ∧ 0 < 2
      ∧ (0 ≤ (sample_near 0).x ∧ (sample_near 0).x ≤ 10)
      ∧ (0 ≤ (sample_near 0).y ∧ (sample_near 0).y ≤ 10))
    ∧ ∀ g' : serial_optimized.grid_t ℚ,
      g' = serial_optimized.populate
          (serial_optimized.reset_cells (serial_optimized.init_simulation sample_consts 10))
          sample_near 2 →
      (serial_optimized.live (g'.cells (serial_optimized.cell_of g' (sample_near 0)))).count 0 = 1
        ∧ (∀ k : ℤ, 0 ≤ k → k < g'.nx * g'.ny →
            k ≠ serial_optimized.cell_of g' (sample_near 0) →
            0 ∉ serial_optimized.live (g'.cells k))
        ∧ ∀ k : ℤ, ((serial_optimized.init_simulation sample_consts 10).cells k).particles.length
            ≤ (g'.cells k).particles.length :=
  ⟨⟨by norm_num, by norm_num [sample_consts], by decide, (sample_near_in_domain 0 (by decide)).1,
      (sample_near_in_domain 0 (by decide)).2⟩,
    dynamic_grid_complete sample_consts 10 (serial_optimized.init_simulation sample_consts 10)
      sample_near 2 0 (by norm_num) (by norm_num [sample_consts]) rfl rfl rfl (by decide)
      (sample_near_in_domain 0 (by decide)).1 (sample_near_in_domain 0 (by decide)).2⟩

end strategies

/-! ## The integrator `move` -/

section integrator

variable {α : Type} [LinearOrderedField α]

theorem bounce_x_done (size : α) (fuel : ℕ) (p : particle_t α)
    (h : ¬ (p.x < 0 ∨ p.x > size)) : bounce_x size fuel p = some p := by
  cases fuel <;> simp only [bounce_x, if_neg h]

theorem bounce_x_step (size : α) (fuel : ℕ) (p : particle_t α) (h : p.x < 0 ∨ p.x > size) :
    bounce_x size (fuel + 1) p
      = bounce_x size fuel
          { p with x := if p.x < 0 then -p.x else 2 * size - p.x, vx := -p.vx } := by
  simp only [bounce_x, if_pos h]

/-- More fuel does not change the result of a loop that has finished. -/
theorem bounce_x_mono (size : α) (fuel k : ℕ) (p r : particle_t α)
    (h : bounce_x size fuel p = some r) : bounce_x size (fuel + k) p = some r := by
  induction fuel generalizing p with
  | zero =>
    by_cases hc : p.x < 0 ∨ p.x > size
    · simp only [bounce_x, if_pos hc] at h
      exact absurd h (by simp)
    · rw [bounce_x_done size _ p hc]
      rw [bounce_x_done size _ p hc] at h
      exact h
  | succ fuel ih =>
    by_cases hc : p.x < 0 ∨ p.x > size
    · rw [bounce_x_step size fuel p hc] at h
      have e : fuel + 1 + k = (fuel + k) + 1 := by omega
      rw [e, bounce_x_step size _ p hc]
      exact ih _ h
    · rw [bounce_x_done size _ p hc]
      rw [bounce_x_done size _ p hc] at h
      exact h

theorem bounce_x_mono_le (size : α) (fuel fuel' : ℕ) (p r : particle_t α) (hle : fuel ≤ fuel')
    (h : bounce_x size fuel p = some r) : bounce_x size fuel' p = some r := by
  have e : fuel' = fuel + (fuel' - fuel) := by omega
  rw [e]
  exact bounce_x_mono size fuel _ p r h

/-- What the x loop leaves alone, and where it stops. -/
theorem bounce_x_result (size : α) (fuel : ℕ) (p r : particle_t α)
    (h : bounce_x size fuel p = some r) :
    (0 ≤ r.x ∧ r.x ≤ size) ∧ r.y = p.y ∧ r.vy = p.vy ∧ r.ax = p.ax ∧ r.ay = p.ay
      ∧ (r.vx = p.vx ∨ r.vx = -p.vx) := by
  induction fuel generalizing p with
  | zero =>
    by_cases hc : p.x < 0 ∨ p.x > size
    · simp only [bounce_x, if_pos hc] at h
      exact absurd h (by simp)
    · rw [bounce_x_done size _ p hc] at h
      cases h
      push_neg at hc
      exact ⟨⟨hc.1, hc.2⟩, rfl, rfl, rfl, rfl, Or.inl rfl⟩
  | succ fuel ih =>
    by_cases hc : p.x < 0 ∨ p.x > size
    · rw [bounce_x_step size fuel p hc] at h
      obtain ⟨h1, h2, h3, h4, h5, h6⟩ := ih _ h
      refine ⟨h1, h2, h3, h4, h5, ?_⟩
      rcases h6 with h6 | h6
      · exact Or.inr h6
      · exact Or.inl (by rw [h6]; simp)
    · rw [bounce_x_done size _ p hc] at h
      cases h
      push_neg at hc
      exact ⟨⟨hc.1, hc.2⟩, rfl, rfl, rfl, rfl, Or.inl rfl⟩

/-- From a non-negative coordinate at most `n` domain widths away the x loop
stops within `2 * n` iterations. -/
theorem bounce_x_terminates_nonneg (size : α) (hsize : 0 < size) (n : ℕ) (p : particle_t α)
    (h0 : 0 ≤ p.x) (hn : p.x ≤ (n : α) * size) : ∃ r, bounce_x size (2 * n) p = some r := by
  induction n generalizing p with
  | zero =>
    refine ⟨p, bounce_x_done size _ p ?_⟩
    push_neg
    refine ⟨h0, ?_⟩
    have : p.x ≤ 0 := by simpa using hn
    linarith
  | succ n ih =>
    by_cases hc : p.x > size
    · have e : 2 * (n + 1) = (2 * n + 1) + 1 := by ring
      rw [e, bounce_x_step size _ p (Or.inr hc)]
      have hnl : ¬ p.x < 0 := not_lt.mpr h0
      simp only [if_neg hnl]
      by_cases h2 : 2 * size - p.x < 0
      · rw [bounce_x_step size _ _ (Or.inl h2)]
        simp only [if_pos h2]
        apply ih
        · simp only [neg_sub]
          linarith
        · simp only [neg_sub]
          push_cast at hn
          linarith
      · refine ⟨_, bounce_x_done size _ _ ?_⟩
        push_neg
        push_neg at h2
        exact ⟨h2, by simp only []; linarith⟩
    · refine ⟨p, bounce_x_done size _ p ?_⟩
      push_neg
      push_neg at hc
      exact ⟨h0, hc⟩

/-- The x loop stops for every starting coordinate when `size > 0`. -/
theorem bounce_x_terminates [FloorRing α] (size : α) (hsize : 0 < size) (p : particle_t α) :
    ∃ fuel r, bounce_x size fuel p = some r := by
  by_cases h0 : 0 ≤ p.x
  · obtain ⟨n, hn⟩ := exists_nat_ge (p.x / size)
    rw [div_le_iff₀ hsize] at hn
    obtain ⟨r, hr⟩ := bounce_x_terminates_nonneg size hsize n p h0 hn
    exact ⟨_, r, hr⟩
  · push_neg at h0
    obtain ⟨n, hn⟩ := exists_nat_ge (-p.x / size)
    rw [div_le_iff₀ hsize] at hn
    obtain ⟨r, hr⟩ := bounce_x_terminates_nonneg size hsize n
      { p with x := if p.x < 0 then -p.x else 2 * size - p.x, vx := -p.vx }
      (by simp only [if_pos h0]; linarith) (by simp only [if_pos h0]; exact hn)
    refine ⟨2 * n + 1, r, ?_⟩
    rw [bounce_x_step size _ p (Or.inl h0)]
    exact hr

theorem swap_axes_swap_axes (p : particle_t α) : swap_axes (swap_axes p) = p := rfl

/-- The y loop is the x loop with the roles of the axes exchanged. -/
theorem bounce_y_eq_swap (size : α) (fuel : ℕ) (p : particle_t α) :
    bounce_y size fuel p = (bounce_x size fuel (swap_axes p)).map swap_axes := by
  induction fuel generalizing p with
  | zero =>
    simp only [bounce_y, bounce_x, swap_axes]
    split <;> rfl
  | succ fuel ih =>
    simp only [bounce_y, bounce_x]
    by_cases hc : p.y < 0 ∨ p.y > size
    · have hc' : (swap_axes p).x < 0 ∨ (swap_axes p).x > size := hc
      rw [if_pos hc, if_pos hc', ih]
      rfl
    · have hc' : ¬ ((swap_axes p).x < 0 ∨ (swap_axes p).x > size) := hc
      rw [if_neg hc, if_neg hc']
      rfl

theorem bounce_y_mono_le (size : α) (fuel fuel' : ℕ) (p r : particle_t α) (hle : fuel ≤ fuel')
    (h : bounce_y size fuel p = some r) : bounce_y size fuel' p = some r := by
  rw [bounce_y_eq_swap] at h ⊢
  rw [Option.map_eq_some'] at h
  obtain ⟨r', h1, h2⟩ := h
  rw [bounce_x_mono_le size fuel fuel' _ r' hle h1]
  simp [h2]

theorem bounce_y_result (size : α) (fuel : ℕ) (p r : particle_t α)
    (h : bounce_y size fuel p = some r) :
    (0 ≤ r.y ∧ r.y ≤ size) ∧ r.x = p.x ∧ r.vx = p.vx ∧ r.ax = p.ax ∧ r.ay = p.ay
      ∧ (r.vy = p.vy ∨ r.vy = -p.vy) := by
  rw [bounce_y_eq_swap, Option.map_eq_some'] at h
  obtain ⟨r', h1, h2⟩ := h
  obtain ⟨a1, a2, a3, a4, a5, a6⟩ := bounce_x_result size fuel _ r' h1
  subst h2
  exact ⟨a1, a2, a3, a5, a4, a6⟩

theorem bounce_y_done (size : α) (fuel : ℕ) (p : particle_t α)
    (h : ¬ (p.y < 0 ∨ p.y > size)) : bounce_y size fuel p = some p := by
  cases fuel <;> simp only [bounce_y, if_neg h]

theorem bounce_y_terminates [FloorRing α] (size : α) (hsize : 0 < size) (p : particle_t α) :
    ∃ fuel r, bounce_y size fuel p = some r := by
  obtain ⟨fuel, r, h⟩ := bounce_x_terminates size hsize (swap_axes p)
  refine ⟨fuel, swap_axes r, ?_⟩
  rw [bounce_y_eq_swap, h]
  rfl

theorem move_variants_eq :
    @openmp_critical.move α _ = serial_optimized.move
      ∧ @serial_optimized_v2.move α _ = serial_optimized.move
      ∧ @openmp_v3.move α _ = serial_optimized.move := ⟨rfl, rfl, rfl⟩

theorem move_eq (c : Consts α) (fuel : ℕ) (p : particle_t α) (size : α) :
    serial_optimized.move c fuel p size
      = (bounce_x size fuel
          ⟨p.x + (p.vx + p.ax * c.dt) * c.dt, p.y + (p.vy + p.ay * c.dt) * c.dt,
            p.vx + p.ax * c.dt, p.vy + p.ay * c.dt, p.ax, p.ay⟩).bind (bounce_y size fuel) :=
  rfl

theorem move_mono_le (c : Consts α) (fuel fuel' : ℕ) (p r : particle_t α) (size : α)
    (hle : fuel ≤ fuel') (h : serial_optimized.move c fuel p size = some r) :
    serial_optimized.move c fuel' p size = some r := by
  rw [move_eq, Option.bind_eq_some] at h
  obtain ⟨r1, h1, h2⟩ := h
  rw [move_eq, bounce_x_mono_le size fuel fuel' _ r1 hle h1]
  exact bounce_y_mono_le size fuel fuel' r1 r hle h2

/-- Without a bounce, `move` is the plain semi-implicit Euler step, whatever
the fuel. -/
theorem move_no_bounce (c : Consts α) (fuel : ℕ) (p : particle_t α) (size : α)
    (hx : 0 ≤ p.x + (p.vx + p.ax * c.dt) * c.dt ∧ p.x + (p.vx + p.ax * c.dt) * c.dt ≤ size)
    (hy : 0 ≤ p.y + (p.vy + p.ay * c.dt) * c.dt ∧ p.y + (p.vy + p.ay * c.dt) * c.dt ≤ size) :
    serial_optimized.move c fuel p size
      = some ⟨p.x + (p.vx + p.ax * c.dt) * c.dt, p.y + (p.vy + p.ay * c.dt) * c.dt,
          p.vx + p.ax * c.dt, p.vy + p.ay * c.dt, p.ax, p.ay⟩ := by
  rw [move_eq, bounce_x_done size fuel _ (by push_neg; exact hx)]
  exact bounce_y_done size fuel _ (by push_neg; exact hy)

/-- C14 (semi-implicit Euler update). When the updated coordinates
`x + (vx + ax*dt)*dt` and `y + (vy + ay*dt)*dt` lie in `[0, size]`, `move` (in
each of the four variants, whatever the fuel) yields `vx' = vx + ax*dt`,
`vy' = vy + ay*dt`, `x' = x + vx'*dt`, `y' = y + vy'*dt` and leaves `ax`, `ay`
unchanged. -/
theorem move_is_semi_implicit_euler (c : Consts α) (size : α) (p : particle_t α) (fuel : ℕ)
    (hx : 0 ≤ p.x + (p.vx + p.ax * c.dt) * c.dt ∧ p.x + (p.vx + p.ax * c.dt) * c.dt ≤ size)
    (hy : 0 ≤ p.y + (p.vy + p.ay * c.dt) * c.dt ∧ p.y + (p.vy + p.ay * c.dt) * c.dt ≤ size) :
    ∀ mv : Consts α → ℕ → particle_t α → α → Option (particle_t α),
      mv = serial_optimized.move ∨ mv = openmp_critical.move
        ∨ mv = serial_optimized_v2.move ∨ mv = openmp_v3.move →
      ∃ q : particle_t α, mv c fuel p size = some q
        ∧ q.vx = p.vx + p.ax * c.dt ∧ q.vy = p.vy + p.ay * c.dt
        ∧ q.x = p.x + q.vx * c.dt ∧ q.y = p.y + q.vy * c.dt
        ∧ q.ax = p.ax ∧ q.ay = p.ay := by
  intro mv hmv
  have e : mv = serial_optimized.move := by
    rcases hmv with h | h | h | h <;> rw [h] <;> rfl
  subst e
  exact ⟨_, move_no_bounce c fuel p size hx hy, rfl, rfl, rfl, rfl, rfl, rfl⟩

/-- Witness of C14: the particle `(1, 2)` with velocity `(3, 4)` and
acceleration `(5, 6)` in a domain of size `10`, `dt = 0.001`. -/
theorem move_is_semi_implicit_euler_witness :
    ((0 ≤ sample_inside.x + (sample_inside.vx + sample_inside.ax * sample_consts.dt)
            * sample_consts.dt
        ∧ sample_inside.x + (sample_inside.vx + sample_inside.ax * sample_consts.dt)
            * sample_consts.dt ≤ 10)
      ∧ (0 ≤ sample_inside.y + (sample_inside.vy + sample_inside.ay * sample_consts.dt)
            * sample_consts.dt
        ∧ sample_inside.y + (sample_inside.vy + sample_inside.ay * sample_consts.dt)
            * sample_consts.dt ≤ 10))
    ∧ ∀ mv : Consts ℚ → ℕ → particle_t ℚ → ℚ → Option (particle_t ℚ),
      mv = serial_optimized.move ∨ mv = openmp_critical.move
        ∨ mv = serial_optimized_v2.move ∨ mv = openmp_v3.move →
      ∃ q : particle_t ℚ, mv sample_consts 0 sample_inside 10 = some q
        ∧ q.vx = sample_inside.vx + sample_inside.ax * sample_consts.dt
        ∧ q.vy = sample_inside.vy + sample_inside.ay * sample_consts.dt
        ∧ q.x = sample_inside.x + q.vx * sample_consts.dt
        ∧ q.y = sample_inside.y + q.vy * sample_consts.dt
        ∧ q.ax = sample_inside.ax ∧ q.ay = sample_inside.ay :=
  ⟨⟨by norm_num [sample_inside, sample_consts], by norm_num [sample_inside, sample_consts]⟩,
    move_is_semi_implicit_euler sample_consts 10 sample_inside 0
      (by norm_num [sample_inside, sample_consts]) (by norm_num [sample_inside, sample_consts])⟩

/-- Counterexample to C13 as stated: with `size = 1`, `eps = 3/2`, `vx = 1`
(and `dt = 0.001`) the updated coordinate `2.501` lies more than one domain
width beyond the wall, the loop reflects twice, and `move` ends with
`x = 0.501` and `vx = 1`, the initial velocity and not its negation. -/
theorem double_reflection_restores_velocity :
    ((0 : ℚ) < 1 ∧ (0 : ℚ) < 3 / 2 ∧ 0 < sample_overshoot.vx
      ∧ sample_overshoot.x = 1 + 3 / 2 ∧ sample_overshoot.ax = 0 ∧ sample_overshoot.ay = 0)
    ∧ (∀ fuel, 2 ≤ fuel →
        serial_optimized.move sample_consts fuel sample_overshoot 1
            = some ⟨501 / 1000, 0, 1, 0, 0, 0⟩
          ∧ openmp_critical.move sample_consts fuel sample_overshoot 1
            = some ⟨501 / 1000, 0, 1, 0, 0, 0⟩)
    ∧ (⟨501 / 1000, 0, 1, 0, 0, 0⟩ : particle_t ℚ).vx ≠ -sample_overshoot.vx := by
  have h2 : serial_optimized.move sample_consts 2 sample_overshoot 1
      = some ⟨501 / 1000, 0, 1, 0, 0, 0⟩ := by
    simp [serial_optimized.move, bounce_x, bounce_y, sample_consts, sample_overshoot]
    norm_num
  refine ⟨by norm_num [sample_overshoot], ?_, by norm_num [sample_overshoot]⟩
  intro fuel hf
  exact ⟨move_mono_le sample_consts 2 fuel _ _ 1 hf h2,
    move_mono_le sample_consts 2 fuel _ _ 1 hf h2⟩

/-- C13 as amended: for every domain size `> 0`, `dt > 0`, `eps > 0` and
`vx > 0` with `eps + vx*dt <= size` (the updated coordinate is at most one
domain width beyond the wall), a particle with `x = size + eps`, velocity `vx`
and `ax = 0` has, after `move` (serial_optimized.cpp, openmp_critical.cpp and
the other two variants), `x = size - eps - vx*dt`, hence `0 <= x <= size`, and
`vx` equal to the negation of its initial value. -/
theorem single_reflection_negates_velocity [FloorRing α] (c : Consts α) (size eps vx : α)
    (p : particle_t α) (hsize : 0 < size) (hdt : 0 < c.dt) (heps : 0 < eps) (hvx : 0 < vx)
    (hone : eps + vx * c.dt ≤ size) (hpx : p.x = size + eps) (hpv : p.vx = vx)
    (hpa : p.ax = 0) :
    ∀ mv : Consts α → ℕ → particle_t α → α → Option (particle_t α),
      mv = serial_optimized.move ∨ mv = openmp_critical.move
        ∨ mv = serial_optimized_v2.move ∨ mv = openmp_v3.move →
      ∃ (fuel0 : ℕ) (q : particle_t α),
        (∀ fuel, fuel0 ≤ fuel → mv c fuel p size = some q)
          ∧ q.x = size - eps - vx * c.dt ∧ (0 ≤ q.x ∧ q.x ≤ size) ∧ q.vx = -vx := by
  intro mv hmv
  have e : mv = serial_optimized.move := by
    rcases hmv with h | h | h | h <;> rw [h] <;> rfl
  subst e
  have hpos : 0 < vx * c.dt := mul_pos hvx hdt
  have hx4 : p.x + (p.vx + p.ax * c.dt) * c.dt = size + eps + vx * c.dt := by
    rw [hpx, hpv, hpa]
    ring
  have hgt : p.x + (p.vx + p.ax * c.dt) * c.dt > size := by
    rw [hx4]
    linarith
  have hnl : ¬ p.x + (p.vx + p.ax * c.dt) * c.dt < 0 := by
    rw [hx4]
    linarith
  have hb : ∀ fuel, bounce_x size (fuel + 1)
      (⟨p.x + (p.vx + p.ax * c.dt) * c.dt, p.y + (p.vy + p.ay * c.dt) * c.dt,
        p.vx + p.ax * c.dt, p.vy + p.ay * c.dt, p.ax, p.ay⟩ : particle_t α)
      = some ⟨2 * size - (p.x + (p.vx + p.ax * c.dt) * c.dt),
          p.y + (p.vy + p.ay * c.dt) * c.dt, -(p.vx + p.ax * c.dt), p.vy + p.ay * c.dt,
          p.ax, p.ay⟩ := by
    intro fuel
    rw [bounce_x_step size fuel _ (Or.inr hgt)]
    simp only [if_neg hnl]
    apply bounce_x_done
    push_neg
    simp only []
    rw [hx4]
    constructor <;> linarith
  obtain ⟨f2, r2, h2⟩ := bounce_y_terminates size hsize
    (⟨2 * size - (p.x + (p.vx + p.ax * c.dt) * c.dt),
      p.y + (p.vy + p.ay * c.dt) * c.dt, -(p.vx + p.ax * c.dt), p.vy + p.ay * c.dt,
      p.ax, p.ay⟩ : particle_t α)
  have b := bounce_y_result size f2 _ r2 h2
  have hq : r2.x = size - eps - vx * c.dt := by
    rw [b.2.1]
    simp only []
    rw [hx4]
    ring
  refine ⟨max 1 f2, r2, ?_, hq, ?_, ?_⟩
  · intro fuel hf
    have h1 : 1 ≤ fuel := le_trans (le_max_left _ _) hf
    obtain ⟨k, rfl⟩ : ∃ k, fuel = k + 1 := ⟨fuel - 1, by omega⟩
    rw [move_eq, hb k]
    exact bounce_y_mono_le size f2 (k + 1) _ r2 (le_trans (le_max_right _ _) hf) h2
  · rw [hq]
    constructor <;> linarith
  · rw [b.2.2.1]
    simp only []
    rw [hpv, hpa]
    ring

/-- Witness of C13 as amended: `size = 10`, `eps = 1`, `vx = 1`, `dt = 0.001`. -/
theorem single_reflection_negates_velocity_witness :
    ((0 : ℚ) < 10 ∧ 0 < sample_consts.dt ∧ (0 : ℚ) < 1 ∧ (0 : ℚ) < 1
      ∧ (1 : ℚ) + 1 * sample_consts.dt ≤ 10 ∧ sample_beyond_wall.x = 10 + 1
      ∧ sample_beyond_wall.vx = 1 ∧ sample_beyond_wall.ax = 0)
    ∧ ∀ mv : Consts ℚ → ℕ → particle_t ℚ → ℚ → Option (particle_t ℚ),
      mv = serial_optimized.move ∨ mv = openmp_critical.move
        ∨ mv = serial_optimized_v2.move ∨ mv = openmp_v3.move →
      ∃ (fuel0 : ℕ) (q : particle_t ℚ),
        (∀ fuel, fuel0 ≤ fuel → mv sample_consts fuel sample_beyond_wall 10 = some q)
          ∧ q.x = 10 - 1 - 1 * sample_consts.dt ∧ (0 ≤ q.x ∧ q.x ≤ 10) ∧ q.vx = -1 :=
  ⟨⟨by norm_num, by norm_num [sample_consts], by norm_num, by norm_num,
      by norm_num [sample_consts], rfl, rfl, rfl⟩,
    single_reflection_negates_velocity sample_consts 10 1 1 sample_beyond_wall (by norm_num)
      (by norm_num [sample_consts]) (by norm_num) (by norm_num) (by norm_num [sample_consts])
      rfl rfl rfl⟩

end integrator

/-! ## Grid dimensions -/

section dimensions

variable {α : Type} [LinearOrderedField α] [FloorRing α]

/-- Counterexample to C18 as stated: for `size = 10.5` and `cell_size = 1`
`init_simulation` of serial_optimized.cpp sets `nx = ny = 11`, whereas
`ceil(size / cell_size) + 1 = 12`. -/
theorem grid_dimension_is_not_ceil_plus_one :
    ((0 : ℚ) < 21 / 2 ∧ 0 < (serial_optimized.init_simulation sample_consts (21 / 2)).cell_size)
    ∧ (serial_optimized.init_simulation sample_consts (21 / 2)).nx = 11
    ∧ (serial_optimized.init_simulation sample_consts (21 / 2)).ny = 11
    ∧ ⌈(21 / 2 : ℚ) / (serial_optimized.init_simulation sample_consts (21 / 2)).cell_size⌉ + 1
        = 12 := by
  have hf : to_int ((21 / 2 : ℚ) / 1) = 10 := by
    rw [to_int_of_nonneg (by norm_num), Int.floor_eq_iff]
    norm_num
  have hc : ⌈(21 / 2 : ℚ) / 1⌉ = 11 := by
    rw [Int.ceil_eq_iff]
    norm_num
  refine ⟨⟨by norm_num, ?_⟩, ?_, ?_, ?_⟩
  · show (0 : ℚ) < sample_consts.cutoff
    norm_num [sample_consts]
  · show to_int ((21 / 2 : ℚ) / sample_consts.cutoff) + 1 = 11
    have e : sample_consts.cutoff = 1 := rfl
    rw [e, hf]
    rfl
  · show to_int ((21 / 2 : ℚ) / sample_consts.cutoff) + 1 = 11
    have e : sample_consts.cutoff = 1 := rfl
    rw [e, hf]
    rfl
  · show ⌈(21 / 2 : ℚ) / sample_consts.cutoff⌉ + 1 = 12
    have e : sample_consts.cutoff = 1 := rfl
    rw [e, hc]
    rfl

/-- C18 as amended: for every domain size `> 0` and `cutoff > 0` (so that
`cell_size > 0`), `init_simulation` (each of the four variants) sets
`grid.nx = grid.ny = floor(size / cell_size) + 1`; this is at least
`ceil(size / cell_size)` and at most `ceil(size / cell_size) + 1`. -/
theorem grid_dimension_is_floor_plus_one (c : Consts α) (size : α) (num_parts : ℕ)
    (alloc : ℤ → serial_optimized_v2.cell_t) (alloc3 : ℤ → openmp_v3.cell_t)
    (lock_alloc : ℤ → Bool) (cell_size : α) (nx ny : ℤ)
    (hsize : 0 < size) (hcut : 0 < c.cutoff)
    (hg : (cell_size, nx, ny) = serial_optimized.geometry (serial_optimized.init_simulation c size)
      ∨ (cell_size, nx, ny) = openmp_critical.geometry (openmp_critical.init_simulation c size)
      ∨ (cell_size, nx, ny)
        = serial_optimized_v2.geometry (serial_optimized_v2.init_simulation c size alloc).1
      ∨ (cell_size, nx, ny)
        = openmp_v3.geometry (openmp_v3.init_simulation c num_parts size alloc3 lock_alloc).1) :
    0 < cell_size ∧ nx = ⌊size / cell_size⌋ + 1 ∧ ny = ⌊size / cell_size⌋ + 1
      ∧ ⌈size / cell_size⌉ ≤ nx ∧ nx ≤ ⌈size / cell_size⌉ + 1 := by
  obtain ⟨hle, hnx, hny⟩ :=
    init_geometry_cases c size num_parts alloc alloc3 lock_alloc cell_size nx ny hcut hg
  have hpos : 0 < cell_size := lt_of_lt_of_le hcut hle
  have hq : 0 ≤ size / cell_size := div_nonneg hsize.le hpos.le
  rw [to_int_of_nonneg hq] at hnx hny
  refine ⟨hpos, hnx, hny, ?_, ?_⟩
  · rw [hnx]
    exact Int.ceil_le_floor_add_one _
  · rw [hnx]
    have := Int.floor_le_ceil (size / cell_size)
    omega

/-- Witness of C18 as amended: `size = 10`, `cutoff = 1`, the grid of
serial_optimized.cpp. -/
theorem grid_dimension_is_floor_plus_one_witness :
    ((0 : ℚ) < 10 ∧ 0 < sample_consts.cutoff)
    ∧ 0 < (serial_optimized.init_simulation sample_consts 10).cell_size
    ∧ (serial_optimized.init_simulation sample_consts 10).nx
        = ⌊(10 : ℚ) / (serial_optimized.init_simulation sample_consts 10).cell_size⌋ + 1
    ∧ (serial_optimized.init_simulation sample_consts 10).ny
        = ⌊(10 : ℚ) / (serial_optimized.init_simulation sample_consts 10).cell_size⌋ + 1
    ∧ ⌈(10 : ℚ) / (serial_optimized.init_simulation sample_consts 10).cell_size⌉
        ≤ (serial_optimized.init_simulation sample_consts 10).nx
    ∧ (serial_optimized.init_simulation sample_consts 10).nx
        ≤ ⌈(10 : ℚ) / (serial_optimized.init_simulation sample_consts 10).cell_size⌉ + 1 :=
  ⟨⟨by norm_num, by norm_num [sample_consts]⟩,
    grid_dimension_is_floor_plus_one sample_consts 10 4 sample_alloc sample_alloc_v3 sample_locks
      _ _ _ (by norm_num) (by norm_num [sample_consts]) (Or.inl rfl)⟩

end dimensions

/-! ## The sign of the force -/

section repulsion

variable {α : Type} [LinearOrderedField α]

/-- With `0 < min_r <= cutoff`, `0 < mass` and a genuine square root, the pair
force is a non-positive multiple of the vector from the subject to the
neighbour. -/
theorem pair_force_repulsive (c : Consts α) (p q : particle_t α) (hcut : 0 < c.cutoff)
    (hmin : 0 < c.min_r) (hmass : 0 < c.mass) (hle : c.min_r ≤ c.cutoff)
    (hsqrt : ∀ v, 0 ≤ v → 0 ≤ c.sqrt v ∧ c.sqrt v * c.sqrt v = v) :
    ∃ coef : α, coef ≤ 0
      ∧ pair_force c p q = (coef * (q.x - p.x), coef * (q.y - p.y)) := by
  by_cases hd : (q.x - p.x) * (q.x - p.x) + (q.y - p.y) * (q.y - p.y) > c.cutoff * c.cutoff
  · exact ⟨0, le_refl _, by rw [pair_force_of_gt c p q hd]; simp⟩
  · refine ⟨spec_coef c (q.x - p.x) (q.y - p.y), ?_, pair_force_of_le c p q hd⟩
    have hd' : (q.x - p.x) ^ 2 + (q.y - p.y) ^ 2 ≤ c.cutoff ^ 2 := by
      simpa only [sq, not_lt, gt_iff_lt] using hd
    have hm2 : c.min_r ^ 2 ≤ c.cutoff ^ 2 := by nlinarith
    have hr2 : max ((q.x - p.x) ^ 2 + (q.y - p.y) ^ 2) (c.min_r ^ 2) ≤ c.cutoff ^ 2 :=
      max_le hd' hm2
    have hr2pos : 0 < max ((q.x - p.x) ^ 2 + (q.y - p.y) ^ 2) (c.min_r ^ 2) :=
      lt_of_lt_of_le (by positivity) (le_max_right _ _)
    obtain ⟨hs0, hs2⟩ := hsqrt _ hr2pos.le
    have hspos : 0 < c.sqrt (max ((q.x - p.x) ^ 2 + (q.y - p.y) ^ 2) (c.min_r ^ 2)) := by
      rcases lt_or_eq_of_le hs0 with h | h
      · exact h
      · rw [← h] at hs2
        simp only [mul_zero] at hs2
        linarith
    have hsle : c.sqrt (max ((q.x - p.x) ^ 2 + (q.y - p.y) ^ 2) (c.min_r ^ 2)) ≤ c.cutoff := by
      by_contra hgt
      push_neg at hgt
      nlinarith
    unfold spec_coef
    simp only []
    have h1 : 1 - c.cutoff
        / c.sqrt (max ((q.x - p.x) ^ 2 + (q.y - p.y) ^ 2) (c.min_r ^ 2)) ≤ 0 := by
      rw [sub_nonpos, le_div_iff₀ hspos]
      linarith
    exact div_nonpos_of_nonpos_of_nonneg (div_nonpos_of_nonpos_of_nonneg h1 hr2pos.le) hmass.le

theorem real_sqrt_four : Real.sqrt 4 = 2 := by
  rw [show (4 : ℝ) = 2 ^ 2 by norm_num]
  exact Real.sqrt_sq (by norm_num)

/-- Counterexample to C11 as stated, over the reals with the real square
root: `cutoff = 1`, `min_r = 2`, `mass = 1`, the subject at `(0, 0)` and the
neighbour at `(1/2, 0)`. The clamp raises `r2` to `min_r^2 = 4`, so `r = 2`
exceeds the cutoff, the coefficient is `1/8 > 0`, and the acceleration
`(1/16, 0)` added to the subject points towards the neighbour. -/
theorem clamp_above_cutoff_attracts :
    ((0 : ℝ) < (⟨1, 2, 1, 1 / 1000, Real.sqrt⟩ : Consts ℝ).cutoff
      ∧ (0 : ℝ) < (⟨1, 2, 1, 1 / 1000, Real.sqrt⟩ : Consts ℝ).min_r
      ∧ (0 : ℝ) < (⟨1, 2, 1, 1 / 1000, Real.sqrt⟩ : Consts ℝ).mass)
    ∧ spec_coef (⟨1, 2, 1, 1 / 1000, Real.sqrt⟩ : Consts ℝ) (1 / 2 - 0) (0 - 0) = 1 / 8
    ∧ (serial_optimized.apply_force (⟨1, 2, 1, 1 / 1000, Real.sqrt⟩ : Consts ℝ)
        (fun k => if k = 0 then ⟨0, 0, 0, 0, 0, 0⟩ else ⟨1 / 2, 0, 0, 0, 0, 0⟩) 0 1 0).ax = 1 / 16
    ∧ (serial_optimized.apply_force (⟨1, 2, 1, 1 / 1000, Real.sqrt⟩ : Consts ℝ)
        (fun k => if k = 0 then ⟨0, 0, 0, 0, 0, 0⟩ else ⟨1 / 2, 0, 0, 0, 0, 0⟩) 0 1 0).ay = 0
    ∧ (0 : ℝ) < (1 / 16) * (1 / 2 - 0) + 0 * (0 - 0) := by
  refine ⟨⟨by norm_num, by norm_num, by norm_num⟩, ?_, ?_, ?_, by norm_num⟩
  · simp only [spec_coef]
    rw [max_eq_right (by norm_num)]
    norm_num
    rw [real_sqrt_four]
    norm_num
  · rw [asym_apply_force_eq, pair_force_of_le _ _ _ (by norm_num)]
    simp only [Function.update_same, spec_coef]
    simp
    norm_num
    rw [real_sqrt_four]
    norm_num
  · rw [asym_apply_force_eq, pair_force_of_le _ _ _ (by norm_num)]
    simp

/-- C11 as amended: for all constants with `0 < min_r <= cutoff` and
`0 < mass` (the square root being the non-negative square root), the
acceleration that `apply_force(p, q)` adds to `p` is `(coef*dx, coef*dy)` for a
coefficient `coef <= 0`, so it has non-positive dot product with the vector
`(dx, dy)` from `p` to `q`: in the asymmetric kernels of serial_optimized.cpp
and openmp_critical.cpp and in the symmetric kernels of serial_optimized_v2.cpp
and openmp_v3.cpp, for every pair of references, aliased or not. -/
theorem kernel_never_attracts (c : Consts α) (parts : ℕ → particle_t α) (p q : ℕ)
    (hcut : 0 < c.cutoff) (hmin : 0 < c.min_r) (hmass : 0 < c.mass) (hle : c.min_r ≤ c.cutoff)
    (hsqrt : ∀ v, 0 ≤ v → 0 ≤ c.sqrt v ∧ c.sqrt v * c.sqrt v = v) :
    ∀ parts' : ℕ → particle_t α,
      parts' = serial_optimized.apply_force c parts p q
        ∨ parts' = openmp_critical.apply_force c parts p q
        ∨ parts' = serial_optimized_v2.apply_force c parts p q
        ∨ parts' = openmp_v3.apply_force c parts p q →
      (∃ coef : α, coef ≤ 0
          ∧ (parts' p).ax - (parts p).ax = coef * ((parts q).x - (parts p).x)
          ∧ (parts' p).ay - (parts p).ay = coef * ((parts q).y - (parts p).y))
        ∧ ((parts' p).ax - (parts p).ax) * ((parts q).x - (parts p).x)
            + ((parts' p).ay - (parts p).ay) * ((parts q).y - (parts p).y) ≤ 0 := by
  intro parts' hp
  obtain ⟨coef, hc, hpf⟩ := pair_force_repulsive c (parts p) (parts q) hcut hmin hmass hle hsqrt
  have key : (parts' p).ax - (parts p).ax = coef * ((parts q).x - (parts p).x)
      ∧ (parts' p).ay - (parts p).ay = coef * ((parts q).y - (parts p).y) := by
    have hsym : parts' = serial_optimized_v2.apply_force c parts p q →
        (parts' p).ax - (parts p).ax = coef * ((parts q).x - (parts p).x)
          ∧ (parts' p).ay - (parts p).ay = coef * ((parts q).y - (parts p).y) := by
      intro h
      by_cases hne : p = q
      · subst hne
        rw [h, sym_apply_force_eq, pair_force_self c (parts p) (parts p) rfl rfl]
        simp
      · rw [h, sym_apply_force_eq, hpf]
        simp [Function.update_noteq hne]
    rcases hp with h | h | h | h
    · rw [h, asym_apply_force_eq, hpf]
      simp
    · rw [h, critical_apply_force_eq, asym_apply_force_eq, hpf]
      simp
    · exact hsym h
    · exact hsym (h.trans (v3_apply_force_eq c parts p q))
  refine ⟨⟨coef, hc, key.1, key.2⟩, ?_⟩
  rw [key.1, key.2]
  nlinarith [sq_nonneg ((parts q).x - (parts p).x), sq_nonneg ((parts q).y - (parts p).y),
    mul_nonneg (neg_nonneg.mpr hc) (add_nonneg (sq_nonneg ((parts q).x - (parts p).x))
      (sq_nonneg ((parts q).y - (parts p).y)))]

/-- Witness of C11 as amended, over the reals with the real square root:
`cutoff = 1`, `min_r = 0.01`, `mass = 1`, particles at `(0, 0)` and `(1/2, 0)`. -/
theorem kernel_never_attracts_witness :
    ((0 : ℝ) < (⟨1, 1 / 100, 1, 1 / 1000, Real.sqrt⟩ : Consts ℝ).cutoff
      ∧ (0 : ℝ) < (⟨1, 1 / 100, 1, 1 / 1000, Real.sqrt⟩ : Consts ℝ).min_r
      ∧ (0 : ℝ) < (⟨1, 1 / 100, 1, 1 / 1000, Real.sqrt⟩ : Consts ℝ).mass
      ∧ (⟨1, 1 / 100, 1, 1 / 1000, Real.sqrt⟩ : Consts ℝ).min_r
          ≤ (⟨1, 1 / 100, 1, 1 / 1000, Real.sqrt⟩ : Consts ℝ).cutoff
      ∧ ∀ v : ℝ, 0 ≤ v →
          0 ≤ (⟨1, 1 / 100, 1, 1 / 1000, Real.sqrt⟩ : Consts ℝ).sqrt v
            ∧ (⟨1, 1 / 100, 1, 1 / 1000, Real.sqrt⟩ : Consts ℝ).sqrt v
                * (⟨1, 1 / 100, 1, 1 / 1000, Real.sqrt⟩ : Consts ℝ).sqrt v = v)
    ∧ ∀ parts' : ℕ → particle_t ℝ,
      parts' = serial_optimized.apply_force (⟨1, 1 / 100, 1, 1 / 1000, Real.sqrt⟩ : Consts ℝ)
            (fun k => if k = 0 then ⟨0, 0, 0, 0, 0, 0⟩ else ⟨1 / 2, 0, 0, 0, 0, 0⟩) 0 1
        ∨ parts' = openmp_critical.apply_force (⟨1, 1 / 100, 1, 1 / 1000, Real.sqrt⟩ : Consts ℝ)
            (fun k => if k = 0 then ⟨0, 0, 0, 0, 0, 0⟩ else ⟨1 / 2, 0, 0, 0, 0, 0⟩) 0 1
        ∨ parts' = serial_optimized_v2.apply_force
            (⟨1, 1 / 100, 1, 1 / 1000, Real.sqrt⟩ : Consts ℝ)
            (fun k => if k = 0 then ⟨0, 0, 0, 0, 0, 0⟩ else ⟨1 / 2, 0, 0, 0, 0, 0⟩) 0 1
        ∨ parts' = openmp_v3.apply_force
            (⟨1, 1 / 100, 1, 1 / 1000, Real.sqrt⟩ : Consts ℝ)
            (fun k => if k = 0 then ⟨0, 0, 0, 0, 0, 0⟩ else ⟨1 / 2, 0, 0, 0, 0, 0⟩) 0 1 →
      (∃ coef : ℝ, coef ≤ 0
          ∧ (parts' 0).ax
              - ((fun k => if k = 0 then ⟨0, 0, 0, 0, 0, 0⟩ else ⟨1 / 2, 0, 0, 0, 0, 0⟩ :
                  ℕ → particle_t ℝ) 0).ax
            = coef * (((fun k => if k = 0 then ⟨0, 0, 0, 0, 0, 0⟩ else ⟨1 / 2, 0, 0, 0, 0, 0⟩ :
                  ℕ → particle_t ℝ) 1).x
                - ((fun k => if k = 0 then ⟨0, 0, 0, 0, 0, 0⟩ else ⟨1 / 2, 0, 0, 0, 0, 0⟩ :
                  ℕ → particle_t ℝ) 0).x)
          ∧ (parts' 0).ay
              - ((fun k => if k = 0 then ⟨0, 0, 0, 0, 0, 0⟩ else ⟨1 / 2, 0, 0, 0, 0, 0⟩ :
                  ℕ → particle_t ℝ) 0).ay
            = coef * (((fun k => if k = 0 then ⟨0, 0, 0, 0, 0, 0⟩ else ⟨1 / 2, 0, 0, 0, 0, 0⟩ :
                  ℕ → particle_t ℝ) 1).y
                - ((fun k => if k = 0 then ⟨0, 0, 0, 0, 0, 0⟩ else ⟨1 / 2, 0, 0, 0, 0, 0⟩ :
                  ℕ → particle_t ℝ) 0).y))
        ∧ ((parts' 0).ax
              - ((fun k => if k = 0 then ⟨0, 0, 0, 0, 0, 0⟩ else ⟨1 / 2, 0, 0, 0, 0, 0⟩ :
                  ℕ → particle_t ℝ) 0).ax)
            * (((fun k => if k = 0 then ⟨0, 0, 0, 0, 0, 0⟩ else ⟨1 / 2, 0, 0, 0, 0, 0⟩ :
                  ℕ → particle_t ℝ) 1).x
                - ((fun k => if k = 0 then ⟨0, 0, 0, 0, 0, 0⟩ else ⟨1 / 2, 0, 0, 0, 0, 0⟩ :
                  ℕ → particle_t ℝ) 0).x)
          + ((parts' 0).ay
              - ((fun k => if k = 0 then ⟨0, 0, 0, 0, 0, 0⟩ else ⟨1 / 2, 0, 0, 0, 0, 0⟩ :
                  ℕ → particle_t ℝ) 0).ay)
            * (((fun k => if k = 0 then ⟨0, 0, 0, 0, 0, 0⟩ else ⟨1 / 2, 0, 0, 0, 0, 0⟩ :
                  ℕ → particle_t ℝ) 1).y
                - ((fun k => if k = 0 then ⟨0, 0, 0, 0, 0, 0⟩ else ⟨1 / 2, 0, 0, 0, 0, 0⟩ :
                  ℕ → particle_t ℝ) 0).y) ≤ 0 :=
  ⟨⟨by norm_num, by norm_num, by norm_num, by norm_num,
      fun v hv => ⟨Real.sqrt_nonneg v, Real.mul_self_sqrt hv⟩⟩,
    kernel_never_attracts (⟨1, 1 / 100, 1, 1 / 1000, Real.sqrt⟩ : Consts ℝ)
      (fun k => if k = 0 then ⟨0, 0, 0, 0, 0, 0⟩ else ⟨1 / 2, 0, 0, 0, 0, 0⟩) 0 1
      (by norm_num) (by norm_num) (by norm_num) (by norm_num)
      (fun v hv => ⟨Real.sqrt_nonneg v, Real.mul_self_sqrt hv⟩)⟩

end repulsion

/-! ## Self-pairs in the on-demand scan -/

section self_pairs

variable {α : Type} [LinearOrderedField α] [FloorRing α]

theorem asym_apply_force_self (c : Consts α) (ps : ℕ → particle_t α) (p : ℕ) :
    serial_optimized.apply_force c ps p p = ps := by
  rw [asym_apply_force_eq, pair_force_self c (ps p) (ps p) rfl rfl]
  simp

theorem sym_apply_force_self (c : Consts α) (ps : ℕ → particle_t α) (p : ℕ) :
    serial_optimized_v2.apply_force c ps p p = ps := by
  rw [sym_apply_force_eq, pair_force_self c (ps p) (ps p) rfl rfl]
  simp

/-- The ghost log of the force pass of serial_optimized.cpp: for each subject
in index order, the members of its 3x3 block. -/
theorem serial_optimized.force_pass_log (c : Consts α) (g : serial_optimized.grid_t α)
    (parts : ℕ → particle_t α) (n : ℕ) :
    (serial_optimized.force_pass c g parts n).2.calls
      = (List.range n).flatMap fun i =>
          (serial_optimized.block_members g parts n (parts i)).map fun k => (i, k) := by
  unfold serial_optimized.force_pass
  simp only []
  obtain ⟨h, _⟩ := serial_optimized.compute_forces_spec c
    (serial_optimized.populate (serial_optimized.reset_cells g) parts n) ⟨parts, []⟩ n
  rw [h]
  simp only [List.nil_append, serial_optimized.visited_populated]

theorem serial_optimized.nodup_force_pass_log (c : Consts α) (g : serial_optimized.grid_t α)
    (parts : ℕ → particle_t α) (n : ℕ) :
    (serial_optimized.force_pass c g parts n).2.calls.Nodup := by
  rw [serial_optimized.force_pass_log]
  apply nodup_flatMap_of_sep
  · exact List.nodup_range n
  · intro i _
    exact (serial_optimized.nodup_block_members g parts n (parts i)).map
      (fun a b h => (Prod.mk.inj h).2)
  · intro a _ b _ j hja hjb
    rw [List.mem_map] at hja hjb
    obtain ⟨k, _, hk⟩ := hja
    obtain ⟨k', _, hk'⟩ := hjb
    rw [← hk'] at hk
    exact (Prod.mk.inj hk).1

/-- In the force pass of serial_optimized.cpp a particle of the domain is
among the neighbours its own scan visits. -/
theorem serial_optimized.self_call_mem (c : Consts α) (size : α)
    (g : serial_optimized.grid_t α) (parts : ℕ → particle_t α) (n i : ℕ) (hcut : 0 < c.cutoff)
    (hcs : g.cell_size = (serial_optimized.init_simulation c size).cell_size)
    (hnx : g.nx = (serial_optimized.init_simulation c size).nx)
    (hny : g.ny = (serial_optimized.init_simulation c size).ny)
    (hi : i < n) (hx : 0 ≤ (parts i).x ∧ (parts i).x ≤ size)
    (hy : 0 ≤ (parts i).y ∧ (parts i).y ≤ size) :
    (i, i) ∈ (serial_optimized.force_pass c g parts n).2.calls := by
  rw [serial_optimized.force_pass_log, List.mem_flatMap]
  refine ⟨i, List.mem_range.mpr hi, List.mem_map.mpr ⟨i, ?_, rfl⟩⟩
  refine serial_optimized.within_cutoff_mem_block c size g parts n (parts i) i hcut hcs hnx hny
    hi hx hy hx hy ?_
  simp only [sub_self, mul_zero, add_zero, gt_iff_lt, not_lt]
  exact (mul_pos hcut hcut).le

theorem openmp_critical.to_serial_reset (g : openmp_critical.grid_t α) :
    openmp_critical.to_serial (openmp_critical.reset_cells g)
      = serial_optimized.reset_cells (openmp_critical.to_serial g) := by
  unfold openmp_critical.reset_cells serial_optimized.reset_cells
  show openmp_critical.to_serial (List.foldl _ g (List.range (g.nx * g.ny).toNat))
    = List.foldl _ (openmp_critical.to_serial g) (List.range (g.nx * g.ny).toNat)
  generalize List.range (g.nx * g.ny).toNat = L
  induction L generalizing g with
  | nil => rfl
  | cons a L ih =>
    simp only [List.foldl_cons]
    rw [ih]
    congr 1
    unfold openmp_critical.to_serial
    simp only [serial_optimized.grid_t.mk.injEq, and_true]
    funext k
    by_cases hk : k = (a : ℤ)
    · subst hk
      simp
    · simp [Function.update_noteq hk]

theorem openmp_critical.to_serial_add (g : openmp_critical.grid_t α) (i : ℕ)
    (p : particle_t α) :
    openmp_critical.to_serial (openmp_critical.add_to_cell g i p)
      = serial_optimized.add_to_cell (openmp_critical.to_serial g) i p := by
  unfold openmp_critical.add_to_cell serial_optimized.add_to_cell openmp_critical.to_serial
  simp only [serial_optimized.grid_t.mk.injEq, and_true]
  funext k
  by_cases hk : k = to_int (p.y / g.cell_size) * g.nx + to_int (p.x / g.cell_size)
  · subst hk
    simp
  · simp [Function.update_noteq hk]

theorem openmp_critical.to_serial_populate (g : openmp_critical.grid_t α)
    (parts : ℕ → particle_t α) (n : ℕ) :
    openmp_critical.to_serial (openmp_critical.populate g parts n)
      = serial_optimized.populate (openmp_critical.to_serial g) parts n := by
  unfold openmp_critical.populate serial_optimized.populate
  generalize List.range n = L
  induction L generalizing g with
  | nil => rfl
  | cons a L ih =>
    simp only [List.foldl_cons]
    rw [ih, openmp_critical.to_serial_add]

theorem openmp_critical.compute_forces_eq (c : Consts α) (g : openmp_critical.grid_t α)
    (s : traced α) (n : ℕ) :
    openmp_critical.compute_forces c g s n
      = serial_optimized.compute_forces c (openmp_critical.to_serial g) s n := rfl

/-- Run by one thread in index order, the first three loops of
`simulate_one_step` of openmp_critical.cpp produce the grid, the particle
array and the ghost log of those of serial_optimized.cpp. -/
theorem openmp_critical.force_pass_eq (c : Consts α) (g : openmp_critical.grid_t α)
    (parts : ℕ → particle_t α) (n : ℕ) :
    openmp_critical.to_serial (openmp_critical.force_pass c g parts n).1
        = (serial_optimized.force_pass c (openmp_critical.to_serial g) parts n).1
      ∧ (openmp_critical.force_pass c g parts n).2
        = (serial_optimized.force_pass c (openmp_critical.to_serial g) parts n).2 := by
  unfold openmp_critical.force_pass serial_optimized.force_pass
  simp only []
  rw [openmp_critical.compute_forces_eq, openmp_critical.to_serial_populate,
    openmp_critical.to_serial_reset]
  exact ⟨rfl, rfl⟩


/-- Counterexample to C17 as stated: with `cutoff = 1` in a domain of size
`10`, the two particles `(0, 0)` and `(1/2, 0)` lie in cell 0; the scan of
particle 0 goes through its own cell, whose entries are 0 and 1, and so calls
`apply_force(parts[0], parts[0])`, in serial_optimized.cpp and in
openmp_critical.cpp alike. -/
theorem on_demand_scan_calls_self_pair :
    ((0, 0) ∈ (serial_optimized.force_pass sample_consts
        (serial_optimized.init_simulation sample_consts 10) sample_near 2).2.calls
      ∧ (0, 0) ∈ (openmp_critical.force_pass sample_consts
        (openmp_critical.init_simulation sample_consts 10) sample_near 2).2.calls)
    ∧ ¬ (∀ e ∈ (serial_optimized.force_pass sample_consts
        (serial_optimized.init_simulation sample_consts 10) sample_near 2).2.calls, e.1 ≠ e.2) := by
  have h1 : ((0 : ℕ), (0 : ℕ)) ∈ (serial_optimized.force_pass sample_consts
      (serial_optimized.init_simulation sample_consts 10) sample_near 2).2.calls :=
    serial_optimized.self_call_mem sample_consts 10
      (serial_optimized.init_simulation sample_consts 10) sample_near 2 0
      (by norm_num [sample_consts]) rfl rfl rfl (by decide) (sample_near_in_domain 0 (by decide)).1
      (sample_near_in_domain 0 (by decide)).2
  refine ⟨⟨h1, ?_⟩, fun h => h (0, 0) h1 rfl⟩
  rw [(openmp_critical.force_pass_eq sample_consts
    (openmp_critical.init_simulation sample_consts 10) sample_near 2).2]
  exact serial_optimized.self_call_mem sample_consts 10 _ sample_near 2 0
    (by norm_num [sample_consts]) rfl rfl rfl (by decide) (sample_near_in_domain 0 (by decide)).1
    (sample_near_in_domain 0 (by decide)).2

/-- C17 as amended: for every particle list with positions in the domain, the
per-particle 3x3 force loop of `simulate_one_step` in serial_optimized.cpp
(and in openmp_critical.cpp, its loops run in index order) calls `apply_force`
with each particle `i` as both subject and neighbour exactly once, because the
scan goes through the particle's own cell without excluding its own entry;
that call leaves the particle array unchanged. -/
theorem on_demand_scan_calls_self_once (c : Consts α) (size : α) (parts : ℕ → particle_t α)
    (num_parts i : ℕ) (hsize : 0 < size) (hcut : 0 < c.cutoff)
    (hdom : ∀ k, k < num_parts → (0 ≤ (parts k).x ∧ (parts k).x ≤ size)
      ∧ (0 ≤ (parts k).y ∧ (parts k).y ≤ size))
    (hi : i < num_parts) :
    (List.count (i, i) (serial_optimized.force_pass c
          (serial_optimized.init_simulation c size) parts num_parts).2.calls = 1
      ∧ List.count (i, i) (openmp_critical.force_pass c
          (openmp_critical.init_simulation c size) parts num_parts).2.calls = 1)
    ∧ ∀ ps : ℕ → particle_t α,
        serial_optimized.apply_force c ps i i = ps
          ∧ openmp_critical.apply_force c ps i i = ps := by
  have hsize' := hsize
  refine ⟨⟨?_, ?_⟩, fun ps => ⟨asym_apply_force_self c ps i, ?_⟩⟩
  · rw [count_of_nodup _ (serial_optimized.nodup_force_pass_log c _ parts num_parts),
      if_pos (serial_optimized.self_call_mem c size _ parts num_parts i hcut rfl rfl rfl hi
        (hdom i hi).1 (hdom i hi).2)]
  · rw [(openmp_critical.force_pass_eq c (openmp_critical.init_simulation c size) parts
        num_parts).2,
      count_of_nodup _ (serial_optimized.nodup_force_pass_log c _ parts num_parts),
      if_pos (serial_optimized.self_call_mem c size
        (openmp_critical.to_serial (openmp_critical.init_simulation c size)) parts num_parts i
        hcut rfl rfl rfl hi (hdom i hi).1 (hdom i hi).2)]
  · rw [critical_apply_force_eq]
    exact asym_apply_force_self c ps i

/-- Witness of C17 as amended: the two particles `(0, 0)` and `(1/2, 0)` in a
domain of size `10` with `cutoff = 1`, for the particle 1. -/
theorem on_demand_scan_calls_self_once_witness :
    ((0 : ℚ) < 10 ∧ 0 < sample_consts.cutoff
      ∧ (∀ k, k < 2 → (0 ≤ (sample_near k).x ∧ (sample_near k).x ≤ 10)
          ∧ (0 ≤ (sample_near k).y ∧ (sample_near k).y ≤ 10))
      ∧ 1 < 2)
    ∧ (List.count (1, 1) (serial_optimized.force_pass sample_consts
          (serial_optimized.init_simulation sample_consts 10) sample_near 2).2.calls = 1
      ∧ List.count (1, 1) (openmp_critical.force_pass sample_consts
          (openmp_critical.init_simulation sample_consts 10) sample_near 2).2.calls = 1)
    ∧ ∀ ps : ℕ → particle_t ℚ,
        serial_optimized.apply_force sample_consts ps 1 1 = ps
          ∧ openmp_critical.apply_force sample_consts ps 1 1 = ps :=
  ⟨⟨by norm_num, by norm_num [sample_consts], sample_near_in_domain, by decide⟩,
    on_demand_scan_calls_self_once sample_consts 10 sample_near 2 1 (by norm_num)
      (by norm_num [sample_consts]) sample_near_in_domain (by decide)⟩

/-- C20 (a self-pair contributes nothing). For all strictly positive `cutoff`,
`min_r` and `mass`, a call of the kernel with the same particle as both
arguments leaves the particle array, and so the acceleration of that particle,
unchanged: in the asymmetric kernel of serial_optimized.cpp and in the
symmetric kernel of serial_optimized_v2.cpp with both references aliased.
Consequently, for particles in the domain, the acceleration that the force
pass of serial_optimized.cpp computes for the particle `i`, whose scan visits
its own entry, is the sum of the contributions of the other particles only. -/
theorem self_pair_contributes_nothing (c : Consts α) (size : α) (parts : ℕ → particle_t α)
    (num_parts i : ℕ) (hsize : 0 < size) (hcut : 0 < c.cutoff) (hmin : 0 < c.min_r)
    (hmass : 0 < c.mass)
    (hdom : ∀ k, k < num_parts → (0 ≤ (parts k).x ∧ (parts k).x ≤ size)
      ∧ (0 ≤ (parts k).y ∧ (parts k).y ≤ size))
    (hi : i < num_parts) :
    (∀ (ps : ℕ → particle_t α) (p : ℕ), serial_optimized.apply_force c ps p p = ps)
    ∧ (∀ (ps : ℕ → particle_t α) (p : ℕ), serial_optimized_v2.apply_force c ps p p = ps)
    ∧ ((serial_optimized.force_pass c (serial_optimized.init_simulation c size) parts
          num_parts).2.parts i).ax
        = ∑ j in (Finset.range num_parts).erase i, (contribution c (parts i) (parts j)).1
    ∧ ((serial_optimized.force_pass c (serial_optimized.init_simulation c size) parts
          num_parts).2.parts i).ay
        = ∑ j in (Finset.range num_parts).erase i, (contribution c (parts i) (parts j)).2 := by
  have hsize' := hsize
  have hmin' := hmin
  have hmass' := hmass
  obtain ⟨h1, h2⟩ := serial_optimized.force_pass_eq_sum c size
    (serial_optimized.init_simulation c size) parts num_parts i hcut rfl rfl rfl hdom hi
  refine ⟨asym_apply_force_self c, sym_apply_force_self c, ?_, ?_⟩
  · rw [h1]
    simp only [serial_optimized.contribution_eq_pair_force]
    refine (Finset.sum_erase _ ?_).symm
    rw [pair_force_self c (parts i) (parts i) rfl rfl]
  · rw [h2]
    simp only [serial_optimized.contribution_eq_pair_force]
    refine (Finset.sum_erase _ ?_).symm
    rw [pair_force_self c (parts i) (parts i) rfl rfl]

/-- Witness of C20: the two particles `(0, 0)` and `(1/2, 0)` in a domain of
size `10` with `cutoff = 1`, `min_r = 1/100` and `mass = 1`. -/
theorem self_pair_contributes_nothing_witness :
    ((0 : ℚ) < 10 ∧ 0 < sample_consts.cutoff ∧ 0 < sample_consts.min_r
      ∧ 0 < sample_consts.mass
      ∧ (∀ k, k < 2 → (0 ≤ (sample_near k).x ∧ (sample_near k).x ≤ 10)
          ∧ (0 ≤ (sample_near k).y ∧ (sample_near k).y ≤ 10))
      ∧ 0 < 2)
    ∧ (∀ (ps : ℕ → particle_t ℚ) (p : ℕ), serial_optimized.apply_force sample_consts ps p p = ps)
    ∧ (∀ (ps : ℕ → particle_t ℚ) (p : ℕ),
        serial_optimized_v2.apply_force sample_consts ps p p = ps)
    ∧ ((serial_optimized.force_pass sample_consts
          (serial_optimized.init_simulation sample_consts 10) sample_near 2).2.parts 0).ax
        = ∑ j in (Finset.range 2).erase 0, (contribution sample_consts (sample_near 0)
            (sample_near j)).1
    ∧ ((serial_optimized.force_pass sample_consts
          (serial_optimized.init_simulation sample_consts 10) sample_near 2).2.parts 0).ay
        = ∑ j in (Finset.range 2).erase 0, (contribution sample_consts (sample_near 0)
            (sample_near j)).2 :=
  ⟨⟨by norm_num, by norm_num [sample_consts], by norm_num [sample_consts],
      by norm_num [sample_consts], sample_near_in_domain, by decide⟩,
    self_pair_contributes_nothing sample_consts 10 sample_near 2 0 (by norm_num)
      (by norm_num [sample_consts]) (by norm_num [sample_consts]) (by norm_num [sample_consts])
      sample_near_in_domain (by decide)⟩

end self_pairs

/-! ## Capacity overflow in the fixed-capacity grids -/

section overflow

variable {α : Type} [LinearOrderedField α] [FloorRing α]

/-- The two outcomes of `add_to_cell` of serial_optimized_v2.cpp. -/
theorem serial_optimized_v2.fixed_add_to_cell_cases (g : serial_optimized_v2.grid_t α) (pid : ℕ)
    (p : particle_t α) :
    ((g.cells (serial_optimized_v2.cell_of g p)).size < serial_optimized_v2.MAX_PER_CELL
      ∧ (serial_optimized_v2.add_to_cell g pid p).cells
        = Function.update g.cells (serial_optimized_v2.cell_of g p)
            ⟨Function.update (g.cells (serial_optimized_v2.cell_of g p)).particles
                (g.cells (serial_optimized_v2.cell_of g p)).size pid,
              (g.cells (serial_optimized_v2.cell_of g p)).size + 1⟩)
    ∨ (¬ (g.cells (serial_optimized_v2.cell_of g p)).size < serial_optimized_v2.MAX_PER_CELL
      ∧ serial_optimized_v2.add_to_cell g pid p = g) := by
  unfold serial_optimized_v2.add_to_cell serial_optimized_v2.cell_of
  simp only []
  split_ifs with h
  · exact Or.inl ⟨h, rfl⟩
  · exact Or.inr ⟨h, rfl⟩

/-- The two outcomes of `add_to_cell` of openmp_v3.cpp; the lock of the target
cell is released in both. -/
theorem openmp_v3.locked_add_to_cell_cases (g : openmp_v3.grid_t α) (pid : ℕ) (p : particle_t α) :
    ((g.cells (openmp_v3.cell_of g p)).size < openmp_v3.MAX_PER_CELL
      ∧ (openmp_v3.add_to_cell g pid p).cells
        = Function.update g.cells (openmp_v3.cell_of g p)
            ⟨Function.update (g.cells (openmp_v3.cell_of g p)).particles
                (g.cells (openmp_v3.cell_of g p)).size pid,
              (g.cells (openmp_v3.cell_of g p)).size + 1⟩)
    ∨ (¬ (g.cells (openmp_v3.cell_of g p)).size < openmp_v3.MAX_PER_CELL
      ∧ (openmp_v3.add_to_cell g pid p).cells = g.cells) := by
  unfold openmp_v3.add_to_cell openmp_v3.cell_of
  simp only []
  split_ifs with h
  · exact Or.inl ⟨h, rfl⟩
  · exact Or.inr ⟨h, rfl⟩

theorem openmp_v3.add_to_cell_frame (g : openmp_v3.grid_t α) (pid : ℕ) (p : particle_t α) :
    (openmp_v3.add_to_cell g pid p).nx = g.nx ∧ (openmp_v3.add_to_cell g pid p).ny = g.ny
      ∧ (openmp_v3.add_to_cell g pid p).cell_size = g.cell_size
      ∧ (openmp_v3.add_to_cell g pid p).locks
          = Function.update g.locks (openmp_v3.cell_of g p) false := by
  unfold openmp_v3.add_to_cell openmp_v3.cell_of
  simp only []
  split_ifs with h <;> simp

theorem serial_optimized_v2.fixed_live_store (P : ℕ → ℕ) (s pid : ℕ) :
    serial_optimized_v2.live ⟨Function.update P s pid, s + 1⟩
      = serial_optimized_v2.live ⟨P, s⟩ ++ [pid] := by
  simp only [serial_optimized_v2.live]
  rw [List.range_succ, List.map_append]
  simp only [List.map_cons, List.map_nil, Function.update_same]
  congr 1
  apply List.map_congr_left
  intro j hj
  rw [List.mem_range] at hj
  exact Function.update_noteq (by omega) _ _

theorem openmp_v3.locked_live_store (P : ℕ → ℕ) (s pid : ℕ) :
    openmp_v3.live ⟨Function.update P s pid, s + 1⟩ = openmp_v3.live ⟨P, s⟩ ++ [pid] := by
  simp only [openmp_v3.live]
  rw [List.range_succ, List.map_append]
  simp only [List.map_cons, List.map_nil, Function.update_same]
  congr 1
  apply List.map_congr_left
  intro j hj
  rw [List.mem_range] at hj
  exact Function.update_noteq (by omega) _ _

/-- An insertion leaves each live prefix as it was or appends the inserted
index to it (serial_optimized_v2.cpp). -/
theorem serial_optimized_v2.fixed_add_to_cell_live_cases (g : serial_optimized_v2.grid_t α) (pid : ℕ)
    (p : particle_t α) (k : ℤ) :
    serial_optimized_v2.live ((serial_optimized_v2.add_to_cell g pid p).cells k)
        = serial_optimized_v2.live (g.cells k)
      ∨ serial_optimized_v2.live ((serial_optimized_v2.add_to_cell g pid p).cells k)
        = serial_optimized_v2.live (g.cells k) ++ [pid] := by
  rcases serial_optimized_v2.fixed_add_to_cell_cases g pid p with ⟨_, h⟩ | ⟨_, h⟩
  · rw [h]
    by_cases hk : k = serial_optimized_v2.cell_of g p
    · right
      rw [hk, Function.update_same]
      exact serial_optimized_v2.fixed_live_store _ _ _
    · left
      rw [Function.update_noteq hk]
  · left
    rw [h]

/-- An insertion leaves each live prefix as it was or appends the inserted
index to it (openmp_v3.cpp). -/
theorem openmp_v3.locked_add_to_cell_live_cases (g : openmp_v3.grid_t α) (pid : ℕ)
    (p : particle_t α) (k : ℤ) :
    openmp_v3.live ((openmp_v3.add_to_cell g pid p).cells k) = openmp_v3.live (g.cells k)
      ∨ openmp_v3.live ((openmp_v3.add_to_cell g pid p).cells k)
        = openmp_v3.live (g.cells k) ++ [pid] := by
  rcases openmp_v3.locked_add_to_cell_cases g pid p with ⟨_, h⟩ | ⟨_, h⟩
  · rw [h]
    by_cases hk : k = openmp_v3.cell_of g p
    · right
      rw [hk, Function.update_same]
      exact openmp_v3.locked_live_store _ _ _
    · left
      rw [Function.update_noteq hk]
  · left
    rw [h]

theorem openmp_v3.locked_reset_fold_cells (L : List ℕ) (g : openmp_v3.grid_t α) (k : ℤ) :
    (L.foldl (fun g (i : ℕ) =>
        { g with cells := Function.update g.cells (i : ℤ) { g.cells (i : ℤ) with size := 0 } })
      g).cells k
      = if ∃ i ∈ L, (i : ℤ) = k then { g.cells k with size := 0 } else g.cells k := by
  induction L generalizing g with
  | nil => simp
  | cons a L ih =>
    simp only [List.foldl_cons]
    rw [ih]
    by_cases ha : (a : ℤ) = k
    · subst ha
      by_cases hL : ∃ i ∈ L, (i : ℤ) = (a : ℤ)
      · simp [hL]
      · simp [hL]
    · have hk : k ≠ (a : ℤ) := fun e => ha e.symm
      by_cases hL : ∃ i ∈ L, (i : ℤ) = k
      · have : ∃ i ∈ a :: L, (i : ℤ) = k := by
          obtain ⟨i, hi, e⟩ := hL
          exact ⟨i, List.mem_cons_of_mem _ hi, e⟩
        simp only [if_pos hL, if_pos this, Function.update_noteq hk]
      · have : ¬ ∃ i ∈ a :: L, (i : ℤ) = k := by
          rintro ⟨i, hi, e⟩
          rcases List.mem_cons.mp hi with h | h
          · subst h; exact ha e
          · exact hL ⟨i, h, e⟩
        simp only [if_neg hL, if_neg this, Function.update_noteq hk]

theorem openmp_v3.locked_reset_cells_cells (g : openmp_v3.grid_t α) (k : ℤ) :
    (openmp_v3.reset_cells g).cells k
      = if 0 ≤ k ∧ k < g.nx * g.ny then { g.cells k with size := 0 } else g.cells k := by
  unfold openmp_v3.reset_cells
  rw [openmp_v3.locked_reset_fold_cells]
  simp only [serial_optimized.exists_mem_range_cast]

theorem openmp_v3.locked_populate_succ (g : openmp_v3.grid_t α) (parts : ℕ → particle_t α) (n : ℕ) :
    openmp_v3.populate g parts (n + 1)
      = openmp_v3.add_to_cell (openmp_v3.populate g parts n) n (parts n) := by
  unfold openmp_v3.populate
  rw [List.range_succ, List.foldl_append]
  rfl

/-- In the population loop of serial_optimized_v2.cpp, a particle whose target
cell is full at its insertion is in no live prefix of the grid afterwards. -/
theorem serial_optimized_v2.fixed_dropped_not_recorded (g : serial_optimized_v2.grid_t α)
    (parts : ℕ → particle_t α) (i : ℕ)
    (hfull : ((serial_optimized_v2.populate (serial_optimized_v2.reset_cells g) parts i).cells
        (serial_optimized_v2.cell_of
          (serial_optimized_v2.populate (serial_optimized_v2.reset_cells g) parts i)
          (parts i))).size = serial_optimized_v2.MAX_PER_CELL)
    (n : ℕ) (k : ℤ) (hk : 0 ≤ k ∧ k < g.nx * g.ny) :
    ∀ x ∈ serial_optimized_v2.live
        ((serial_optimized_v2.populate (serial_optimized_v2.reset_cells g) parts n).cells k),
      x < n ∧ x ≠ i := by
  induction n with
  | zero =>
    intro x hx
    have : (serial_optimized_v2.populate (serial_optimized_v2.reset_cells g) parts 0).cells k
        = { g.cells k with size := 0 } := by
      show (serial_optimized_v2.reset_cells g).cells k = _
      rw [serial_optimized_v2.fixed_reset_cells_cells, if_pos hk]
    rw [this] at hx
    simp [serial_optimized_v2.live] at hx
  | succ m ih =>
    intro x hx
    rw [serial_optimized_v2.fixed_populate_succ] at hx
    by_cases hmi : m = i
    · subst hmi
      rw [serial_optimized_v2.add_to_cell_full _ _ _ (by rw [hfull]; exact lt_irrefl _)] at hx
      obtain ⟨h1, h2⟩ := ih x hx
      exact ⟨by omega, h2⟩
    · rcases serial_optimized_v2.fixed_add_to_cell_live_cases
        (serial_optimized_v2.populate (serial_optimized_v2.reset_cells g) parts m) m (parts m) k
        with h | h
      · rw [h] at hx
        obtain ⟨h1, h2⟩ := ih x hx
        exact ⟨by omega, h2⟩
      · rw [h, List.mem_append] at hx
        rcases hx with hx | hx
        · obtain ⟨h1, h2⟩ := ih x hx
          exact ⟨by omega, h2⟩
        · rw [List.mem_singleton] at hx
          subst hx
          exact ⟨by omega, hmi⟩

/-- In the population loop of openmp_v3.cpp, a particle whose target cell is
full at its insertion is in no live prefix of the grid afterwards. -/
theorem openmp_v3.locked_dropped_not_recorded (g : openmp_v3.grid_t α)
    (parts : ℕ → particle_t α) (i : ℕ)
    (hfull : ((openmp_v3.populate (openmp_v3.reset_cells g) parts i).cells
        (openmp_v3.cell_of (openmp_v3.populate (openmp_v3.reset_cells g) parts i)
          (parts i))).size = openmp_v3.MAX_PER_CELL)
    (n : ℕ) (k : ℤ) (hk : 0 ≤ k ∧ k < g.nx * g.ny) :
    ∀ x ∈ openmp_v3.live ((openmp_v3.populate (openmp_v3.reset_cells g) parts n).cells k),
      x < n ∧ x ≠ i := by
  induction n with
  | zero =>
    intro x hx
    have : (openmp_v3.populate (openmp_v3.reset_cells g) parts 0).cells k
        = { g.cells k with size := 0 } := by
      show (openmp_v3.reset_cells g).cells k = _
      rw [openmp_v3.locked_reset_cells_cells, if_pos hk]
    rw [this] at hx
    simp [openmp_v3.live] at hx
  | succ m ih =>
    intro x hx
    rw [openmp_v3.locked_populate_succ] at hx
    by_cases hmi : m = i
    · subst hmi
      rcases openmp_v3.locked_add_to_cell_cases
        (openmp_v3.populate (openmp_v3.reset_cells g) parts m) m (parts m) with ⟨h, _⟩ | ⟨_, h⟩
      · rw [hfull] at h
        exact absurd h (lt_irrefl _)
      · rw [h] at hx
        obtain ⟨h1, h2⟩ := ih x hx
        exact ⟨by omega, h2⟩
    · rcases openmp_v3.locked_add_to_cell_live_cases
        (openmp_v3.populate (openmp_v3.reset_cells g) parts m) m (parts m) k with h | h
      · rw [h] at hx
        obtain ⟨h1, h2⟩ := ih x hx
        exact ⟨by omega, h2⟩
      · rw [h, List.mem_append] at hx
        rcases hx with hx | hx
        · obtain ⟨h1, h2⟩ := ih x hx
          exact ⟨by omega, h2⟩
        · rw [List.mem_singleton] at hx
          subst hx
          exact ⟨by omega, hmi⟩


/-- C16 (capacity overflow silently drops the particle). In the fixed-capacity
variants (serial_optimized_v2.cpp with `MAX_PER_CELL = 8`, openmp_v3.cpp with
`MAX_PER_CELL = 24`), on a grid whose live counts are within the capacity:
`add_to_cell` on a particle whose target cell holds `MAX_PER_CELL` indices
leaves every cell unchanged (the whole grid in serial_optimized_v2.cpp; in
openmp_v3.cpp the cells, and the whole grid when the lock was free), and the
function has no other result by which it could signal; in every other case it
stores the index at position `size` of the target cell, increments that `size`
by one and leaves the other cells unchanged. Consequently every live count is
within the capacity after the insertion, and in the population loop of
`simulate_one_step` a particle whose target cell is full at its insertion is
in the live prefix of no cell of the grid at the end of the loop. -/
theorem capacity_overflow_drops_particle (g2 : serial_optimized_v2.grid_t α)
    (g3 : openmp_v3.grid_t α) (pid : ℕ) (p : particle_t α)
    (hinv2 : ∀ k, (g2.cells k).size ≤ serial_optimized_v2.MAX_PER_CELL)
    (hinv3 : ∀ k, (g3.cells k).size ≤ openmp_v3.MAX_PER_CELL) :
    (serial_optimized_v2.MAX_PER_CELL = 8 ∧ openmp_v3.MAX_PER_CELL = 24)
    ∧ (((g2.cells (serial_optimized_v2.cell_of g2 p)).size = serial_optimized_v2.MAX_PER_CELL →
          serial_optimized_v2.add_to_cell g2 pid p = g2)
      ∧ ((g2.cells (serial_optimized_v2.cell_of g2 p)).size ≠ serial_optimized_v2.MAX_PER_CELL →
          (serial_optimized_v2.add_to_cell g2 pid p).cells (serial_optimized_v2.cell_of g2 p)
              = ⟨Function.update (g2.cells (serial_optimized_v2.cell_of g2 p)).particles
                    (g2.cells (serial_optimized_v2.cell_of g2 p)).size pid,
                  (g2.cells (serial_optimized_v2.cell_of g2 p)).size + 1⟩
            ∧ ∀ k, k ≠ serial_optimized_v2.cell_of g2 p →
                (serial_optimized_v2.add_to_cell g2 pid p).cells k = g2.cells k)
      ∧ (∀ k, ((serial_optimized_v2.add_to_cell g2 pid p).cells k).size
          ≤ serial_optimized_v2.MAX_PER_CELL)
      ∧ ∀ (parts : ℕ → particle_t α) (n : ℕ),
          ((serial_optimized_v2.populate (serial_optimized_v2.reset_cells g2) parts pid).cells
            (serial_optimized_v2.cell_of
              (serial_optimized_v2.populate (serial_optimized_v2.reset_cells g2) parts pid)
              (parts pid))).size = serial_optimized_v2.MAX_PER_CELL →
          ∀ k, 0 ≤ k ∧ k < g2.nx * g2.ny →
            pid ∉ serial_optimized_v2.live
              ((serial_optimized_v2.populate (serial_optimized_v2.reset_cells g2) parts n).cells
                k))
    ∧ (((g3.cells (openmp_v3.cell_of g3 p)).size = openmp_v3.MAX_PER_CELL →
          (openmp_v3.add_to_cell g3 pid p).cells = g3.cells
            ∧ (g3.locks (openmp_v3.cell_of g3 p) = false → openmp_v3.add_to_cell g3 pid p = g3))
      ∧ ((g3.cells (openmp_v3.cell_of g3 p)).size ≠ openmp_v3.MAX_PER_CELL →
          (openmp_v3.add_to_cell g3 pid p).cells (openmp_v3.cell_of g3 p)
              = ⟨Function.update (g3.cells (openmp_v3.cell_of g3 p)).particles
                    (g3.cells (openmp_v3.cell_of g3 p)).size pid,
                  (g3.cells (openmp_v3.cell_of g3 p)).size + 1⟩
            ∧ ∀ k, k ≠ openmp_v3.cell_of g3 p →
                (openmp_v3.add_to_cell g3 pid p).cells k = g3.cells k)
      ∧ (∀ k, ((openmp_v3.add_to_cell g3 pid p).cells k).size ≤ openmp_v3.MAX_PER_CELL)
      ∧ ∀ (parts : ℕ → particle_t α) (n : ℕ),
          ((openmp_v3.populate (openmp_v3.reset_cells g3) parts pid).cells
            (openmp_v3.cell_of (openmp_v3.populate (openmp_v3.reset_cells g3) parts pid)
              (parts pid))).size = openmp_v3.MAX_PER_CELL →
          ∀ k, 0 ≤ k ∧ k < g3.nx * g3.ny →
            pid ∉ openmp_v3.live
              ((openmp_v3.populate (openmp_v3.reset_cells g3) parts n).cells k)) := by
  refine ⟨⟨rfl, rfl⟩, ⟨?_, ?_, ?_, ?_⟩, ⟨?_, ?_, ?_, ?_⟩⟩
  · intro h
    exact serial_optimized_v2.add_to_cell_full g2 pid p (by rw [h]; exact lt_irrefl _)
  · intro h
    rcases serial_optimized_v2.fixed_add_to_cell_cases g2 pid p with ⟨_, e⟩ | ⟨hn, _⟩
    · rw [e]
      exact ⟨Function.update_same _ _ _, fun k hk => Function.update_noteq hk _ _⟩
    · exact absurd (le_antisymm (hinv2 _) (not_lt.mp hn)) h
  · intro k
    rcases serial_optimized_v2.fixed_add_to_cell_cases g2 pid p with ⟨hlt, e⟩ | ⟨_, e⟩
    · rw [e]
      by_cases hk : k = serial_optimized_v2.cell_of g2 p
      · rw [hk, Function.update_same]
        exact hlt
      · rw [Function.update_noteq hk]
        exact hinv2 k
    · rw [e]
      exact hinv2 k
  · intro parts n hfull k hk hmem
    exact (serial_optimized_v2.fixed_dropped_not_recorded g2 parts pid hfull n k hk pid hmem).2 rfl
  · intro h
    have hc : (openmp_v3.add_to_cell g3 pid p).cells = g3.cells := by
      rcases openmp_v3.locked_add_to_cell_cases g3 pid p with ⟨hlt, _⟩ | ⟨_, e⟩
      · rw [h] at hlt
        exact absurd hlt (lt_irrefl _)
      · exact e
    refine ⟨hc, fun hl => ?_⟩
    obtain ⟨f1, f2, f3, f4⟩ := openmp_v3.add_to_cell_frame g3 pid p
    have hl' : (openmp_v3.add_to_cell g3 pid p).locks = g3.locks := by
      rw [f4, ← hl, Function.update_eq_self]
    cases hg : openmp_v3.add_to_cell g3 pid p
    cases g3
    rw [hg] at hc f1 f2 f3 hl'
    simp only at hc f1 f2 f3 hl'
    simp only [openmp_v3.grid_t.mk.injEq]
    exact ⟨hc, f1, f2, f3, hl'⟩
  · intro h
    rcases openmp_v3.locked_add_to_cell_cases g3 pid p with ⟨_, e⟩ | ⟨hn, _⟩
    · rw [e]
      exact ⟨Function.update_same _ _ _, fun k hk => Function.update_noteq hk _ _⟩
    · exact absurd (le_antisymm (hinv3 _) (not_lt.mp hn)) h
  · intro k
    rcases openmp_v3.locked_add_to_cell_cases g3 pid p with ⟨hlt, e⟩ | ⟨_, e⟩
    · rw [e]
      by_cases hk : k = openmp_v3.cell_of g3 p
      · rw [hk, Function.update_same]
        exact hlt
      · rw [Function.update_noteq hk]
        exact hinv3 k
    · rw [e]
      exact hinv3 k
  · intro parts n hfull k hk hmem
    exact (openmp_v3.locked_dropped_not_recorded g3 parts pid hfull n k hk pid hmem).2 rfl

theorem sample_full_grid_capacity (k : ℤ) :
    (sample_full_grid.cells k).size ≤ serial_optimized_v2.MAX_PER_CELL := by
  unfold sample_full_grid serial_optimized_v2.MAX_PER_CELL
  simp only []
  split <;> decide

theorem sample_full_grid_v3_capacity (k : ℤ) :
    (sample_full_grid_v3.cells k).size ≤ openmp_v3.MAX_PER_CELL := by
  unfold sample_full_grid_v3 openmp_v3.MAX_PER_CELL
  simp only []
  split <;> decide


theorem sample_full_grid_target :
    serial_optimized_v2.cell_of sample_full_grid (⟨1 / 2, 0, 0, 0, 0, 0⟩ : particle_t ℚ) = 0
      ∧ openmp_v3.cell_of sample_full_grid_v3 (⟨1 / 2, 0, 0, 0, 0, 0⟩ : particle_t ℚ) = 0 := by
  constructor <;>
    simp [serial_optimized_v2.cell_of, serial_optimized_v2.cell_index, openmp_v3.cell_of,
      openmp_v3.cell_index, sample_full_grid, sample_full_grid_v3, to_int] <;>
    norm_num [Int.floor_eq_iff]

/-- Witness of C16: a 5 x 5 grid whose cell 0 is full (8 indices in
serial_optimized_v2.cpp, 24 in openmp_v3.cpp) and whose other cells are empty;
the particle 24 at `(1/2, 0)` falls in cell 0 and is dropped, the grid staying
as it was. -/
theorem capacity_overflow_drops_particle_witness :
    ((∀ k, (sample_full_grid.cells k).size ≤ serial_optimized_v2.MAX_PER_CELL)
      ∧ (∀ k, (sample_full_grid_v3.cells k).size ≤ openmp_v3.MAX_PER_CELL))
    ∧ serial_optimized_v2.add_to_cell sample_full_grid 24 ⟨1 / 2, 0, 0, 0, 0, 0⟩
        = sample_full_grid
    ∧ openmp_v3.add_to_cell sample_full_grid_v3 24 ⟨1 / 2, 0, 0, 0, 0, 0⟩
        = sample_full_grid_v3
    ∧ (∀ k, ((serial_optimized_v2.add_to_cell sample_full_grid 24
          ⟨1 / 2, 0, 0, 0, 0, 0⟩).cells k).size ≤ serial_optimized_v2.MAX_PER_CELL)
    ∧ (∀ k, ((openmp_v3.add_to_cell sample_full_grid_v3 24
          ⟨1 / 2, 0, 0, 0, 0, 0⟩).cells k).size ≤ openmp_v3.MAX_PER_CELL) :=
  ⟨⟨sample_full_grid_capacity, sample_full_grid_v3_capacity⟩,
    (capacity_overflow_drops_particle sample_full_grid sample_full_grid_v3 24
      ⟨1 / 2, 0, 0, 0, 0, 0⟩ sample_full_grid_capacity sample_full_grid_v3_capacity).2.1.1
      (by rw [sample_full_grid_target.1]; rfl),
    ((capacity_overflow_drops_particle sample_full_grid sample_full_grid_v3 24
      ⟨1 / 2, 0, 0, 0, 0, 0⟩ sample_full_grid_capacity sample_full_grid_v3_capacity).2.2.1
      (by rw [sample_full_grid_target.2]; rfl)).2 (by rw [sample_full_grid_target.2]; rfl),
    (capacity_overflow_drops_particle sample_full_grid sample_full_grid_v3 24
      ⟨1 / 2, 0, 0, 0, 0, 0⟩ sample_full_grid_capacity sample_full_grid_v3_capacity).2.1.2.2.1,
    (capacity_overflow_drops_particle sample_full_grid sample_full_grid_v3 24
      ⟨1 / 2, 0, 0, 0, 0, 0⟩ sample_full_grid_capacity
      sample_full_grid_v3_capacity).2.2.2.2.1⟩

end overflow

/-! ## Momentum in the symmetric variant -/

section momentum

variable {α : Type} [LinearOrderedField α] [FloorRing α]

/-- Summing over the particles and over the calls can be exchanged. -/
theorem sum_range_list_sum {M β : Type} [AddCommMonoid M] (T : List β) (n : ℕ)
    (h : β → ℕ → M) :
    ∑ k in Finset.range n, (T.map fun pq => h pq k).sum
      = (T.map fun pq => ∑ k in Finset.range n, h pq k).sum := by
  induction T with
  | nil => simp
  | cons a T ih =>
    simp only [List.map_cons, List.sum_cons, Finset.sum_add_distrib, ih]

/-- One symmetric call adds nothing to the sum of the accelerations. -/
theorem sum_range_call_eq_zero (n p q : ℕ) (f : α) (hp : p < n) (hq : q < n) :
    ∑ k in Finset.range n, ((if p = k then f else 0) - (if q = k then f else 0)) = 0 := by
  rw [Finset.sum_sub_distrib, Finset.sum_ite_eq, Finset.sum_ite_eq,
    if_pos (Finset.mem_range.mpr hp), if_pos (Finset.mem_range.mpr hq), sub_self]

/-- The force pass of serial_optimized_v2.cpp keeps positions and velocities. -/
theorem serial_optimized_v2.force_pass_keeps (c : Consts α) (g : serial_optimized_v2.grid_t α)
    (nbrs : ℤ → List ℤ) (parts : ℕ → particle_t α) (n k : ℕ) :
    ((serial_optimized_v2.force_pass c g nbrs parts n).2.parts k).x = (parts k).x
      ∧ ((serial_optimized_v2.force_pass c g nbrs parts n).2.parts k).y = (parts k).y
      ∧ ((serial_optimized_v2.force_pass c g nbrs parts n).2.parts k).vx = (parts k).vx
      ∧ ((serial_optimized_v2.force_pass c g nbrs parts n).2.parts k).vy = (parts k).vy := by
  unfold serial_optimized_v2.force_pass
  simp only []
  rw [serial_optimized_v2.apply_forces_eq]
  obtain ⟨h1, h2, h3, h4, _, _⟩ := (serial_optimized_v2.sym_fold c
    (serial_optimized_v2.call_pairs
      (serial_optimized_v2.populate (serial_optimized_v2.reset_cells g) parts n) nbrs)
    ⟨serial_optimized_v2.reset_accelerations parts n, []⟩).2 k
  rw [h1, h2, h3, h4]
  simp only [serial_optimized_v2.reset_accelerations_spec]
  split <;> exact ⟨rfl, rfl, rfl, rfl⟩

/-- After the force pass of serial_optimized_v2.cpp the accelerations of the
particles sum to zero. -/
theorem serial_optimized_v2.force_pass_sum_zero (c : Consts α)
    (g : serial_optimized_v2.grid_t α) (parts : ℕ → particle_t α) (n : ℕ) (hnx : 1 ≤ g.nx) :
    ∑ k in Finset.range n, ((serial_optimized_v2.force_pass c g
        (precompute_neighbors g.nx g.ny) parts n).2.parts k).ax = 0
    ∧ ∑ k in Finset.range n, ((serial_optimized_v2.force_pass c g
        (precompute_neighbors g.nx g.ny) parts n).2.parts k).ay = 0 := by
  have hlt : ∀ pq ∈ serial_optimized_v2.call_pairs
      (serial_optimized_v2.populate (serial_optimized_v2.reset_cells g) parts n)
      (precompute_neighbors g.nx g.ny), pq.1 < n ∧ pq.2 < n := by
    intro pq hpq
    obtain ⟨⟨i, hi⟩, ⟨j, hj⟩⟩ := serial_optimized_v2.call_pairs_members g parts n hnx pq hpq
    exact ⟨List.mem_range.mp (List.mem_filter.mp (List.mem_of_mem_take hi)).1,
      List.mem_range.mp (List.mem_filter.mp (List.mem_of_mem_take hj)).1⟩
  have hreset : ∀ k ∈ Finset.range n,
      (serial_optimized_v2.reset_accelerations parts n k).ax = 0
        ∧ (serial_optimized_v2.reset_accelerations parts n k).ay = 0 := by
    intro k hk
    rw [serial_optimized_v2.reset_accelerations_spec, if_pos (Finset.mem_range.mp hk)]
    exact ⟨rfl, rfl⟩
  constructor
  · rw [Finset.sum_congr rfl (fun k _ =>
      (serial_optimized_v2.force_pass_acc c g (precompute_neighbors g.nx g.ny) parts n k).1),
      Finset.sum_add_distrib, Finset.sum_eq_zero (fun k hk => (hreset k hk).1), zero_add,
      sum_range_list_sum]
    apply List.sum_eq_zero
    intro x hx
    rw [List.mem_map] at hx
    obtain ⟨pq, hpq, rfl⟩ := hx
    exact sum_range_call_eq_zero n pq.1 pq.2 _ (hlt pq hpq).1 (hlt pq hpq).2
  · rw [Finset.sum_congr rfl (fun k _ =>
      (serial_optimized_v2.force_pass_acc c g (precompute_neighbors g.nx g.ny) parts n k).2),
      Finset.sum_add_distrib, Finset.sum_eq_zero (fun k hk => (hreset k hk).2), zero_add,
      sum_range_list_sum]
    apply List.sum_eq_zero
    intro x hx
    rw [List.mem_map] at hx
    obtain ⟨pq, hpq, rfl⟩ := hx
    exact sum_range_call_eq_zero n pq.1 pq.2 _ (hlt pq hpq).1 (hlt pq hpq).2

/-- The loop "Move particles" of serial_optimized_v2.cpp returns when each
call of `move` does, with every particle of the list replaced by the result
of its call. -/
theorem serial_optimized_v2.move_particles_spec (c : Consts α) (fuel : ℕ)
    (ps : ℕ → particle_t α) (n : ℕ) (size : α) (f : ℕ → particle_t α)
    (h : ∀ i, i < n → serial_optimized_v2.move c fuel (ps i) size = some (f i)) :
    serial_optimized_v2.move_particles c fuel ps n size
      = some (fun k => if k < n then f k else ps k) := by
  induction n with
  | zero => simp [serial_optimized_v2.move_particles]
  | succ m ih =>
    have ih' := ih (fun i hi => h i (by omega))
    unfold serial_optimized_v2.move_particles at ih' ⊢
    rw [List.range_succ, List.foldl_append, ih']
    simp only [List.foldl_cons, List.foldl_nil, Option.some_bind, lt_irrefl, if_false,
      h m (Nat.lt_succ_self m), Option.map_some']
    congr 1
    funext k
    by_cases hk : k = m
    · subst hk
      simp
    · rw [Function.update_noteq hk]
      by_cases hlt : k < m
      · rw [if_pos hlt, if_pos (by omega)]
      · rw [if_neg hlt, if_neg (by omega)]


/-- C15 (momentum conservation in symmetric mode). For every particle list
with positions in the domain, after the force phase of `simulate_one_step` of
serial_optimized_v2.cpp the accelerations of the particles sum to zero on each
axis. Hence, when no particle leaves the domain in its Euler update (so that
`move` reflects none), `simulate_one_step` returns, whatever the fuel, and the
sums of `vx` and of `vy` over the particles after the step equal the sums
before it; in particular a system with zero total momentum keeps zero total
momentum. The grid is any grid with the dimensions set by `init_simulation`. -/
theorem symmetric_step_conserves_momentum (c : Consts α) (size : α)
    (alloc : ℤ → serial_optimized_v2.cell_t) (g : serial_optimized_v2.grid_t α)
    (parts : ℕ → particle_t α) (num_parts : ℕ) (hsize : 0 < size) (hcut : 0 < c.cutoff)
    (hnx : g.nx = (serial_optimized_v2.init_simulation c size alloc).1.nx)
    (hny : g.ny = (serial_optimized_v2.init_simulation c size alloc).1.ny)
    (hdom : ∀ k, k < num_parts → (0 ≤ (parts k).x ∧ (parts k).x ≤ size)
      ∧ (0 ≤ (parts k).y ∧ (parts k).y ≤ size)) :
    (∑ i in Finset.range num_parts, ((serial_optimized_v2.force_pass c g
          (serial_optimized_v2.init_simulation c size alloc).2 parts num_parts).2.parts i).ax = 0
      ∧ ∑ i in Finset.range num_parts, ((serial_optimized_v2.force_pass c g
          (serial_optimized_v2.init_simulation c size alloc).2 parts num_parts).2.parts i).ay = 0)
    ∧ ((∀ i, i < num_parts → ∀ q : particle_t α,
          q = (serial_optimized_v2.force_pass c g
            (serial_optimized_v2.init_simulation c size alloc).2 parts num_parts).2.parts i →
          (0 ≤ q.x + (q.vx + q.ax * c.dt) * c.dt ∧ q.x + (q.vx + q.ax * c.dt) * c.dt ≤ size)
            ∧ (0 ≤ q.y + (q.vy + q.ay * c.dt) * c.dt
              ∧ q.y + (q.vy + q.ay * c.dt) * c.dt ≤ size)) →
        ∀ fuel : ℕ, ∃ r : serial_optimized_v2.grid_t α × traced α,
          serial_optimized_v2.simulate_one_step c fuel g
              (serial_optimized_v2.init_simulation c size alloc).2 parts num_parts size = some r
            ∧ ∑ i in Finset.range num_parts, (r.2.parts i).vx
                = ∑ i in Finset.range num_parts, (parts i).vx
            ∧ ∑ i in Finset.range num_parts, (r.2.parts i).vy
                = ∑ i in Finset.range num_parts, (parts i).vy
            ∧ (∑ i in Finset.range num_parts, (parts i).vx = 0
                ∧ ∑ i in Finset.range num_parts, (parts i).vy = 0 →
              ∑ i in Finset.range num_parts, (r.2.parts i).vx = 0
                ∧ ∑ i in Finset.range num_parts, (r.2.parts i).vy = 0)) := by
  have hdom' := hdom
  have hnx1 : 1 ≤ g.nx := by
    have hnx' : g.nx = to_int (size / (c.cutoff * (5 / 2))) + 1 := hnx
    have := to_int_div_nonneg hsize.le (by linarith : 0 < c.cutoff * (5 / 2))
    omega
  have e : (serial_optimized_v2.init_simulation c size alloc).2
      = precompute_neighbors g.nx g.ny := by
    rw [hnx, hny]
    rfl
  rw [e]
  obtain ⟨zx, zy⟩ := serial_optimized_v2.force_pass_sum_zero c g parts num_parts hnx1
  refine ⟨⟨zx, zy⟩, ?_⟩
  intro hin fuel
  have hmove := serial_optimized_v2.move_particles_spec c fuel
    (serial_optimized_v2.force_pass c g (precompute_neighbors g.nx g.ny) parts
      num_parts).2.parts num_parts size _
    (fun i hi => move_no_bounce c fuel _ size (hin i hi _ rfl).1 (hin i hi _ rfl).2)
  have hvx : ∑ i in Finset.range num_parts,
      (((serial_optimized_v2.force_pass c g (precompute_neighbors g.nx g.ny) parts
          num_parts).2.parts i).vx
        + ((serial_optimized_v2.force_pass c g (precompute_neighbors g.nx g.ny) parts
          num_parts).2.parts i).ax * c.dt)
      = ∑ i in Finset.range num_parts, (parts i).vx := by
    rw [Finset.sum_add_distrib, ← Finset.sum_mul, zx, zero_mul, add_zero]
    exact Finset.sum_congr rfl (fun i _ =>
      (serial_optimized_v2.force_pass_keeps c g _ parts num_parts i).2.2.1)
  have hvy : ∑ i in Finset.range num_parts,
      (((serial_optimized_v2.force_pass c g (precompute_neighbors g.nx g.ny) parts
          num_parts).2.parts i).vy
        + ((serial_optimized_v2.force_pass c g (precompute_neighbors g.nx g.ny) parts
          num_parts).2.parts i).ay * c.dt)
      = ∑ i in Finset.range num_parts, (parts i).vy := by
    rw [Finset.sum_add_distrib, ← Finset.sum_mul, zy, zero_mul, add_zero]
    exact Finset.sum_congr rfl (fun i _ =>
      (serial_optimized_v2.force_pass_keeps c g _ parts num_parts i).2.2.2)
  unfold serial_optimized_v2.simulate_one_step
  rw [hmove]
  refine ⟨_, rfl, ?_⟩
  suffices h : _ ∧ _ from ⟨h.1, h.2, fun z => ⟨h.1.trans z.1, h.2.trans z.2⟩⟩
  constructor
  · rw [← hvx]
    exact Finset.sum_congr rfl (fun i hi => by
      simp only [if_pos (Finset.mem_range.mp hi)])
  · rw [← hvy]
    exact Finset.sum_congr rfl (fun i hi => by
      simp only [if_pos (Finset.mem_range.mp hi)])


theorem sample_middle_in_domain (k : ℕ) (hk : k < 2) :
    (0 ≤ (sample_middle k).x ∧ (sample_middle k).x ≤ 10)
      ∧ (0 ≤ (sample_middle k).y ∧ (sample_middle k).y ≤ 10) := by
  interval_cases k <;> norm_num [sample_middle]

/-- The force pass of serial_optimized_v2.cpp on the two particles in
mid-domain: they push each other apart with `2` along `x`. -/
theorem sample_middle_forces (i : ℕ) (hi : i < 2) :
    ((serial_optimized_v2.force_pass sample_consts
        (serial_optimized_v2.init_simulation sample_consts 10 sample_alloc).1
        (serial_optimized_v2.init_simulation sample_consts 10 sample_alloc).2
        sample_middle 2).2.parts i).ax = (if i = 0 then -2 else 2)
    ∧ ((serial_optimized_v2.force_pass sample_consts
        (serial_optimized_v2.init_simulation sample_consts 10 sample_alloc).1
        (serial_optimized_v2.init_simulation sample_consts 10 sample_alloc).2
        sample_middle 2).2.parts i).ay = 0 := by
  obtain ⟨h1, h2⟩ := serial_optimized_v2.fixed_force_pass_eq_sum sample_consts 10 sample_alloc
    (serial_optimized_v2.init_simulation sample_consts 10 sample_alloc).1 sample_middle 2 i
    (by norm_num) (by norm_num [sample_consts]) rfl rfl rfl sample_middle_in_domain
    (fun k => le_trans (List.length_filter_le _ _)
      (by simp [serial_optimized_v2.MAX_PER_CELL])) hi
  have e : (serial_optimized_v2.init_simulation sample_consts 10 sample_alloc).2
      = precompute_neighbors (serial_optimized_v2.init_simulation sample_consts 10 sample_alloc).1.nx
          (serial_optimized_v2.init_simulation sample_consts 10 sample_alloc).1.ny := rfl
  rw [e, h1, h2]
  interval_cases i
  · simp [Finset.sum_range_succ, pair_force, sample_middle, sample_consts]
    norm_num [rat_sqrt_quarter]
  · simp [Finset.sum_range_succ, pair_force, sample_middle, sample_consts]
    norm_num [rat_sqrt_quarter]


theorem sample_middle_no_reflection (i : ℕ) (hi : i < 2) (q : particle_t ℚ)
    (hq : q = (serial_optimized_v2.force_pass sample_consts
        (serial_optimized_v2.init_simulation sample_consts 10 sample_alloc).1
        (serial_optimized_v2.init_simulation sample_consts 10 sample_alloc).2
        sample_middle 2).2.parts i) :
    (0 ≤ q.x + (q.vx + q.ax * sample_consts.dt) * sample_consts.dt
        ∧ q.x + (q.vx + q.ax * sample_consts.dt) * sample_consts.dt ≤ 10)
      ∧ (0 ≤ q.y + (q.vy + q.ay * sample_consts.dt) * sample_consts.dt
        ∧ q.y + (q.vy + q.ay * sample_consts.dt) * sample_consts.dt ≤ 10) := by
  obtain ⟨k1, k2, k3, k4⟩ := serial_optimized_v2.force_pass_keeps sample_consts
    (serial_optimized_v2.init_simulation sample_consts 10 sample_alloc).1
    (serial_optimized_v2.init_simulation sample_consts 10 sample_alloc).2 sample_middle 2 i
  obtain ⟨a1, a2⟩ := sample_middle_forces i hi
  rw [hq, k1, k2, k3, k4, a1, a2]
  interval_cases i <;> norm_num [sample_middle, sample_consts]

/-- Witness of C15: two particles at rest half a cutoff apart in the middle of
a domain of size `10` (`cutoff = 1`, `dt = 1/1000`), on the grid left by
`init_simulation`; neither leaves the domain in the step. -/
theorem symmetric_step_conserves_momentum_witness :
    ((0 : ℚ) < 10 ∧ 0 < sample_consts.cutoff
      ∧ (∀ k, k < 2 → (0 ≤ (sample_middle k).x ∧ (sample_middle k).x ≤ 10)
          ∧ (0 ≤ (sample_middle k).y ∧ (sample_middle k).y ≤ 10))
      ∧ ∀ i, i < 2 → ∀ q : particle_t ℚ,
          q = (serial_optimized_v2.force_pass sample_consts
            (serial_optimized_v2.init_simulation sample_consts 10 sample_alloc).1
            (serial_optimized_v2.init_simulation sample_consts 10 sample_alloc).2
            sample_middle 2).2.parts i →
          (0 ≤ q.x + (q.vx + q.ax * sample_consts.dt) * sample_consts.dt
              ∧ q.x + (q.vx + q.ax * sample_consts.dt) * sample_consts.dt ≤ 10)
            ∧ (0 ≤ q.y + (q.vy + q.ay * sample_consts.dt) * sample_consts.dt
              ∧ q.y + (q.vy + q.ay * sample_consts.dt) * sample_consts.dt ≤ 10))
    ∧ (∑ i in Finset.range 2, ((serial_optimized_v2.force_pass sample_consts
          (serial_optimized_v2.init_simulation sample_consts 10 sample_alloc).1
          (serial_optimized_v2.init_simulation sample_consts 10 sample_alloc).2
          sample_middle 2).2.parts i).ax = 0
      ∧ ∑ i in Finset.range 2, ((serial_optimized_v2.force_pass sample_consts
          (serial_optimized_v2.init_simulation sample_consts 10 sample_alloc).1
          (serial_optimized_v2.init_simulation sample_consts 10 sample_alloc).2
          sample_middle 2).2.parts i).ay = 0)
    ∧ ∀ fuel : ℕ, ∃ r : serial_optimized_v2.grid_t ℚ × traced ℚ,
        serial_optimized_v2.simulate_one_step sample_consts fuel
            (serial_optimized_v2.init_simulation sample_consts 10 sample_alloc).1
            (serial_optimized_v2.init_simulation sample_consts 10 sample_alloc).2
            sample_middle 2 10 = some r
          ∧ ∑ i in Finset.range 2, (r.2.parts i).vx = ∑ i in Finset.range 2, (sample_middle i).vx
          ∧ ∑ i in Finset.range 2, (r.2.parts i).vy = ∑ i in Finset.range 2, (sample_middle i).vy
          ∧ (∑ i in Finset.range 2, (sample_middle i).vx = 0
              ∧ ∑ i in Finset.range 2, (sample_middle i).vy = 0 →
            ∑ i in Finset.range 2, (r.2.parts i).vx = 0
              ∧ ∑ i in Finset.range 2, (r.2.parts i).vy = 0) :=
  ⟨⟨by norm_num, by norm_num [sample_consts], sample_middle_in_domain,
      sample_middle_no_reflection⟩,
    (symmetric_step_conserves_momentum sample_consts 10 sample_alloc
      (serial_optimized_v2.init_simulation sample_consts 10 sample_alloc).1 sample_middle 2
      (by norm_num) (by norm_num [sample_consts]) rfl rfl sample_middle_in_domain).1,
    (symmetric_step_conserves_momentum sample_consts 10 sample_alloc
      (serial_optimized_v2.init_simulation sample_consts 10 sample_alloc).1 sample_middle 2
      (by norm_num) (by norm_num [sample_consts]) rfl rfl sample_middle_in_domain).2
      sample_middle_no_reflection⟩

end momentum

/-! ## The cell index in 32-bit `int` arithmetic -/

section int_index

variable {α : Type} [LinearOrderedField α] [FloorRing α]

theorem wrap_int_of_fits (v : ℤ) (h0 : -2147483648 ≤ v) (h1 : v ≤ INT_MAX) : wrap_int v = v := by
  unfold INT_MAX at h1
  unfold wrap_int
  omega

/-- Counterexample to C8 as stated: `size = 500` with `cutoff = 0.01`. In
serial_optimized.cpp (`cell_size = cutoff`) `init_simulation` sets
`nx = ny = 50001`, the exact cell count `2500100001` exceeds `INT_MAX`, and
for the corner `(500, 500)` of the domain `add_to_cell` computes
`cx = cy = 50000`, whose exact index `2500100000` exceeds `INT_MAX` too: in
`int` arithmetic the index is `-1794867296` and the cell count `-1794867295`,
so the index is not in `[0, nx * ny)`. -/
theorem cell_index_overflows_int :
    ((0 : ℚ) < 500 ∧ 0 < sample_consts_fine.cutoff ∧ (0 : ℚ) ≤ 500 ∧ (500 : ℚ) ≤ 500)
    ∧ ((serial_optimized.init_simulation sample_consts_fine 500).nx = 50001
      ∧ (serial_optimized.init_simulation sample_consts_fine 500).ny = 50001
      ∧ int_grid_dim (500 : ℚ) (serial_optimized.init_simulation sample_consts_fine 500).cell_size
          = 50001)
    ∧ cast_int ((500 : ℚ) / (serial_optimized.init_simulation sample_consts_fine 500).cell_size)
        = 50000
    ∧ (INT_MAX < (serial_optimized.init_simulation sample_consts_fine 500).nx
          * (serial_optimized.init_simulation sample_consts_fine 500).ny
      ∧ INT_MAX < 50000 * (serial_optimized.init_simulation sample_consts_fine 500).nx + 50000)
    ∧ int_cell_count (serial_optimized.init_simulation sample_consts_fine 500).nx
        (serial_optimized.init_simulation sample_consts_fine 500).ny = -1794867295
    ∧ int_cell_index (serial_optimized.init_simulation sample_consts_fine 500).nx 50000 50000
        = -1794867296
    ∧ ¬ (0 ≤ int_cell_index (serial_optimized.init_simulation sample_consts_fine 500).nx
          50000 50000) := by
  have hf : to_int ((500 : ℚ) / (1 / 100)) = 50000 := by
    rw [to_int_of_nonneg (by norm_num), Int.floor_eq_iff]
    norm_num
  have hcs : (serial_optimized.init_simulation sample_consts_fine 500).cell_size = 1 / 100 := rfl
  have hnx : (serial_optimized.init_simulation sample_consts_fine 500).nx = 50001 := by
    show to_int ((500 : ℚ) / sample_consts_fine.cutoff) + 1 = 50001
    have e : sample_consts_fine.cutoff = 1 / 100 := rfl
    rw [e, hf]
    rfl
  have hny : (serial_optimized.init_simulation sample_consts_fine 500).ny = 50001 := hnx
  rw [hnx, hny, hcs]
  have hc : cast_int ((500 : ℚ) / (1 / 100)) = 50000 := by
    unfold cast_int
    rw [hf]
    decide
  refine ⟨⟨by norm_num, by norm_num [sample_consts_fine], by norm_num, le_refl _⟩,
    ⟨rfl, rfl, ?_⟩, hc, ⟨by decide, by decide⟩, by decide, by decide, by decide⟩
  unfold int_grid_dim
  rw [hc]
  decide


/-- C8 as amended: after `init_simulation` (any of the four variants) with
`size > 0` and `cutoff > 0` such that the cell count `nx * ny` does not exceed
`INT_MAX`, no `int` operation of `init_simulation` and `add_to_cell` wraps:
the dimensions and the cell count are stored exactly, and for every position
with `0 <= x <= size` and `0 <= y <= size` the coordinates computed by
`add_to_cell` satisfy `0 <= cx < nx` and `0 <= cy < ny`, the index is
`cy * nx + cx` with `0 <= cy * nx + cx < nx * ny`, also for `x = size` or
`y = size`; and in-range coordinates with the same linear index are the same
coordinates. -/
theorem cell_index_in_range_within_int (c : Consts α) (size : α) (num_parts : ℕ)
    (alloc : ℤ → serial_optimized_v2.cell_t) (alloc3 : ℤ → openmp_v3.cell_t)
    (lock_alloc : ℤ → Bool) (cell_size : α) (nx ny : ℤ) (x y : α)
    (hsize : 0 < size) (hcut : 0 < c.cutoff)
    (hg : (cell_size, nx, ny) = serial_optimized.geometry (serial_optimized.init_simulation c size)
      ∨ (cell_size, nx, ny) = openmp_critical.geometry (openmp_critical.init_simulation c size)
      ∨ (cell_size, nx, ny)
        = serial_optimized_v2.geometry (serial_optimized_v2.init_simulation c size alloc).1
      ∨ (cell_size, nx, ny)
        = openmp_v3.geometry (openmp_v3.init_simulation c num_parts size alloc3 lock_alloc).1)
    (hfit : nx * ny ≤ INT_MAX)
    (hx : 0 ≤ x) (hxs : x ≤ size) (hy : 0 ≤ y) (hys : y ≤ size) :
    (int_grid_dim size cell_size = nx ∧ int_grid_dim size cell_size = ny
      ∧ int_cell_count nx ny = nx * ny)
    ∧ (0 ≤ cast_int (x / cell_size) ∧ cast_int (x / cell_size) < nx)
    ∧ (0 ≤ cast_int (y / cell_size) ∧ cast_int (y / cell_size) < ny)
    ∧ (int_cell_index nx (cast_int (x / cell_size)) (cast_int (y / cell_size))
          = cast_int (y / cell_size) * nx + cast_int (x / cell_size)
      ∧ 0 ≤ int_cell_index nx (cast_int (x / cell_size)) (cast_int (y / cell_size))
      ∧ int_cell_index nx (cast_int (x / cell_size)) (cast_int (y / cell_size))
          < int_cell_count nx ny)
    ∧ ∀ cx cy cx' cy' : ℤ, 0 ≤ cx → cx < nx → 0 ≤ cy → cy < ny →
        0 ≤ cx' → cx' < nx → 0 ≤ cy' → cy' < ny →
        int_cell_index nx cx cy = int_cell_index nx cx' cy' → cx = cx' ∧ cy = cy' := by
  obtain ⟨hle, hnx, hny⟩ :=
    init_geometry_cases c size num_parts alloc alloc3 lock_alloc cell_size nx ny hcut hg
  have hpos : 0 < cell_size := lt_of_lt_of_le hcut hle
  have hs0 : 0 ≤ to_int (size / cell_size) := to_int_div_nonneg hsize.le hpos
  have hnn : ny = nx := by rw [hnx, hny]
  have hnx1 : 1 ≤ nx := by omega
  have hmax : INT_MAX = 2147483647 := rfl
  have hnxle : nx ≤ INT_MAX := by
    rw [hnn] at hfit
    nlinarith
  have bx : 0 ≤ to_int (x / cell_size) ∧ to_int (x / cell_size) < nx := by
    refine ⟨to_int_div_nonneg hx hpos, ?_⟩
    have := to_int_div_mono hx hxs hpos
    omega
  have by' : 0 ≤ to_int (y / cell_size) ∧ to_int (y / cell_size) < ny := by
    refine ⟨to_int_div_nonneg hy hpos, ?_⟩
    have := to_int_div_mono hy hys hpos
    omega
  have hidx : ∀ cx cy : ℤ, 0 ≤ cx → cx < nx → 0 ≤ cy → cy < ny →
      int_cell_index nx cx cy = cy * nx + cx ∧ 0 ≤ cy * nx + cx ∧ cy * nx + cx < nx * ny := by
    intro cx cy h1 h2 h3 h4
    have hb := linear_index_bounds h1 h2 h3 h4
    have hprod0 : 0 ≤ cy * nx := mul_nonneg h3 (by omega)
    unfold int_cell_index
    rw [wrap_int_of_fits (cy * nx) (by omega) (by omega),
      wrap_int_of_fits (cy * nx + cx) (by omega) (by omega)]
    exact ⟨rfl, hb.1, hb.2⟩
  have hcx : cast_int (x / cell_size) = to_int (x / cell_size) :=
    wrap_int_of_fits _ (by omega) (by omega)
  have hcy : cast_int (y / cell_size) = to_int (y / cell_size) :=
    wrap_int_of_fits _ (by omega) (by omega)
  have hcount : int_cell_count nx ny = nx * ny :=
    wrap_int_of_fits _ (by nlinarith) hfit
  have hdim : int_grid_dim size cell_size = nx := by
    unfold int_grid_dim cast_int
    rw [wrap_int_of_fits (to_int (size / cell_size)) (by omega) (by omega),
      wrap_int_of_fits _ (by omega) (by omega)]
    exact hnx.symm
  rw [hcx, hcy, hcount]
  obtain ⟨i1, i2, i3⟩ := hidx _ _ bx.1 bx.2 by'.1 by'.2
  refine ⟨⟨hdim, hdim.trans hnn.symm, rfl⟩, bx, by', ⟨i1, by rw [i1]; exact i2,
    by rw [i1]; exact i3⟩, ?_⟩
  intro cx cy cx' cy' h1 h2 h3 h4 h5 h6 h7 h8 h
  rw [(hidx cx cy h1 h2 h3 h4).1, (hidx cx' cy' h5 h6 h7 h8).1] at h
  exact linear_index_inj h1 h2 h5 h6 h


theorem sample_geometry_v2 :
    ((5 / 2 : ℚ), (5 : ℤ), (5 : ℤ))
      = serial_optimized_v2.geometry
          (serial_optimized_v2.init_simulation sample_consts 10 sample_alloc).1 := by
  have hf : to_int ((10 : ℚ) / (1 * (5 / 2))) = 4 := by
    rw [to_int_of_nonneg (by norm_num), Int.floor_eq_iff]
    norm_num
  have e : sample_consts.cutoff = 1 := rfl
  simp only [serial_optimized_v2.geometry, serial_optimized_v2.init_simulation, e, hf]
  norm_num

/-- Witness of C8 as amended: the corner `(10, 10)` of a domain of size `10`
with `cutoff = 1` in the grid of serial_optimized_v2.cpp, which has 5 x 5
cells of side `5/2`. -/
theorem cell_index_in_range_within_int_witness :
    ((0 : ℚ) < 10 ∧ 0 < sample_consts.cutoff
      ∧ ((5 / 2 : ℚ), (5 : ℤ), (5 : ℤ))
          = serial_optimized_v2.geometry
              (serial_optimized_v2.init_simulation sample_consts 10 sample_alloc).1
      ∧ (5 : ℤ) * 5 ≤ INT_MAX
      ∧ (0 : ℚ) ≤ 10 ∧ (10 : ℚ) ≤ 10 ∧ (0 : ℚ) ≤ 10 ∧ (10 : ℚ) ≤ 10)
    ∧ (int_grid_dim (10 : ℚ) (5 / 2) = 5 ∧ int_grid_dim (10 : ℚ) (5 / 2) = 5
      ∧ int_cell_count 5 5 = 5 * 5)
    ∧ (0 ≤ cast_int ((10 : ℚ) / (5 / 2)) ∧ cast_int ((10 : ℚ) / (5 / 2)) < 5)
    ∧ (0 ≤ cast_int ((10 : ℚ) / (5 / 2)) ∧ cast_int ((10 : ℚ) / (5 / 2)) < 5)
    ∧ (int_cell_index 5 (cast_int ((10 : ℚ) / (5 / 2))) (cast_int ((10 : ℚ) / (5 / 2)))
          = cast_int ((10 : ℚ) / (5 / 2)) * 5 + cast_int ((10 : ℚ) / (5 / 2))
      ∧ 0 ≤ int_cell_index 5 (cast_int ((10 : ℚ) / (5 / 2))) (cast_int ((10 : ℚ) / (5 / 2)))
      ∧ int_cell_index 5 (cast_int ((10 : ℚ) / (5 / 2))) (cast_int ((10 : ℚ) / (5 / 2)))
          < int_cell_count 5 5)
    ∧ ∀ cx cy cx' cy' : ℤ, 0 ≤ cx → cx < 5 → 0 ≤ cy → cy < 5 →
        0 ≤ cx' → cx' < 5 → 0 ≤ cy' → cy' < 5 →
        int_cell_index 5 cx cy = int_cell_index 5 cx' cy' → cx = cx' ∧ cy = cy' :=
  ⟨⟨by norm_num, by norm_num [sample_consts], sample_geometry_v2, by decide, by norm_num,
      le_refl _, by norm_num, le_refl _⟩,
    cell_index_in_range_within_int sample_consts 10 4 sample_alloc sample_alloc_v3 sample_locks
      (5 / 2) 5 5 10 10 (by norm_num) (by norm_num [sample_consts])
      (Or.inr (Or.inr (Or.inl sample_geometry_v2))) (by decide) (by norm_num) (le_refl _)
      (by norm_num) (le_refl _)⟩

end int_index

/-! ## Rounding on doubles -/

section rounding

theorem int_log_two_eq (q : ℚ) (e : ℤ) (h1 : (2 : ℚ) ^ e ≤ |q|) (h2 : |q| < (2 : ℚ) ^ (e + 1)) :
    Int.log 2 |q| = e := by
  have hq : 0 < |q| := lt_of_lt_of_le (zpow_pos (by norm_num) e) h1
  have a : e ≤ Int.log 2 |q| :=
    (Int.zpow_le_iff_le_log (by norm_num) hq).mp (by exact_mod_cast h1)
  have b : Int.log 2 |q| < e + 1 :=
    (Int.lt_zpow_iff_log_lt (by norm_num) hq).mp (by exact_mod_cast h2)
  omega

theorem round_even_of_floor (q : ℚ) (n : ℤ) (h1 : (n : ℚ) ≤ q) (h2 : 2 * (q - n) < 1) :
    round_even q = n := by
  have hf : ⌊q⌋ = n := by
    rw [Int.floor_eq_iff]
    exact ⟨h1, by linarith⟩
  unfold round_even
  rw [Int.fract, hf, if_pos h2]

theorem round_even_of_ceil (q : ℚ) (n : ℤ) (h1 : q ≤ (n : ℚ)) (h2 : 2 * ((n : ℚ) - q) < 1) :
    round_even q = n := by
  rcases eq_or_lt_of_le h1 with h | h
  · exact round_even_of_floor q n h.ge (by rw [h]; norm_num)
  · have hf : ⌊q⌋ = n - 1 := by
      rw [Int.floor_eq_iff]
      push_cast
      exact ⟨by linarith, by linarith⟩
    unfold round_even
    rw [Int.fract, hf]
    push_cast
    rw [if_neg (by linarith), if_pos (by linarith)]
    ring

theorem round_double_zero : round_double 0 = 0 := by
  simp [round_double]

/-- Evaluation of the rounding: with `2^e <= |q| < 2^(e+1)` the result is the
nearest multiple of `2^(e-52)`. -/
theorem round_double_eval (q : ℚ) (e n : ℤ) (h1 : (2 : ℚ) ^ e ≤ |q|)
    (h2 : |q| < (2 : ℚ) ^ (e + 1)) (hn : round_even (q / 2 ^ (e - 52)) = n) :
    round_double q = n * 2 ^ (e - 52) := by
  have hq : q ≠ 0 := by
    intro h
    rw [h, abs_zero] at h1
    exact absurd h1 (not_le.mpr (zpow_pos (by norm_num) e))
  unfold round_double
  rw [if_neg hq, int_log_two_eq q e h1 h2, hn]


/-- A value that is a multiple `n * 2^(e-52)` within its binade is a double. -/
theorem round_double_exact (q : ℚ) (e n : ℤ) (h1 : (2 : ℚ) ^ e ≤ |q|)
    (h2 : |q| < (2 : ℚ) ^ (e + 1)) (hn : q = n * 2 ^ (e - 52)) : round_double q = q := by
  have hpos : (0 : ℚ) < 2 ^ (e - 52) := zpow_pos (by norm_num) _
  have hdiv : q / 2 ^ (e - 52) = n := by
    rw [hn]
    field_simp
  rw [round_double_eval q e n h1 h2
    (by rw [hdiv]; exact round_even_of_floor _ n (le_refl _) (by simp)), ← hn]

theorem round_double_zpow_two (k : ℤ) : round_double (2 ^ k) = 2 ^ k := by
  refine round_double_exact _ k (2 ^ 52) ?_ ?_ ?_
  · rw [abs_of_pos (zpow_pos (by norm_num) k)]
  · rw [abs_of_pos (zpow_pos (by norm_num) k)]
    exact zpow_lt_zpow_right₀ (by norm_num) (by omega)
  · have h : (((2 : ℤ) ^ 52 : ℤ) : ℚ) = (2 : ℚ) ^ (52 : ℤ) := by norm_num
    rw [h, ← zpow_add₀ (by norm_num : (2 : ℚ) ≠ 0)]
    norm_num

theorem round_double_neg (q : ℚ) (e n : ℤ) (h1 : (2 : ℚ) ^ e ≤ |q|)
    (h2 : |q| < (2 : ℚ) ^ (e + 1)) (hn : q = n * 2 ^ (e - 52)) : round_double (-q) = -q :=
  round_double_exact (-q) e (-n) (by rwa [abs_neg]) (by rwa [abs_neg])
    (by rw [hn]; push_cast; ring)

theorem round_double_ten_pow_20 : round_double (10 ^ 20) = 10 ^ 20 :=
  round_double_exact _ 66 6103515625000000 (by norm_num) (by norm_num) (by norm_num)

/-- On doubles `10^20 - 2` is `10^20`: the doubles next to `10^20` are `16384`
apart. -/
theorem round_double_ten_pow_20_sub_two : round_double (10 ^ 20 + -2) = 10 ^ 20 := by
  rw [round_double_eval (10 ^ 20 + -2) 66 6103515625000000 (by norm_num) (by norm_num)
    (round_even_of_ceil _ _ (by norm_num) (by norm_num))]
  norm_num


theorem round_double_pos_pow (k : ℤ) (q : ℚ) (h : q = 2 ^ k) : round_double q = q := by
  rw [h]
  exact round_double_zpow_two k

theorem round_double_neg_pow (k : ℤ) (q : ℚ) (h : q = -2 ^ k) : round_double q = q := by
  rw [h]
  exact round_double_neg _ k (2 ^ 52)
    (by rw [abs_of_pos (zpow_pos (by norm_num) k)])
    (by rw [abs_of_pos (zpow_pos (by norm_num) k)]
        exact zpow_lt_zpow_right₀ (by norm_num) (by omega))
    (by
      have h : (((2 : ℤ) ^ 52 : ℤ) : ℚ) = (2 : ℚ) ^ (52 : ℤ) := by norm_num
      rw [h, ← zpow_add₀ (by norm_num : (2 : ℚ) ≠ 0)]
      norm_num)

theorem sample_loaded_kernel :
    serial_optimized_v2.apply_force_double sample_consts_dyadic sample_loaded 0 1 0
        = ⟨0, 0, 0, 0, 10 ^ 20, 0⟩
      ∧ serial_optimized_v2.apply_force_double sample_consts_dyadic sample_loaded 0 1 1
        = ⟨1 / 2, 0, 0, 0, 2, 0⟩ := by
  have r_half : round_double (1 / 2) = 1 / 2 := round_double_pos_pow (-1) _ (by norm_num)
  have r_quarter : round_double (1 / 4) = 1 / 4 := round_double_pos_pow (-2) _ (by norm_num)
  have r_one : round_double 1 = 1 := round_double_pos_pow 0 _ (by norm_num)
  have r_two : round_double 2 = 2 := round_double_pos_pow 1 _ (by norm_num)
  have r_min : round_double (1 / 16384) = 1 / 16384 := round_double_pos_pow (-14) _ (by norm_num)
  have r_m1 : round_double (-1) = -1 := round_double_neg_pow 0 _ (by norm_num)
  have r_m2 : round_double (-2) = -2 := round_double_neg_pow 1 _ (by norm_num)
  have r_m4 : round_double (-4) = -4 := round_double_neg_pow 2 _ (by norm_num)
  have hdx : round_double ((sample_loaded 1).x - (sample_loaded 0).x) = 1 / 2 := by
    simp only [sample_loaded]
    norm_num [r_half]
  have hdy : round_double ((sample_loaded 1).y - (sample_loaded 0).y) = 0 := by
    simp only [sample_loaded]
    norm_num [round_double_zero]
  have h1 : round_double ((1 / 2 : ℚ) * (1 / 2)) = 1 / 4 := by
    rw [show (1 / 2 : ℚ) * (1 / 2) = 1 / 4 by norm_num, r_quarter]
  have h2 : round_double ((0 : ℚ) * 0) = 0 := by rw [mul_zero, round_double_zero]
  have h3 : round_double ((1 / 4 : ℚ) + 0) = 1 / 4 := by rw [add_zero, r_quarter]
  have h4 : round_double (sample_consts_dyadic.cutoff * sample_consts_dyadic.cutoff) = 1 := by
    show round_double (1 * 1) = 1
    rw [mul_one, r_one]
  have h5 : round_double (sample_consts_dyadic.min_r * sample_consts_dyadic.min_r)
      = 1 / 16384 := by
    show round_double (1 / 128 * (1 / 128)) = 1 / 16384
    rw [show (1 / 128 : ℚ) * (1 / 128) = 1 / 16384 by norm_num, r_min]
  have h6 : max (1 / 4 : ℚ) (1 / 16384) = 1 / 4 := max_eq_left (by norm_num)
  have h7 : round_double (sample_consts_dyadic.sqrt (1 / 4)) = 1 / 2 := by
    show round_double (Rat.sqrt (1 / 4)) = 1 / 2
    rw [rat_sqrt_quarter, r_half]
  have h8 : round_double (sample_consts_dyadic.cutoff / (1 / 2)) = 2 := by
    show round_double (1 / (1 / 2)) = 2
    rw [show (1 : ℚ) / (1 / 2) = 2 by norm_num, r_two]
  have h9 : round_double ((1 : ℚ) - 2) = -1 := by
    rw [show (1 : ℚ) - 2 = -1 by norm_num, r_m1]
  have h10 : round_double ((-1 : ℚ) / (1 / 4)) = -4 := by
    rw [show (-1 : ℚ) / (1 / 4) = -4 by norm_num, r_m4]
  have h11 : round_double ((-4 : ℚ) / sample_consts_dyadic.mass) = -4 := by
    show round_double (-4 / 1) = -4
    rw [div_one, r_m4]
  have h12 : round_double ((-4 : ℚ) * (1 / 2)) = -2 := by
    rw [show (-4 : ℚ) * (1 / 2) = -2 by norm_num, r_m2]
  have h13 : round_double ((-4 : ℚ) * 0) = 0 := by rw [mul_zero, round_double_zero]
  have h14 : round_double ((sample_loaded 0).ax + -2) = 10 ^ 20 :=
    round_double_ten_pow_20_sub_two
  have h15 : round_double ((0 : ℚ) + 0) = 0 := by rw [add_zero, round_double_zero]
  have h16 : round_double ((0 : ℚ) - -2) = 2 := by
    rw [show (0 : ℚ) - -2 = 2 by norm_num, r_two]
  have h17 : round_double ((0 : ℚ) - 0) = 0 := by rw [sub_zero, round_double_zero]
  unfold serial_optimized_v2.apply_force_double
  simp only [hdx, hdy, h1, h2, h3, h4, h5, h6, h7, h8, h9, h10, h11, h12, h13]
  rw [if_neg (by norm_num)]
  have e0 : sample_loaded 0 = ⟨0, 0, 0, 0, 10 ^ 20, 0⟩ := rfl
  have e1 : sample_loaded 1 = ⟨1 / 2, 0, 0, 0, 0, 0⟩ := rfl
  simp only [h14, Function.update_same, Function.update_noteq (show (1 : ℕ) ≠ 0 by decide),
    Function.update_noteq (show (0 : ℕ) ≠ 1 by decide), e0, e1, h15, h16, h17,
    round_double_ten_pow_20_sub_two, and_self]


/-- Counterexample to C5 as stated, on doubles: with `cutoff = 1`,
`min_r = 1/128`, `mass = 1`, the particles `p` at `(0, 0)` with `ax = 10^20`
and `q` at `(1/2, 0)` with `ax = 0`, the call `apply_force(p, q)` of
serial_optimized_v2.cpp computes `fx = -2`; `10^20 - 2` rounds to `10^20`, so
`ax` of `p` does not change, while `ax` of `q` becomes `2`: the two changes,
`0` and `2`, are not negations of each other. -/
theorem rounded_accumulations_are_not_negations :
    ((0 : ℕ) ≠ 1 ∧ 0 < sample_consts_dyadic.cutoff ∧ 0 < sample_consts_dyadic.min_r
      ∧ 0 < sample_consts_dyadic.mass ∧ round_double (sample_loaded 0).ax = (sample_loaded 0).ax)
    ∧ (serial_optimized_v2.apply_force_double sample_consts_dyadic sample_loaded 0 1 0).ax
        - (sample_loaded 0).ax = 0
    ∧ (serial_optimized_v2.apply_force_double sample_consts_dyadic sample_loaded 0 1 1).ax
        - (sample_loaded 1).ax = 2
    ∧ (serial_optimized_v2.apply_force_double sample_consts_dyadic sample_loaded 0 1 0).ax
        - (sample_loaded 0).ax
      ≠ -((serial_optimized_v2.apply_force_double sample_consts_dyadic sample_loaded 0 1 1).ax
        - (sample_loaded 1).ax) := by
  obtain ⟨h0, h1⟩ := sample_loaded_kernel
  have e0 : sample_loaded 0 = ⟨0, 0, 0, 0, 10 ^ 20, 0⟩ := rfl
  have e1 : sample_loaded 1 = ⟨1 / 2, 0, 0, 0, 0, 0⟩ := rfl
  rw [h0, h1, e0, e1]
  refine ⟨⟨by decide, by norm_num [sample_consts_dyadic], by norm_num [sample_consts_dyadic],
    by norm_num [sample_consts_dyadic], round_double_ten_pow_20⟩, by norm_num, by norm_num,
    by norm_num⟩


theorem round_even_le_of_le (x : ℚ) (m : ℤ) (h : x ≤ (m : ℚ)) : round_even x ≤ m := by
  have hf : ⌊x⌋ ≤ m := by
    have := Int.floor_le x
    exact_mod_cast le_trans this h
  unfold round_even
  split_ifs with h1 h2 h3
  · exact hf
  · have hlt : (⌊x⌋ : ℚ) < m := by
      have hfr : 0 < Int.fract x := by linarith
      have := Int.self_sub_floor x
      linarith
    have : ⌊x⌋ < m := by exact_mod_cast hlt
    omega
  · exact hf
  · have hfr : 0 < Int.fract x := by
      have : 2 * Int.fract x = 1 := le_antisymm (not_lt.mp h2) (not_lt.mp h1)
      linarith
    have hlt : (⌊x⌋ : ℚ) < m := by
      have := Int.self_sub_floor x
      linarith
    have : ⌊x⌋ < m := by exact_mod_cast hlt
    omega

theorem le_round_even_of_le (x : ℚ) (m : ℤ) (h : (m : ℚ) ≤ x) : m ≤ round_even x := by
  have hf : m ≤ ⌊x⌋ := Int.le_floor.mpr h
  unfold round_even
  split_ifs <;> omega

theorem round_even_neg (x : ℚ) : round_even (-x) = -round_even x := by
  by_cases hx : Int.fract x = 0
  · have hxi : x = (⌊x⌋ : ℚ) := by
      have := Int.self_sub_floor x
      linarith
    rw [hxi, ← Int.cast_neg, round_even_of_floor _ (-⌊x⌋) (le_refl _) (by simp),
      round_even_of_floor _ ⌊x⌋ (le_refl _) (by simp)]
  · have hpos : 0 < Int.fract x := lt_of_le_of_ne (Int.fract_nonneg x) (Ne.symm hx)
    have hlt : Int.fract x < 1 := Int.fract_lt_one x
    have hxf : x = ⌊x⌋ + Int.fract x := (Int.floor_add_fract x).symm
    have hfl : ⌊-x⌋ = -⌊x⌋ - 1 := by
      rw [Int.floor_eq_iff]
      push_cast
      constructor <;> linarith
    have hfr : Int.fract (-x) = 1 - Int.fract x := by
      rw [Int.fract, hfl]
      push_cast
      linarith
    unfold round_even
    rw [hfl, hfr]
    split_ifs <;> first | omega | (exfalso; linarith)

theorem round_double_neg_eq (q : ℚ) : round_double (-q) = -round_double q := by
  unfold round_double
  by_cases hq : q = 0
  · simp [hq]
  · rw [if_neg hq, if_neg (neg_ne_zero.mpr hq), abs_neg, neg_div, round_even_neg]
    push_cast
    ring

theorem round_double_idem_pos (q : ℚ) (hq : 0 < q) :
    round_double (round_double q) = round_double q := by
  have habs : |q| = q := abs_of_pos hq
  have h1 : (2 : ℚ) ^ Int.log 2 q ≤ q := by
    have := Int.zpow_log_le_self (b := 2) (by norm_num) hq
    exact_mod_cast this
  have h2 : q < (2 : ℚ) ^ (Int.log 2 q + 1) := by
    have := Int.lt_zpow_succ_log_self (b := 2) (by norm_num) q
    exact_mod_cast this
  have hu : (0 : ℚ) < 2 ^ (Int.log 2 q - 52) := zpow_pos (by norm_num) _
  have e52 : (2 : ℚ) ^ Int.log 2 q = 2 ^ (52 : ℤ) * 2 ^ (Int.log 2 q - 52) := by
    rw [← zpow_add₀ (by norm_num : (2 : ℚ) ≠ 0)]
    congr 1
    ring
  have e53 : (2 : ℚ) ^ (Int.log 2 q + 1) = 2 ^ (53 : ℤ) * 2 ^ (Int.log 2 q - 52) := by
    rw [← zpow_add₀ (by norm_num : (2 : ℚ) ≠ 0)]
    congr 1
    ring
  have hlo : (((2 : ℤ) ^ 52 : ℤ) : ℚ) ≤ q / 2 ^ (Int.log 2 q - 52) := by
    rw [le_div_iff₀ hu]
    have : (((2 : ℤ) ^ 52 : ℤ) : ℚ) = (2 : ℚ) ^ (52 : ℤ) := by norm_num
    rw [this, ← e52]
    exact h1
  have hhi : q / 2 ^ (Int.log 2 q - 52) ≤ (((2 : ℤ) ^ 53 : ℤ) : ℚ) := by
    rw [div_le_iff₀ hu]
    have : (((2 : ℤ) ^ 53 : ℤ) : ℚ) = (2 : ℚ) ^ (53 : ℤ) := by norm_num
    rw [this, ← e53]
    exact h2.le
  have nlo := le_round_even_of_le _ _ hlo
  have nhi := round_even_le_of_le _ _ hhi
  have hr : round_double q
      = (round_even (q / 2 ^ (Int.log 2 q - 52)) : ℚ) * 2 ^ (Int.log 2 q - 52) := by
    unfold round_double
    rw [if_neg hq.ne', habs]
  rw [hr]
  generalize round_even (q / 2 ^ (Int.log 2 q - 52)) = n at nlo nhi
  have nloq : (2 : ℚ) ^ (52 : ℤ) ≤ (n : ℚ) := by
    have : (((2 : ℤ) ^ 52 : ℤ) : ℚ) ≤ (n : ℚ) := by exact_mod_cast nlo
    norm_num at this ⊢
    exact this
  have npos : (0 : ℚ) < n := lt_of_lt_of_le (by norm_num) nloq
  rcases eq_or_lt_of_le nhi with h | h
  · have hn : (n : ℚ) = 2 ^ (53 : ℤ) := by
      rw [h]
      norm_num
    rw [hn, ← e53]
    exact round_double_zpow_two _
  · have nhiq : (n : ℚ) ≤ 2 ^ (53 : ℤ) - 1 := by
      have : n ≤ 2 ^ 53 - 1 := by omega
      have : (n : ℚ) ≤ ((2 ^ 53 - 1 : ℤ) : ℚ) := by exact_mod_cast this
      norm_num at this ⊢
      exact this
    refine round_double_exact _ (Int.log 2 q) n ?_ ?_ rfl
    · rw [abs_of_pos (mul_pos npos hu), e52]
      exact mul_le_mul_of_nonneg_right nloq hu.le
    · rw [abs_of_pos (mul_pos npos hu), e53]
      exact mul_lt_mul_of_pos_right (by linarith) hu

/-- Rounding a double again does not change it. -/
theorem round_double_idem (q : ℚ) : round_double (round_double q) = round_double q := by
  rcases lt_trichotomy q 0 with h | h | h
  · have := round_double_idem_pos (-q) (by linarith)
    rw [round_double_neg_eq, round_double_neg_eq] at this
    linarith
  · rw [h, round_double_zero, round_double_zero]
  · exact round_double_idem_pos q h


/-- On doubles, one call of the symmetric kernel on two distinct particles
whose accelerations are zero stores `(fx, fy)` in the first and `(-fx, -fy)`
in the second. -/
theorem double_kernel_from_zero (c : Consts ℚ) (parts : ℕ → particle_t ℚ) (p q : ℕ)
    (hpq : p ≠ q) (hpx : (parts p).ax = 0) (hpy : (parts p).ay = 0) (hqx : (parts q).ax = 0)
    (hqy : (parts q).ay = 0) :
    (serial_optimized_v2.apply_force_double c parts p q p).ax
        = -(serial_optimized_v2.apply_force_double c parts p q q).ax
      ∧ (serial_optimized_v2.apply_force_double c parts p q p).ay
        = -(serial_optimized_v2.apply_force_double c parts p q q).ay := by
  have hqp : q ≠ p := fun e => hpq e.symm
  unfold serial_optimized_v2.apply_force_double
  simp only []
  split_ifs with h
  · rw [hpx, hpy, hqx, hqy]
    simp
  · simp only [Function.update_same, Function.update_noteq hpq, Function.update_noteq hqp,
      hpx, hpy, hqx, hqy, zero_add, zero_sub, round_double_idem, round_double_neg_eq, neg_neg,
      and_self]

end rounding

/-! ## The symmetric kernel, exactly and on doubles -/

section symmetric_negations

variable {α : Type} [LinearOrderedField α]

/-- C5 as amended: for two distinct particles `p`, `q` and all constants, one
call `apply_force(p, q)` of serial_optimized_v2.cpp (and of openmp_v3.cpp)
changes the two accelerations by exact negations of each other, in both
components, over exact real arithmetic; and on doubles the same holds for
serial_optimized_v2.cpp when the accelerations of `p` and `q` are zero before
the call, the call storing `(fx, fy)` in `p` and `(-fx, -fy)` in `q`. -/
theorem symmetric_kernel_changes_are_negations (c : Consts α) (parts : ℕ → particle_t α)
    (cd : Consts ℚ) (dparts : ℕ → particle_t ℚ) (p q : ℕ) (hpq : p ≠ q) :
    ((serial_optimized_v2.apply_force c parts p q p).ax - (parts p).ax
        = -((serial_optimized_v2.apply_force c parts p q q).ax - (parts q).ax)
      ∧ (serial_optimized_v2.apply_force c parts p q p).ay - (parts p).ay
        = -((serial_optimized_v2.apply_force c parts p q q).ay - (parts q).ay))
    ∧ ((openmp_v3.apply_force c parts p q p).ax - (parts p).ax
        = -((openmp_v3.apply_force c parts p q q).ax - (parts q).ax)
      ∧ (openmp_v3.apply_force c parts p q p).ay - (parts p).ay
        = -((openmp_v3.apply_force c parts p q q).ay - (parts q).ay))
    ∧ ((dparts p).ax = 0 → (dparts p).ay = 0 → (dparts q).ax = 0 → (dparts q).ay = 0 →
        (serial_optimized_v2.apply_force_double cd dparts p q p).ax - (dparts p).ax
            = -((serial_optimized_v2.apply_force_double cd dparts p q q).ax - (dparts q).ax)
          ∧ (serial_optimized_v2.apply_force_double cd dparts p q p).ay - (dparts p).ay
            = -((serial_optimized_v2.apply_force_double cd dparts p q q).ay
              - (dparts q).ay)) := by
  obtain ⟨h2, h3⟩ := symmetric_kernel_equal_and_opposite c parts p q hpq
  refine ⟨h2, h3, ?_⟩
  intro hpx hpy hqx hqy
  obtain ⟨d1, d2⟩ := double_kernel_from_zero cd dparts p q hpq hpx hpy hqx hqy
  rw [hpx, hpy, hqx, hqy, sub_zero, sub_zero, sub_zero, sub_zero]
  exact ⟨d1, d2⟩

/-- Witness of C5 as amended: the particles `(0, 0)` and `(1/2, 0)` at rest with
zero acceleration. -/
theorem symmetric_kernel_changes_are_negations_witness :
    ((0 : ℕ) ≠ 1 ∧ (sample_near 0).ax = 0 ∧ (sample_near 0).ay = 0 ∧ (sample_near 1).ax = 0
      ∧ (sample_near 1).ay = 0)
    ∧ ((serial_optimized_v2.apply_force sample_consts sample_near 0 1 0).ax - (sample_near 0).ax
        = -((serial_optimized_v2.apply_force sample_consts sample_near 0 1 1).ax
          - (sample_near 1).ax)
      ∧ (serial_optimized_v2.apply_force sample_consts sample_near 0 1 0).ay - (sample_near 0).ay
        = -((serial_optimized_v2.apply_force sample_consts sample_near 0 1 1).ay
          - (sample_near 1).ay))
    ∧ ((serial_optimized_v2.apply_force_double sample_consts_dyadic sample_near 0 1 0).ax
          - (sample_near 0).ax
        = -((serial_optimized_v2.apply_force_double sample_consts_dyadic sample_near 0 1 1).ax
          - (sample_near 1).ax)
      ∧ (serial_optimized_v2.apply_force_double sample_consts_dyadic sample_near 0 1 0).ay
          - (sample_near 0).ay
        = -((serial_optimized_v2.apply_force_double sample_consts_dyadic sample_near 0 1 1).ay
          - (sample_near 1).ay)) :=
  ⟨⟨by decide, rfl, rfl, rfl, rfl⟩,
    (symmetric_kernel_changes_are_negations sample_consts sample_near sample_consts_dyadic
      sample_near 0 1 (by decide)).1,
    (symmetric_kernel_changes_are_negations sample_consts sample_near sample_consts_dyadic
      sample_near 0 1 (by decide)).2.2 rfl rfl rfl rfl⟩

end symmetric_negations
